import Mathlib

/-!
# gomuks: the Matrix container

A shallow embedding of `matrix/matrix.go`: the event handlers
(`Container.HandleMessage`, `HandleRedaction`, `HandleEdit`, `HandleReaction`,
`HandleMembership`, `processOwnMembershipChange`, `HandleTyping`, `HandleTag`,
`HandleDirectChatInfo`) as state transformers over an explicit container
state, and `JoinRoom`, `LeaveRoom`, `Start`, `Stop`, `Logout`, `SendTyping`,
`GetHistory`, `PrepareMarkdownMessage`, `Download` and `parseReadReceipt` over
the part of the state they use.

* Pointers to rooms are modelled by the room id: a handler reads the room
  value from the room cache and writes the changed value back.
* Calls into the UI (`ifc.GomuksUI`, `ifc.MainView`, `ifc.RoomView`) are
  interface calls; they are recorded, in order, in the trace `Container.ui`.
  The getters `MainView()` and `GetRoom()` are not recorded. What a UI
  operation does with the room it is handed (its code is outside
  `matrix.go`) is not part of the model: `Container.Rooms` holds the writes
  that `matrix.go` itself makes.
* The collaborators whose answers a function consults (push rules, the
  result of `RoomView.AddEvent`, the server, the clock) are the fields of an
  environment record or arguments.
* A Go run-time panic (nil dereference, index out of range) is the outcome
  `Outcome.panic`, carrying the state reached when the panic happened.
-/

namespace Gomuks

/-! ## Events (package `mautrix`, package `event`) -/

/-- The relation of an event to another one (`mautrix.RelatesTo`). -/
structure RelatesTo where
  RelType : String
  EventID : String
  Key : String
deriving DecidableEq, Repr

/-- Relation type of an edit (`mautrix.RelReplace`). -/
def RelReplace : String := "m.replace"

/-- Relation type of a reaction (`mautrix.RelAnnotation`). -/
def RelAnnotation : String := "m.annotation"

/-- Relation type of a reply (`mautrix.RelReference`). -/
def RelReference : String := "m.reference"

/-- A decoded JSON value, as found in `Content.Raw` (what `encoding/json` puts in
an `interface{}`). A number is a finite `float64`, held by its exact value. -/
inductive JSON where
  | null
  | bool (b : Bool)
  | num (x : ℚ)
  | str (s : String)
  | arr (xs : List JSON)
  | obj (kvs : List (String × JSON))

/-- One entry of `Content.RoomTags`: the order of a tag (`json.Number`, a string). -/
structure TagInfo where
  Order : String
deriving DecidableEq, Repr

/-- The content of an event (`mautrix.Content`), with the fields the handlers read.
Go maps are association lists, read in list order. -/
structure Content where
  MsgType : String
  Body : String
  FormattedBody : String
  Membership : String
  RelatesTo : Option RelatesTo
  NewContent : Option Content
  TypingUserIDs : List String
  RoomTags : List (String × TagInfo)
  Raw : List (String × JSON)

/-- The zero value of `mautrix.Content`. -/
def Content.zero : Content :=
  { MsgType := "", Body := "", FormattedBody := "", Membership := "", RelatesTo := none,
    NewContent := none, TypingUserIDs := [], RoomTags := [], Raw := [] }

/-- The `unsigned` part of an event (`mautrix.Unsigned`), over the type `E` of
events. `Annotations` is `Relations.Annotations.Map`, a Go `map[string]int`
(`none` is the nil map). -/
structure Unsigned (E : Type) where
  PrevContent : Option Content
  TransactionID : String
  RedactedBy : String
  RedactedBecause : Option E
  Annotations : Option (List (String × Int))

/-- An event as delivered by the server (`mautrix.Event`). `EvType` is the
event type string; `StateKey` is a `*string`. -/
structure MxEvent where
  ID : String
  RoomID : String
  Sender : String
  EvType : String
  Timestamp : Int
  StateKey : Option String
  Redacts : String
  Content : Content
  Unsigned : Unsigned MxEvent

/-- State of an outgoing event (`event.OutgoingState`). -/
inductive OutgoingState where
  | StateDefault
  | StateLocalEcho
  | StateConfirmed
deriving DecidableEq, Repr

/-- A stored event (`event.Event`): the embedded `*mautrix.Event` (field `base`)
and the `Gomuks` content with the list of edits and the outgoing state. -/
structure Event where
  base : MxEvent
  Edits : List Event
  OutgoingState : OutgoingState

/-- Wrap a server event (`event.Wrap`): the `Gomuks` content is the zero value. -/
def Wrap (mxEvent : MxEvent) : Event :=
  { base := mxEvent, Edits := [], OutgoingState := OutgoingState.StateDefault }

/-- Event id of a stored event (`evt.ID`, promoted from the embedded event). -/
def Event.ID (evt : Event) : String := evt.base.ID

/-- Room id of a stored event (`evt.RoomID`, promoted from the embedded event). -/
def Event.RoomID (evt : Event) : String := evt.base.RoomID

/-- The relation of a content (`Content.GetRelatesTo`): the content's relation, or
an empty relation when it has none. -/
def Content.GetRelatesTo (content : Content) : Gomuks.RelatesTo :=
  match content.RelatesTo with
  | some rel => rel
  | none => { RelType := "", EventID := "", Key := "" }

/-- The edited event's id (`RelatesTo.GetReplaceID`): the target when the relation
is a replace relation, else the empty string. -/
def RelatesTo.GetReplaceID (rel : RelatesTo) : String :=
  if rel.RelType = RelReplace then rel.EventID else ""

/-- The annotated event's id (`RelatesTo.GetAnnotationID`): the target when the
relation is an annotation, else the empty string. -/
def RelatesTo.GetAnnotationID (rel : RelatesTo) : String :=
  if rel.RelType = RelAnnotation then rel.EventID else ""

/-! Event types registered in `OnLogin`. -/

/-- Event type `mautrix.EventMessage`. -/
def EventMessage : String := "m.room.message"
/-- Event type `mautrix.EventEncrypted`. -/
def EventEncrypted : String := "m.room.encrypted"
/-- Event type `mautrix.EventSticker`. -/
def EventSticker : String := "m.sticker"
/-- Event type `mautrix.EventReaction`. -/
def EventReaction : String := "m.reaction"
/-- Event type `mautrix.EventRedaction`. -/
def EventRedaction : String := "m.room.redaction"
/-- Event type `mautrix.StateAliases`. -/
def StateAliases : String := "m.room.aliases"
/-- Event type `mautrix.StateCanonicalAlias`. -/
def StateCanonicalAlias : String := "m.room.canonical_alias"
/-- Event type `mautrix.StateTopic`. -/
def StateTopic : String := "m.room.topic"
/-- Event type `mautrix.StateRoomName`. -/
def StateRoomName : String := "m.room.name"
/-- Event type `mautrix.StateMember`. -/
def StateMember : String := "m.room.member"
/-- Event type `mautrix.EphemeralEventReceipt`. -/
def EphemeralEventReceipt : String := "m.receipt"
/-- Event type `mautrix.EphemeralEventTyping`. -/
def EphemeralEventTyping : String := "m.typing"
/-- Event type `mautrix.AccountDataDirectChats`. -/
def AccountDataDirectChats : String := "m.direct"
/-- Event type `mautrix.AccountDataPushRules`. -/
def AccountDataPushRules : String := "m.push_rules"
/-- Event type `mautrix.AccountDataRoomTags`. -/
def AccountDataRoomTags : String := "m.tag"
/-- Event type `AccountDataGomuksPreferences`. -/
def AccountDataGomuksPreferences : String := "net.maunium.gomuks.preferences"

/-- Modelled from the spec: the source flags of an event (`EventSource`, whose
bit constants are declared outside these sources): a bitset, one bit per flag,
so `source&EventSourceLeave != 0` is the field `Leave`. -/
structure EventSource where
  Leave : Bool
  Timeline : Bool
  State : Bool
  AccountData : Bool
  Ephemeral : Bool
deriving DecidableEq, Repr

/-! ## Annotation tallies (a Go `map[string]int`) -/

/-- Read a key of a Go map (`val, _ := m[key]`): the zero value when absent. -/
def mapGet (m : List (String × Int)) (key : String) : Int :=
  match m with
  | [] => 0
  | (k, v) :: rest => if k = key then v else mapGet rest key

/-- Write a key of a Go map (`m[key] = val`). -/
def mapSet (m : List (String × Int)) (key : String) (val : Int) : List (String × Int) :=
  match m with
  | [] => [(key, val)]
  | (k, v) :: rest => if k = key then (k, val) :: rest else (k, v) :: mapSet rest key val

/-- The tally of a reaction key on a stored event
(`evt.Unsigned.Relations.Annotations.Map[key]`; a nil map reads as zero). -/
def Event.tally (evt : Event) (key : String) : Int :=
  match evt.base.Unsigned.Annotations with
  | none => 0
  | some m => mapGet m key

/-! ## Rooms (package `rooms`) -/

/-- An unread message entry of a room (`rooms.UnreadMessage`). -/
structure UnreadMessage where
  EventID : String
  Counted : Bool
  Highlight : Bool
deriving DecidableEq, Repr

/-- A tag of a room (`rooms.RoomTag`). -/
structure RoomTag where
  Tag : String
  Order : String
deriving DecidableEq, Repr

/-- Modelled from the spec: a room (`rooms.Room`, declared outside these sources),
with the fields the handlers touch. `loaded` is what `room.Loaded()` answers
(the timeline is resident in memory); `LastReceivedMessage` is an instant in
nanoseconds since the Unix epoch; `PrevBatch` is the pagination cursor. -/
structure Room where
  ID : String
  HasLeft : Bool
  loaded : Bool
  PrevBatch : String
  LastReceivedMessage : Int
  UnreadMessages : List UnreadMessage
  IsDirect : Bool
  RawTags : List RoomTag
deriving DecidableEq, Repr

/-- Modelled from the spec: a fresh room (`rooms.NewRoom`), created by
`GetOrCreate` for an id the cache has not seen: no flag set, nothing unread. -/
def NewRoom (roomID : String) : Room :=
  { ID := roomID, HasLeft := false, loaded := false, PrevBatch := "",
    LastReceivedMessage := 0, UnreadMessages := [], IsDirect := false, RawTags := [] }

/-- Modelled from the spec: `room.Loaded()`. -/
def Room.Loaded (room : Room) : Bool := room.loaded

/-- Modelled from the spec: `room.Unload()` evicts the timeline from memory. -/
def Room.Unload (room : Room) : Room := { room with loaded := false }

/-- Modelled from the spec: `room.AddUnread(eventID, counted, highlight)` records
one more unread message of the room. -/
def Room.AddUnread (room : Room) (eventID : String) (counted highlight : Bool) : Room :=
  { room with UnreadMessages := room.UnreadMessages ++
      [{ EventID := eventID, Counted := counted, Highlight := highlight }] }

/-- The instant `time.Unix(sec, nsec)`, in nanoseconds since the Unix epoch. -/
def timeUnix (sec nsec : Int) : Int := sec * 1000000000 + nsec

/-- Look a room up in the cache (`RoomCache.Get`): `none` is the nil pointer. -/
def roomsGet (rs : List Room) (roomID : String) : Option Room :=
  rs.find? (fun r => decide (r.ID = roomID))

/-- Write a room value back into the cache (the effect of a write through the
room pointer): the entry of that id is replaced. -/
def roomsPut (rs : List Room) (room : Room) : List Room :=
  match rs with
  | [] => [room]
  | r :: rest => if r.ID = room.ID then room :: rest else r :: roomsPut rest room

/-! ## The history store (`HistoryManager`) -/

/-- The history of every room: the log of stored events of a room id, oldest
first. -/
abbrev HistoryManager := List (String × List Event)

/-- The log of one room. -/
def roomLog (h : HistoryManager) (roomID : String) : List Event :=
  match h with
  | [] => []
  | (r, log) :: rest => if r = roomID then log else roomLog rest roomID

/-- Replace the log of one room. -/
def setRoomLog (h : HistoryManager) (roomID : String) (log : List Event) : HistoryManager :=
  match h with
  | [] => [(roomID, log)]
  | (r, l) :: rest =>
    if r = roomID then (r, log) :: rest else (r, l) :: setRoomLog rest roomID log

/-- Find the event of an id in a log. -/
def logGet (log : List Event) (eventID : String) : Option Event :=
  match log with
  | [] => none
  | e :: rest => if e.base.ID = eventID then some e else logGet rest eventID

/-- Apply a mutation to the event of an id in a log: the mutated event and the
new log; `none` when the id is absent. -/
def logUpdate (log : List Event) (eventID : String) (update : Event → Event) :
    Option (Event × List Event) :=
  match log with
  | [] => none
  | e :: rest =>
    if e.base.ID = eventID then some (update e, update e :: rest)
    else match logUpdate rest eventID update with
      | none => none
      | some (e', rest') => some (e', e :: rest')

/-- Errors of the history store. -/
inductive HistoryError where
  | EventNotFoundError
  | StorageError
deriving DecidableEq, Repr

/-- Modelled from the spec: `HistoryManager.Get(room, id)`, the point lookup of
the history store (declared outside these sources); NotFound is `none`. -/
def HistoryManager.Get (h : HistoryManager) (roomID eventID : String) : Option Event :=
  logGet (roomLog h roomID) eventID

/-- Modelled from the spec: `HistoryManager.Update(room, id, mutateFn)` fetches the
event, applies the mutation in place and persists; it fails with NotFound when
the id is absent. The mutated event (the one the mutation function was given,
which the handlers keep a pointer to) is returned with the new store. -/
def HistoryManager.Update (h : HistoryManager) (roomID eventID : String)
    (update : Event → Event) : Except HistoryError (Event × HistoryManager) :=
  match logUpdate (roomLog h roomID) eventID update with
  | none => Except.error HistoryError.EventNotFoundError
  | some (evt, log) => Except.ok (evt, setRoomLog h roomID log)

/-- Add the events to the tail of a log, skipping ids already present. -/
def logAppend (log : List Event) (events : List MxEvent) : List Event :=
  match events with
  | [] => log
  | e :: rest =>
    match logGet log e.ID with
    | some _ => logAppend log rest
    | none => logAppend (log ++ [Wrap e]) rest

/-- Modelled from the spec: `HistoryManager.Append(room, events)` adds the new
primary events to the tail of the room's log (re-appending an id already
present is a no-op) and returns the stored records of the given events. -/
def HistoryManager.Append (h : HistoryManager) (roomID : String) (events : List MxEvent) :
    List Event × HistoryManager :=
  let log := logAppend (roomLog h roomID) events
  (events.filterMap (fun e => logGet log e.ID), setRoomLog h roomID log)

/-! ## The container and its collaborators -/

/-- What the push rules say about an event (`pushrules.PushActionArrayShould`). -/
structure PushActionArrayShould where
  NotifySpecified : Bool
  Notify : Bool
  Highlight : Bool
deriving DecidableEq, Repr

/-- A message of the UI (`ifc.Message`), as returned by `RoomView.AddEvent`:
its id and its time (nanoseconds since the Unix epoch). -/
structure Message where
  ID : String
  Time : Int
deriving DecidableEq, Repr

/-- A recorded call of a UI operation. A room argument is recorded by the room's
id (`none` for a nil room pointer), a room view by the id of its room. -/
inductive UICall where
  | AddRoom (room : Option String)
  | RemoveRoom (room : Option String)
  | UpdateTags (room : String)
  | SetTyping (room : String) (users : List String)
  | Bump (room : String)
  | NotifyMessage (room : String) (message : Message) (should : PushActionArrayShould)
  | AddEvent (roomView : String) (evt : Event)
  | AddEdit (roomView : String) (evt : Event)
  | AddReaction (roomView : String) (evt : Event) (key : String)
  | AddRedaction (roomView : String) (evt : Event)
  | Render

/-- The collaborators a handler consults: `pushRules room evt` is
`c.PushRules().GetActions(room, evt).Should()`, and `AddEvent evt` is what
`roomView.AddEvent(evt)` returns (`none`: the event could not be parsed). -/
structure Env where
  pushRules : Room → MxEvent → PushActionArrayShould
  AddEvent : Event → Option Message

/-- The state of the container (`Container` with its config, syncer, history and
UI): `InitialSyncDone` is `c.config.AuthCache.InitialSyncDone`, `UserID` is
`c.config.UserID`, `Rooms` is `c.config.Rooms`, `FirstSyncDone` is
`c.syncer.FirstSyncDone`, `roomViews` lists the rooms for which
`MainView().GetRoom` answers a room view, `ui` is the trace of UI calls. -/
structure Container where
  InitialSyncDone : Bool
  FirstSyncDone : Bool
  UserID : String
  Rooms : List Room
  history : HistoryManager
  roomViews : List String
  ui : List UICall

/-- The result of running a handler: it returns, or it panics in the state
reached so far. -/
inductive Outcome where
  | ok (c : Container)
  | panic (c : Container)

/-- The state a handler ended in. -/
def Outcome.state : Outcome → Container
  | Outcome.ok c => c
  | Outcome.panic c => c

/-- Continue with the next statements when the outcome is a return. -/
def Outcome.andThen (o : Outcome) (f : Container → Outcome) : Outcome :=
  match o with
  | Outcome.ok c => f c
  | Outcome.panic c => Outcome.panic c

/-- Record a UI call. -/
def Container.call (c : Container) (op : UICall) : Container :=
  { c with ui := c.ui ++ [op] }

/-- The room of an id (`c.GetRoom`): `none` is the nil pointer. -/
def Container.GetRoom (c : Container) (roomID : String) : Option Room :=
  roomsGet c.Rooms roomID

/-- The room of an id, created when the cache has none (`c.GetOrCreateRoom`). -/
def Container.GetOrCreateRoom (c : Container) (roomID : String) : Room × Container :=
  match roomsGet c.Rooms roomID with
  | some room => (room, c)
  | none => (NewRoom roomID, { c with Rooms := c.Rooms ++ [NewRoom roomID] })

/-- Write a room value back (a write through the room pointer). -/
def Container.setRoom (c : Container) (room : Room) : Container :=
  { c with Rooms := roomsPut c.Rooms room }

/-- Whether the main view has a room view for the room
(`c.ui.MainView().GetRoom(roomID) != nil`). -/
def Container.hasRoomView (c : Container) (roomID : String) : Bool :=
  c.roomViews.any (fun r => decide (r = roomID))

/-! ## The handlers -/

/-- The mutation `HandleRedaction` applies to the redacted event. -/
def redactUpdate (evt : MxEvent) (redacted : Event) : Event :=
  { redacted with base := { redacted.base with Unsigned :=
      { redacted.base.Unsigned with RedactedBy := evt.ID, RedactedBecause := some evt } } }

/-- Embedding of `Container.HandleRedaction`. -/
def HandleRedaction (c : Container) (_source : EventSource) (evt : MxEvent) : Container :=
  let (room, c) := c.GetOrCreateRoom evt.RoomID
  match c.history.Update room.ID evt.Redacts (redactUpdate evt) with
  | Except.error _ => c
  | Except.ok (redactedEvt, h) =>
    let c := { c with history := h }
    if !c.InitialSyncDone || !room.Loaded then c
    else if !c.hasRoomView evt.RoomID then c
    else
      let c := c.call (UICall.AddRedaction evt.RoomID redactedEvt)
      if c.FirstSyncDone then c.call UICall.Render else c

/-- The mutation `HandleEdit` applies to the edited event. -/
def editUpdate (editEvent : Event) (evt : Event) : Event :=
  { evt with Edits := evt.Edits ++ [editEvent] }

/-- Embedding of `Container.HandleEdit`. -/
def HandleEdit (c : Container) (room : Room) (editsID : String) (editEvent : Event) :
    Container :=
  match c.history.Update room.ID editsID (editUpdate editEvent) with
  | Except.error _ => c
  | Except.ok (origEvt, h) =>
    let c := { c with history := h }
    if !c.InitialSyncDone || !room.Loaded then c
    else if !c.hasRoomView editEvent.RoomID then c
    else
      let c := c.call (UICall.AddEdit editEvent.RoomID origEvt)
      if c.FirstSyncDone then c.call UICall.Render else c

/-- The mutation `HandleReaction` applies to the annotated event. -/
def reactionUpdate (key : String) (evt : Event) : Event :=
  let m := match evt.base.Unsigned.Annotations with
    | none => []
    | some m => m
  let val := mapGet m key
  { evt with base := { evt.base with Unsigned :=
      { evt.base.Unsigned with Annotations := some (mapSet m key (val + 1)) } } }

/-- Embedding of `Container.HandleReaction`. -/
def HandleReaction (c : Container) (room : Room) (reactsTo : String) (reactEvent : Event) :
    Container :=
  let rel := reactEvent.base.Content.GetRelatesTo
  match c.history.Update room.ID reactsTo (reactionUpdate rel.Key) with
  | Except.error _ => c
  | Except.ok (origEvt, h) =>
    let c := { c with history := h }
    if !c.InitialSyncDone || !room.Loaded then c
    else if !c.hasRoomView reactEvent.RoomID then c
    else
      let c := c.call (UICall.AddReaction reactEvent.RoomID origEvt rel.Key)
      if c.FirstSyncDone then c.call UICall.Render else c

/-- The tail of `HandleMessage` from `message := roomView.AddEvent(evt)` on. The
room view found for `evt.RoomID` holds the cache's room of that id
(`roomView.MxRoom()`). `roomView.AddEvent` and `mainView.NotifyMessage` are
recorded as calls; what they do inside the UI to the room they are handed is
not modelled. -/
def HandleMessage.addEvent (env : Env) (c : Container) (evt : Event) : Outcome :=
  let c := c.call (UICall.AddEvent evt.RoomID evt)
  match env.AddEvent evt with
  | some message =>
    let (mxRoom, c) := c.GetOrCreateRoom evt.RoomID
    let mxRoom := { mxRoom with LastReceivedMessage := message.Time }
    let c := c.setRoom mxRoom
    if c.FirstSyncDone then
      let pushRules := env.pushRules mxRoom evt.base
      let c := c.call (UICall.NotifyMessage mxRoom.ID message pushRules)
      Outcome.ok (c.call UICall.Render)
    else Outcome.ok c
  | none => Outcome.ok c

/-- The part of `HandleMessage` after `c.history.Append`, for the list of events
that call returned: `evt := events[0]` panics on an empty list. Go's `/` and `%`
on `int64` truncate towards zero. -/
def HandleMessage.afterAppend (env : Env) (c : Container) (room : Room)
    (events : List Event) : Outcome :=
  match events with
  | [] => Outcome.panic c
  | evt :: _ =>
    if !c.InitialSyncDone then
      let t := timeUnix (evt.base.Timestamp.tdiv 1000) (evt.base.Timestamp.tmod 1000 * 1000)
      Outcome.ok (c.setRoom { room with LastReceivedMessage := t })
    else if !c.hasRoomView evt.RoomID then Outcome.ok c
    else if !room.Loaded then
      let pushRules := env.pushRules room evt.base
      let shouldNotify := pushRules.Notify || !pushRules.NotifySpecified
      if !shouldNotify then
        let t := timeUnix (evt.base.Timestamp.tdiv 1000) (evt.base.Timestamp.tmod 1000 * 1000)
        let room := { room with LastReceivedMessage := t }
        let room := room.AddUnread evt.ID shouldNotify pushRules.Highlight
        Outcome.ok ((c.setRoom room).call (UICall.Bump room.ID))
      else HandleMessage.addEvent env c evt
    else HandleMessage.addEvent env c evt

/-- Embedding of `Container.HandleMessage`. -/
def HandleMessage (env : Env) (c : Container) (source : EventSource) (mxEvent : MxEvent) :
    Outcome :=
  let (room, c) := c.GetOrCreateRoom mxEvent.RoomID
  if source.Leave then Outcome.ok (c.setRoom { room with HasLeft := true })
  else if source.State then Outcome.ok c
  else
    let editID := mxEvent.Content.GetRelatesTo.GetReplaceID
    if editID.length > 0 then Outcome.ok (HandleEdit c room editID (Wrap mxEvent))
    else
      let reactionID := mxEvent.Content.GetRelatesTo.GetAnnotationID
      if mxEvent.EvType = EventReaction ∧ reactionID.length > 0 then
        Outcome.ok (HandleReaction c room reactionID (Wrap mxEvent))
      else
        let (events, h) := c.history.Append room.ID [mxEvent]
        HandleMessage.afterAppend env { c with history := h } room events

/-- Membership `mautrix.MembershipLeave`. -/
def MembershipLeave : String := "leave"

/-- Embedding of `Container.processOwnMembershipChange`. `c.GetRoom` may answer
nil; writing a field of a nil room panics. -/
def processOwnMembershipChange (c : Container) (evt : MxEvent) : Outcome :=
  let membership := evt.Content.Membership
  let prevMembership := match evt.Unsigned.PrevContent with
    | some prev => prev.Membership
    | none => MembershipLeave
  if membership = prevMembership then Outcome.ok c
  else
    let room := c.GetRoom evt.RoomID
    if membership = "join" then
      match room with
      | none => Outcome.panic c
      | some room =>
        let c := c.setRoom { room with HasLeft := false }
        let c := if c.InitialSyncDone then c.call (UICall.AddRoom (some room.ID)) else c
        Outcome.ok (c.call UICall.Render)
    else if membership = "invite" then
      let c := if c.InitialSyncDone then c.call (UICall.AddRoom (room.map Room.ID)) else c
      Outcome.ok (c.call UICall.Render)
    else if membership = "leave" then
      let c := if c.InitialSyncDone then c.call (UICall.RemoveRoom (room.map Room.ID)) else c
      match room with
      | none => Outcome.panic c
      | some room =>
        let c := c.setRoom ({ room with HasLeft := true }).Unload
        Outcome.ok (c.call UICall.Render)
    else Outcome.ok c

/-- Embedding of `Container.HandleMembership`. -/
def HandleMembership (env : Env) (c : Container) (source : EventSource) (evt : MxEvent) :
    Outcome :=
  let isLeave := source.Leave
  let isTimeline := source.Timeline
  let c := if isLeave then
      let (room, c) := c.GetOrCreateRoom evt.RoomID
      c.setRoom { room with HasLeft := true }
    else c
  let isNonTimelineLeave := isLeave && !isTimeline
  if !c.InitialSyncDone && isNonTimelineLeave then Outcome.ok c
  else if evt.StateKey = some c.UserID then
    (processOwnMembershipChange c evt).andThen (fun c => HandleMessage env c source evt)
  else if !isTimeline && (!c.InitialSyncDone || isLeave) then Outcome.ok c
  else HandleMessage env c source evt

/-- The inner loop of `parseDirectChatInfo` over one list of room ids: entries
that are not strings are skipped, each room is fetched or created, and the
rooms not left are collected. -/
def parseDirectChatInfo.inner (roomIDList : List JSON) (directChats : List String)
    (c : Container) : List String × Container :=
  match roomIDList with
  | [] => (directChats, c)
  | JSON.str roomID :: rest =>
    let (room, c) := c.GetOrCreateRoom roomID
    if !room.HasLeft then parseDirectChatInfo.inner rest (directChats ++ [room.ID]) c
    else parseDirectChatInfo.inner rest directChats c
  | _ :: rest => parseDirectChatInfo.inner rest directChats c

/-- The outer loop of `parseDirectChatInfo` over the values of `evt.Content.Raw`:
values that are not lists are skipped. -/
def parseDirectChatInfo.outer (raw : List (String × JSON)) (directChats : List String)
    (c : Container) : List String × Container :=
  match raw with
  | [] => (directChats, c)
  | (_, JSON.arr roomIDList) :: rest =>
    let (directChats, c) := parseDirectChatInfo.inner roomIDList directChats c
    parseDirectChatInfo.outer rest directChats c
  | _ :: rest => parseDirectChatInfo.outer rest directChats c

/-- Embedding of `Container.parseDirectChatInfo`: the set of direct-chat rooms,
as the list of their ids. -/
def parseDirectChatInfo (c : Container) (evt : MxEvent) : List String × Container :=
  parseDirectChatInfo.outer evt.Content.Raw [] c

/-- The loop of `HandleDirectChatInfo` over the rooms of the cache. -/
def HandleDirectChatInfo.loop (directChats : List String) (rooms : List Room)
    (c : Container) : Container :=
  match rooms with
  | [] => c
  | room :: rest =>
    let shouldBeDirect := directChats.any (fun r => decide (r = room.ID))
    if shouldBeDirect != room.IsDirect then
      let c := c.setRoom { room with IsDirect := shouldBeDirect }
      let c := if c.InitialSyncDone then c.call (UICall.UpdateTags room.ID) else c
      HandleDirectChatInfo.loop directChats rest c
    else HandleDirectChatInfo.loop directChats rest c

/-- Embedding of `Container.HandleDirectChatInfo`. -/
def HandleDirectChatInfo (c : Container) (_source : EventSource) (evt : MxEvent) :
    Container :=
  let (directChats, c) := parseDirectChatInfo c evt
  HandleDirectChatInfo.loop directChats c.Rooms c

/-- Embedding of `Container.HandleTag`. -/
def HandleTag (c : Container) (_source : EventSource) (evt : MxEvent) : Container :=
  let (room, c) := c.GetOrCreateRoom evt.RoomID
  let newTags := evt.Content.RoomTags.map (fun (p : String × TagInfo) =>
    ({ Tag := p.1, Order := if p.2.Order.length > 0 then p.2.Order else "0.5" } : RoomTag))
  let c := c.setRoom { room with RawTags := newTags }
  if c.InitialSyncDone then c.call (UICall.UpdateTags room.ID) else c

/-- Embedding of `Container.HandleTyping`. -/
def HandleTyping (c : Container) (_source : EventSource) (evt : MxEvent) : Container :=
  if !c.InitialSyncDone then c
  else c.call (UICall.SetTyping evt.RoomID evt.Content.TypingUserIDs)

/-- The handlers registered in `OnLogin`. -/
inductive Handler where
  | HandleMessage
  | HandleRedaction
  | HandleMembership
  | HandleReadReceipt
  | HandleTyping
  | HandleDirectChatInfo
  | HandlePushRules
  | HandleTag
  | HandlePreferences
deriving DecidableEq, Repr

/-- The registrations `c.syncer.OnEventType(type, handler)` of `OnLogin`: the
handler of an event type, `none` for a type that has none. -/
def OnEventType (evType : String) : Option Handler :=
  if evType = EventMessage then some Handler.HandleMessage
  else if evType = EventEncrypted then some Handler.HandleMessage
  else if evType = EventSticker then some Handler.HandleMessage
  else if evType = EventReaction then some Handler.HandleMessage
  else if evType = EventRedaction then some Handler.HandleRedaction
  else if evType = StateAliases then some Handler.HandleMessage
  else if evType = StateCanonicalAlias then some Handler.HandleMessage
  else if evType = StateTopic then some Handler.HandleMessage
  else if evType = StateRoomName then some Handler.HandleMessage
  else if evType = StateMember then some Handler.HandleMembership
  else if evType = EphemeralEventReceipt then some Handler.HandleReadReceipt
  else if evType = EphemeralEventTyping then some Handler.HandleTyping
  else if evType = AccountDataDirectChats then some Handler.HandleDirectChatInfo
  else if evType = AccountDataPushRules then some Handler.HandlePushRules
  else if evType = AccountDataRoomTags then some Handler.HandleTag
  else if evType = AccountDataGomuksPreferences then some Handler.HandlePreferences
  else none

/-- Run `HandleMessage` on a sequence of events, in delivery order; a panic
stops the run. -/
def HandleMessage.all (env : Env) (c : Container) (events : List (EventSource × MxEvent)) :
    Outcome :=
  match events with
  | [] => Outcome.ok c
  | (source, mxEvent) :: rest =>
    (HandleMessage env c source mxEvent).andThen (fun c => HandleMessage.all env c rest)

/-! ## Sample data -/

/-- An `unsigned` part with nothing set. -/
def sampleUnsigned : Unsigned MxEvent :=
  { PrevContent := none, TransactionID := "", RedactedBy := "", RedactedBecause := none,
    Annotations := none }

/-- A text message in the room `!room`. -/
def sampleMessage : MxEvent :=
  { ID := "$msg", RoomID := "!room", Sender := "@alice:example.org", EvType := EventMessage,
    Timestamp := 1555000000123, StateKey := none, Redacts := "",
    Content := { Content.zero with Body := "hello" }, Unsigned := sampleUnsigned }

/-- A reaction to `sampleMessage` with the key `+1`. -/
def sampleReaction (eventID sender : String) : MxEvent :=
  { ID := eventID, RoomID := "!room", Sender := sender, EvType := EventReaction,
    Timestamp := 1555000001000, StateKey := none, Redacts := "",
    Content := { Content.zero with
      RelatesTo := some { RelType := RelAnnotation, EventID := "$msg", Key := "+1" } },
    Unsigned := sampleUnsigned }

/-- An edit of the event `target`. -/
def sampleEdit (eventID target body : String) : MxEvent :=
  { ID := eventID, RoomID := "!room", Sender := "@alice:example.org",
    EvType := EventMessage, Timestamp := 1555000002000, StateKey := none, Redacts := "",
    Content := { Content.zero with
      Body := body
      RelatesTo := some { RelType := RelReplace, EventID := target, Key := "" } },
    Unsigned := sampleUnsigned }

/-- A redaction of the event `target`. -/
def sampleRedaction (target : String) : MxEvent :=
  { ID := "$redaction", RoomID := "!room", Sender := "@alice:example.org",
    EvType := EventRedaction, Timestamp := 1555000003000, StateKey := none,
    Redacts := target, Content := Content.zero, Unsigned := sampleUnsigned }

/-- The room `!room`, with the given `loaded` flag. -/
def sampleRoom (loaded : Bool) : Room :=
  { NewRoom "!room" with loaded := loaded }

/-- A container in the live phase whose history of `!room` stores `sampleMessage`;
the UI has a room view for the rooms listed in `roomViews`. -/
def sampleContainer (loaded : Bool) (roomViews : List String) : Container :=
  { InitialSyncDone := true, FirstSyncDone := true, UserID := "@me:example.org",
    Rooms := [sampleRoom loaded], history := [("!room", [Wrap sampleMessage])],
    roomViews := roomViews, ui := [] }

/-- Collaborators: the push rules answer `should` for every event, and
`AddEvent` parses every event when `parses` is set. -/
def sampleEnv (should : PushActionArrayShould) (parses : Bool) : Env :=
  { pushRules := fun _ _ => should,
    AddEvent := fun evt =>
      if parses then some { ID := evt.ID, Time := evt.base.Timestamp * 1000000 } else none }

/-- The verdict "notify". -/
def shouldNotify : PushActionArrayShould :=
  { NotifySpecified := true, Notify := true, Highlight := false }

/-- The verdict "do not notify". -/
def shouldNotNotify : PushActionArrayShould :=
  { NotifySpecified := true, Notify := false, Highlight := false }

/-- Source flags of an event of a joined room's timeline. -/
def timelineSource : EventSource :=
  { Leave := false, Timeline := true, State := false, AccountData := false,
    Ephemeral := false }

/-- Source flags of an event of the state section of a joined room. -/
def stateSource : EventSource :=
  { Leave := false, Timeline := false, State := true, AccountData := false,
    Ephemeral := false }

/-- Source flags of an ephemeral event. -/
def ephemeralSource : EventSource :=
  { Leave := false, Timeline := false, State := false, AccountData := false,
    Ephemeral := true }

/-- An event of the message type that carries a redaction reference to
`sampleMessage`. -/
def sampleRedactingMessage : MxEvent :=
  { sampleMessage with ID := "$odd", Redacts := "$msg" }

/-- A topic event. -/
def sampleTopic : MxEvent :=
  { sampleMessage with ID := "$topic", EvType := StateTopic, StateKey := some "" }

/-- A typing notification. -/
def sampleTyping : MxEvent :=
  { sampleMessage with
    ID := ""
    EvType := EphemeralEventTyping
    Content := { Content.zero with TypingUserIDs := ["@alice:example.org"] } }

/-- An event of the reaction type whose relation is an edit of `sampleMessage`. -/
def sampleReactionEdit : MxEvent :=
  { sampleEdit "$re" "$msg" "* hallo" with EvType := EventReaction }

/-- An event of the message type whose relation is an annotation of
`sampleMessage`. -/
def sampleMessageAnnotation : MxEvent :=
  { sampleReaction "$ma" "@bob:example.org" with EvType := EventMessage }

/-- The UI operations that surface something to the user: `AddRoom`, `RemoveRoom`,
`AddEvent`, `AddEdit`, `AddReaction`, `AddRedaction`, `SetTyping`,
`NotifyMessage` and `UpdateTags` (not `Bump` and `Render`). -/
def UICall.gated : UICall → Bool
  | UICall.AddRoom _ => true
  | UICall.RemoveRoom _ => true
  | UICall.UpdateTags _ => true
  | UICall.SetTyping _ _ => true
  | UICall.Bump _ => false
  | UICall.NotifyMessage _ _ _ => true
  | UICall.AddEvent _ _ => true
  | UICall.AddEdit _ _ => true
  | UICall.AddReaction _ _ _ => true
  | UICall.AddRedaction _ _ => true
  | UICall.Render => false

/-- Whether a recorded call is a `NotifyMessage`. -/
def UICall.isNotifyMessage : UICall → Bool
  | UICall.NotifyMessage _ _ _ => true
  | _ => false

/-- Whether a recorded call is an `AddEvent`. -/
def UICall.isAddEvent : UICall → Bool
  | UICall.AddEvent _ _ => true
  | _ => false

/-- The UI calls recorded between the state `c` and the later state `c'`. -/
def addedCalls (c c' : Container) : List UICall := c'.ui.drop c.ui.length

/-- A message not yet in the sample history. -/
def sampleNewMessage : MxEvent :=
  { sampleMessage with ID := "$new", Timestamp := 1555000004567 }

/-- The unread messages of the room of an id in a room cache (none for a room
the cache does not have). -/
def unreadOf (rs : List Room) (roomID : String) : List UnreadMessage :=
  match roomsGet rs roomID with
  | some room => room.UnreadMessages
  | none => []

/-- The history of the sample container after `sampleNewMessage` was appended. -/
def sampleHistoryAfter : HistoryManager :=
  [("!room", [Wrap sampleMessage, Wrap sampleNewMessage])]

/-- The message the sample UI makes of `sampleNewMessage`. -/
def sampleNewUIMessage : Message :=
  { ID := "$new", Time := 1555000004567000000 }

/-- Whether a recorded call is an `AddRoom`. -/
def UICall.isAddRoom : UICall → Bool
  | UICall.AddRoom _ => true
  | _ => false

/-- The calls `HandleMessage` makes from `roomView.AddEvent(evt)` on, in a
container `c`: `AddEvent`, and when it returned a message and the syncer's
`FirstSyncDone` is set, `NotifyMessage` with the verdict of the push rules for
the view's room, then `Render`. -/
def addEventCalls (env : Env) (c : Container) (evt : Event) : List UICall :=
  UICall.AddEvent evt.RoomID evt ::
    match env.AddEvent evt with
    | some message =>
      if c.FirstSyncDone then
        [UICall.NotifyMessage evt.RoomID message
          (env.pushRules { (c.GetOrCreateRoom evt.RoomID).1 with
            LastReceivedMessage := message.Time } evt.base), UICall.Render]
      else []
    | none => []

/-! ## Joining and leaving rooms -/

/-- Embedding of `Container.JoinRoom`; `resp` is the answer of
`c.client.JoinRoom(roomID, server, nil)`: an error, or the id of the joined
room. -/
def JoinRoom (c : Container) (_roomID _server : String) (resp : Except String String) :
    Except String Room × Container :=
  match resp with
  | Except.error err => (Except.error err, c)
  | Except.ok respRoomID =>
    let (room, c) := c.GetOrCreateRoom respRoomID
    let room := { room with HasLeft := false }
    (Except.ok room, c.setRoom room)

/-- Embedding of `Container.LeaveRoom`; `resp` is the answer of
`c.client.LeaveRoom(roomID)`. The returned option is the error. -/
def LeaveRoom (c : Container) (roomID : String) (resp : Except String Unit) :
    Option String × Container :=
  match resp with
  | Except.error err => (some err, c)
  | Except.ok _ =>
    let (node, c) := c.GetOrCreateRoom roomID
    let node := { node with HasLeft := true }
    (none, c.setRoom node.Unload)

/-- The invariant of the room cache: a room that has been left is not loaded. -/
def Container.leftUnloaded (c : Container) : Prop :=
  ∀ room ∈ c.Rooms, room.HasLeft = true → room.loaded = false

/-- Source flags of an event of the timeline of a left room. -/
def leaveSource : EventSource :=
  { Leave := true, Timeline := true, State := false, AccountData := false,
    Ephemeral := false }

/-- A membership event of the sample user `@me:example.org` in `!room`, with the
given new membership and the membership of its `prev_content` (if any). -/
def sampleOwnMembership (eventID membership : String) (prev : Option String) : MxEvent :=
  { ID := eventID, RoomID := "!room", Sender := "@me:example.org", EvType := StateMember,
    Timestamp := 1555000005000, StateKey := some "@me:example.org", Redacts := "",
    Content := { Content.zero with Membership := membership },
    Unsigned := { sampleUnsigned with
      PrevContent := prev.map (fun m => { Content.zero with Membership := m }) } }

/-- The flags `(HasLeft, loaded)` of the room of an id in a room cache. -/
def flagsOf (rs : List Room) (roomID : String) : Option (Bool × Bool) :=
  (roomsGet rs roomID).map (fun room => (room.HasLeft, room.loaded))

/-- Source flags of an event of the state section of a left room. -/
def leaveStateSource : EventSource :=
  { Leave := true, Timeline := false, State := true, AccountData := false,
    Ephemeral := false }

/-! ## Starting and stopping the syncer -/

/-- A recorded call of `Logout` and `Stop` on their collaborators:
`c.client.Logout()`, `c.config.DeleteSession()`, `c.client.StopSync()`,
`c.history.Close()`, `c.ui.OnLogout()`. -/
inductive LifecycleCall where
  | ClientLogout
  | DeleteSession
  | StopSync
  | HistoryClose
  | OnLogout
deriving DecidableEq, Repr

/-- The fields of the container that `Start`, `Stop` and `Logout` use: `running`,
the number of values held by the channel `c.stop` (made with capacity 1),
whether `c.client` and `c.history` are not nil, and the calls made so far. -/
structure Session where
  running : Bool
  stop : Nat
  client : Bool
  history : Bool
  calls : List LifecycleCall
deriving DecidableEq, Repr

/-- How a call of `Stop` or `Logout` ends: it returns, it blocks on the send
`c.stop <- true` (the channel is full), or it panics on a nil client. -/
inductive Flow where
  | done (s : Session)
  | blocked (s : Session)
  | panic (s : Session)
deriving DecidableEq, Repr

/-- The state a call ended in. -/
def Flow.session : Flow → Session
  | Flow.done s => s
  | Flow.blocked s => s
  | Flow.panic s => s

/-- The part of `Stop` after the send `c.stop <- true`: `c.client.StopSync()`
(a nil client panics), `c.history.Close()`, `c.history = nil`. -/
def Stop.afterSend (s : Session) : Flow :=
  if !s.client then Flow.panic s
  else
    let s := { s with calls := s.calls ++ [LifecycleCall.StopSync] }
    let s := { s with calls := s.calls ++ [LifecycleCall.HistoryClose] }
    Flow.done { s with history := false }

/-- Embedding of `Container.Stop`. The send on the channel of capacity 1 blocks
while the channel holds a value. -/
def Stop (s : Session) : Flow :=
  if s.running then
    if s.stop < 1 then Stop.afterSend { s with stop := s.stop + 1 }
    else Flow.blocked s
  else Flow.done s

/-- Embedding of `Container.Logout`. -/
def Logout (s : Session) : Flow :=
  if !s.client then Flow.panic s
  else
    let s := { s with calls := s.calls ++ [LifecycleCall.ClientLogout] }
    let s := { s with calls := s.calls ++ [LifecycleCall.DeleteSession] }
    match Stop s with
    | Flow.done s =>
      let s := { s with client := false }
      Flow.done { s with calls := s.calls ++ [LifecycleCall.OnLogout] }
    | Flow.blocked s => Flow.blocked s
    | Flow.panic s => Flow.panic s

/-- What one call of `c.client.Sync()` returns: no error, an `mautrix.HTTPError`
with its status code, or another error. -/
inductive SyncResult where
  | ok
  | httpError (code : Nat)
  | otherError
deriving DecidableEq, Repr

/-- Status code `http.StatusUnauthorized`. -/
def StatusUnauthorized : Nat := 401

/-- How one iteration of the loop of `Start` ends: the loop goes on, `Start`
returns, or the iteration blocks or panics. -/
inductive LoopFlow where
  | continue (s : Session)
  | returned (s : Session)
  | blocked (s : Session)
  | panic (s : Session)
deriving DecidableEq, Repr

/-- The state an iteration ended in. -/
def LoopFlow.session : LoopFlow → Session
  | LoopFlow.continue s => s
  | LoopFlow.returned s => s
  | LoopFlow.blocked s => s
  | LoopFlow.panic s => s

/-- One iteration of the loop of `Start`: the `select` receives from `c.stop`
when the channel holds a value; otherwise `c.client.Sync()` is called (a nil
client panics) and `result` is what it returned. -/
def Start.iteration (s : Session) (result : SyncResult) : LoopFlow :=
  if s.stop > 0 then LoopFlow.returned { s with stop := s.stop - 1, running := false }
  else if !s.client then LoopFlow.panic s
  else
    match result with
    | SyncResult.ok => LoopFlow.continue s
    | SyncResult.httpError code =>
      if code = StatusUnauthorized then
        match Logout s with
        | Flow.done s => LoopFlow.continue s
        | Flow.blocked s => LoopFlow.blocked s
        | Flow.panic s => LoopFlow.panic s
      else LoopFlow.continue s
    | SyncResult.otherError => LoopFlow.continue s

/-- The loop of `Start`, for the results of the successive `Sync()` calls; when
the list is used up the loop is still running. -/
def Start.loop (s : Session) (results : List SyncResult) : LoopFlow :=
  match results with
  | [] => LoopFlow.continue s
  | result :: rest =>
    match Start.iteration s result with
    | LoopFlow.continue s => Start.loop s rest
    | flow => flow

/-- Embedding of `Container.Start` (after `OnLogin`). -/
def Start (s : Session) (results : List SyncResult) : LoopFlow :=
  if !s.client then LoopFlow.returned s
  else Start.loop { s with running := true } results

/-- A session in the sync loop, about to call `Sync()`. -/
def sampleSession : Session :=
  { running := true, stop := 0, client := true, history := true, calls := [] }

/-- The sync goroutine and the callers of `Stop`, interleaved: the session, the
number of `Stop` calls blocked on the send `c.stop <- true` (each has passed
the test of `c.running`), and whether the loop of `Start` is still running. -/
structure World where
  session : Session
  blockedStops : Nat
  looping : Bool
deriving DecidableEq, Repr

/-- A step of an execution: a caller invokes `Stop`; a blocked `Stop` call goes
on after its send; the sync goroutine runs one iteration of the loop. -/
inductive Action where
  | stop
  | resume
  | iterate (result : SyncResult)
deriving DecidableEq, Repr

/-- One step of an execution. A blocked send can go on once the channel is
empty; an iteration runs only while the loop has not returned. -/
def World.step (w : World) (action : Action) : World :=
  match action with
  | Action.stop =>
    match Stop w.session with
    | Flow.done s => { w with session := s }
    | Flow.blocked s => { w with session := s, blockedStops := w.blockedStops + 1 }
    | Flow.panic s => { w with session := s }
  | Action.resume =>
    if w.blockedStops > 0 ∧ w.session.stop < 1 then
      { w with
        session := (Stop.afterSend { w.session with stop := w.session.stop + 1 }).session
        blockedStops := w.blockedStops - 1 }
    else w
  | Action.iterate result =>
    if w.looping then
      match Start.iteration w.session result with
      | LoopFlow.continue s => { w with session := s }
      | LoopFlow.returned s => { w with session := s, looping := false }
      | LoopFlow.blocked s => { w with session := s, looping := false }
      | LoopFlow.panic s => { w with session := s, looping := false }
    else w

/-- Run the steps of an execution in order. -/
def World.run (w : World) (actions : List Action) : World :=
  actions.foldl World.step w

/-- The number of `c.history.Close()` calls made so far. -/
def Session.closeCalls (s : Session) : Nat :=
  s.calls.count LifecycleCall.HistoryClose

/-- The sync loop is running, inside or about to call `Sync()`. -/
def sampleWorld : World :=
  { session := sampleSession, blockedStops := 0, looping := true }

/-! ## Typing notifications -/

/-- A typing notification handed to `sendTypingAsync`: the typing flag and the
timeout in milliseconds. -/
structure TypingNotification where
  typing : Bool
  timeout : Int
deriving DecidableEq, Repr

/-- Embedding of `Container.SendTyping`: `typingState` is `c.typing`, `ts` is
`time.Now().Unix()`; the result is the new `c.typing` and the notification
sent, if any. Unix seconds are far from the bounds of `int64`, so `ts + 15` is
the integer sum. -/
def SendTyping (typingState ts : Int) (typing : Bool) : Int × Option TypingNotification :=
  if (decide (typingState > ts) && typing) || (decide (typingState = 0) && !typing) then
    (typingState, none)
  else if typing then
    (ts + 15, some { typing := true, timeout := 20000 })
  else
    (0, some { typing := false, timeout := 0 })

/-- A sequence of `SendTyping(room, true)` calls at the given times, from the
state `typingState`: the final `c.typing` and the times at which a notification
was sent. -/
def SendTyping.calls (typingState : Int) (times : List Int) : Int × List Int :=
  match times with
  | [] => (typingState, [])
  | ts :: rest =>
    let (typingState', sent) := SendTyping typingState ts true
    let (final, emitted) := SendTyping.calls typingState' rest
    (final, if sent.isSome then ts :: emitted else emitted)

/-- The invariant of `c.typing` during a sequence of `SendTyping(room, true)`
calls: the notifications sent so far are at least 15 seconds apart, and
`c.typing` is 0 when none was sent, else 15 seconds after the latest one. -/
def typingInvariant (typingState : Int) (emitted : List Int) : Prop :=
  emitted.Pairwise (fun a b => a + 15 ≤ b) ∧
  ((typingState = 0 ∧ emitted = []) ∨
   ∃ m ∈ emitted, typingState = m + 15 ∧ ∀ e ∈ emitted, e ≤ m)

/-! ## Fetching history -/

/-- The answer of the server to a messages request (`mautrix.RespMessages`). -/
structure RespMessages where
  Start : String
  End : String
  Chunk : List MxEvent
  State : List MxEvent

/-- The arguments of a call `c.client.Messages(roomID, from, to, dir, limit)`. -/
structure MessagesRequest where
  roomID : String
  fromToken : String
  toToken : String
  dir : Char
  limit : Int
deriving DecidableEq, Repr

/-- The collaborators of `GetHistory`: the history store's `Load` and `Prepend`,
the server's answer to a messages request, and `room.UpdateState`. -/
structure HistoryEnv where
  Load : Room → Int → Except String (List Event)
  Prepend : Room → List MxEvent → Except String (List Event)
  Messages : MessagesRequest → Except String RespMessages
  UpdateState : Room → MxEvent → Room

/-- What `GetHistory` returns and does: the events (`none` is nil), the error,
the room afterwards, the requests sent to the server, and the rooms handed to
`c.config.Rooms.Put`. -/
structure GetHistoryResult where
  events : Option (List Event)
  err : Option String
  room : Room
  requests : List MessagesRequest
  put : List Room

/-- Embedding of `Container.GetHistory`. -/
def GetHistory (env : HistoryEnv) (room : Room) (limit : Int) : GetHistoryResult :=
  match env.Load room limit with
  | Except.error err =>
    { events := none, err := some err, room := room, requests := [], put := [] }
  | Except.ok events =>
    if events.length > 0 then
      { events := some events, err := none, room := room, requests := [], put := [] }
    else
      let request : MessagesRequest :=
        (MessagesRequest.mk room.ID room.PrevBatch "" 'b' limit)
      match env.Messages request with
      | Except.error err =>
        { events := none, err := some err, room := room, requests := [request], put := [] }
      | Except.ok resp =>
        let room := resp.State.foldl env.UpdateState room
        let room := { room with PrevBatch := resp.End }
        if resp.Chunk.length = 0 then
          { events := some [], err := none, room := room, requests := [request],
            put := [room] }
        else
          match env.Prepend room resp.Chunk with
          | Except.error err =>
            { events := none, err := some err, room := room, requests := [request],
              put := [room] }
          | Except.ok events =>
            { events := some events, err := none, room := room, requests := [request],
              put := [room] }

/-- Collaborators for the samples: the cache holds `cached`, the server answers
with one older event and the end token `t2`. -/
def sampleHistoryEnv (cached : List Event) : HistoryEnv :=
  { Load := fun _ _ => Except.ok cached,
    Prepend := fun _ chunk => Except.ok (chunk.map Wrap),
    Messages := fun _ =>
      Except.ok { Start := "t1", End := "t2", Chunk := [sampleMessage], State := [] },
    UpdateState := fun room _ => room }

/-! ## Preparing a message -/

/-- A relation given by the UI (`ifc.Relation`): its type and the event it
refers to. -/
structure Relation where
  RelType : String
  Event : Event

/-- The collaborators of `PrepareMarkdownMessage`: `format.RenderMarkdown`,
`Content.SetReply`, the transaction id `c.client.TxnID()` generates, and
`time.Now().UnixNano()`. -/
structure MarkdownEnv where
  RenderMarkdown : String → Content
  SetReply : Content → MxEvent → Content
  TxnID : String
  UnixNano : Int

/-- The content `PrepareMarkdownMessage` builds for an edit: the rendered content
moves to `NewContent`, body and formatted body get the prefix `* `, and the
relation names the edited event. -/
def PrepareMarkdownMessage.editContent (content : Content) (target : String) : Content :=
  let contentCopy := content
  let content := { content with NewContent := some contentCopy }
  let content := { content with Body := "* " ++ content.Body }
  let content :=
    if content.FormattedBody.length > 0 then
      { content with FormattedBody := "* " ++ content.FormattedBody }
    else content
  { content with RelatesTo := some { RelType := RelReplace, EventID := target, Key := "" } }

/-- Embedding of `Container.PrepareMarkdownMessage`; `userID` is
`c.config.UserID`. For an edit the Go code stores in `Edits` a pointer to the
echo itself; the cyclic pointer is unfolded once: the element of `Edits` is
the echo with an empty edit list. -/
def PrepareMarkdownMessage (env : MarkdownEnv) (userID roomID msgtype text : String)
    (rel : Option Relation) : Event :=
  let content := env.RenderMarkdown text
  let content := { content with MsgType := msgtype }
  let content :=
    match rel with
    | none => content
    | some rel =>
      if rel.RelType = RelReplace then
        PrepareMarkdownMessage.editContent content rel.Event.ID
      else if rel.RelType = RelReference then env.SetReply content rel.Event.base
      else content
  let txnID := env.TxnID
  let localEcho := Wrap
    { ID := txnID, RoomID := roomID, Sender := userID, EvType := EventMessage,
      Timestamp := env.UnixNano.tdiv 1000000, StateKey := none, Redacts := "",
      Content := content,
      Unsigned := { PrevContent := none, TransactionID := txnID, RedactedBy := "",
                    RedactedBecause := none, Annotations := none } }
  let localEcho := { localEcho with OutgoingState := OutgoingState.StateLocalEcho }
  match rel with
  | none => localEcho
  | some rel =>
    if rel.RelType = RelReplace then
      let localEcho := { localEcho with base := { localEcho.base with ID := rel.Event.ID } }
      { localEcho with Edits := [localEcho] }
    else localEcho

/-- Collaborators for the samples. -/
def sampleMarkdownEnv : MarkdownEnv :=
  { RenderMarkdown := fun text => { Content.zero with Body := text },
    SetReply := fun content _ => content,
    TxnID := "txn1", UnixNano := 1555000009000000000 }

/-! ## Matrix content URLs -/

/-- Whether `.` of a Go regular expression matches the character: any character
but the newline. -/
def regexDot (ch : Char) : Bool := ch != '\n'

/-- Match a literal at the start of the input: the rest of the input. -/
def regexLiteral (literal s : List Char) : Option (List Char) :=
  match literal, s with
  | [], s => some s
  | _ :: _, [] => none
  | l :: literal, ch :: s => if l = ch then regexLiteral literal s else none

/-- Match `.+` and then the continuation `k`, as a backtracking matcher does:
greedily, the longest run first, giving back one character at a time. `taken`
is what `.+` has consumed so far; `k` gets the text of `.+` and the rest. -/
def regexDotPlus {R : Type} (k : List Char → List Char → Option R) (taken : List Char)
    (s : List Char) : Option R :=
  match s with
  | [] => if taken ≠ [] then k taken [] else none
  | ch :: rest =>
    if regexDot ch then
      match regexDotPlus k (taken ++ [ch]) rest with
      | some r => some r
      | none => if taken ≠ [] then k taken (ch :: rest) else none
    else if taken ≠ [] then k taken (ch :: rest) else none

/-- Match `mxc://(.+)/(.+)` at the start of the input: the two groups. -/
def mxcRegex.matchHere (s : List Char) : Option (List Char × List Char) :=
  match regexLiteral ['m', 'x', 'c', ':', '/', '/'] s with
  | none => none
  | some s1 =>
    regexDotPlus (fun hs s2 =>
      match regexLiteral ['/'] s2 with
      | none => none
      | some s3 => regexDotPlus (fun id _ => some (hs, id)) [] s3) [] s1

/-- The leftmost match of `mxc://(.+)/(.+)` in the input. -/
def mxcRegex.find : List Char → Option (List Char × List Char)
  | [] => mxcRegex.matchHere []
  | ch :: rest =>
    match mxcRegex.matchHere (ch :: rest) with
    | some groups => some groups
    | none => mxcRegex.find rest

/-- The groups of `mxcRegex.FindStringSubmatch(mxcURL)`, `parts[1]` and
`parts[2]`; `none` is the nil slice of a string without match. -/
def mxcRegex.FindStringSubmatch (mxcURL : String) : Option (String × String) :=
  (mxcRegex.find mxcURL.data).map (fun groups => (String.mk groups.1, String.mk groups.2))

/-- What `Download` returns: the data (`none` is nil), homeserver, file id and
error. -/
structure DownloadResult where
  data : Option (List Nat)
  hs : String
  id : String
  err : Option String
deriving DecidableEq, Repr

/-- Embedding of `Container.Download`; `fetch hs id` is what reading the cache
file or downloading from the server gives: the data and the error. -/
def Download (fetch : String → String → Option (List Nat) × Option String)
    (mxcURL : String) : DownloadResult :=
  match mxcRegex.FindStringSubmatch mxcURL with
  | none => { data := none, hs := "", id := "", err := some "invalid matrix content URL" }
  | some (hs, id) =>
    let (data, err) := fetch hs id
    { data := data, hs := hs, id := id, err := err }

/-! ## Read receipts -/

/-- Index a decoded JSON object (`m[key]` on a `map[string]interface{}`): `none`
is the nil interface an absent key gives. The keys of a Go map are distinct. -/
def JSON.index (m : List (String × JSON)) (key : String) : Option JSON :=
  match m with
  | [] => none
  | (k, v) :: rest => if k = key then some v else JSON.index rest key

/-- The conversion `int64(ts)` of a `float64`: the fraction is discarded
(truncation towards zero). For a value that does not fit `int64` the result
depends on the implementation; `outOfRange` is what the platform gives then. -/
def int64 (outOfRange : ℚ → Int) (ts : ℚ) : Int :=
  let t := ts.num.tdiv ts.den
  if -9223372036854775808 ≤ t ∧ t < 9223372036854775808 then t else outOfRange ts

/-- The body of the loop of `parseReadReceipt` up to `int64(ts)`: `none` when one
of the three type assertions on the maps fails (`continue`). When the assertion
`myInfo["ts"].(float64)` fails, `ts` is the zero value. -/
def parseReadReceipt.timestamp (outOfRange : ℚ → Int) (userID : String)
    (rawContent : JSON) : Option Int :=
  match rawContent with
  | JSON.obj content =>
    match JSON.index content "m.read" with
    | some (JSON.obj mRead) =>
      match JSON.index mRead userID with
      | some (JSON.obj myInfo) =>
        match JSON.index myInfo "ts" with
        | some (JSON.num ts) => some (int64 outOfRange ts)
        | _ => some (int64 outOfRange 0)
      | _ => none
    | _ => none
  | _ => none

/-- The loop of `parseReadReceipt` over `evt.Content.Raw`, from the given values
of `largestTimestamp` and `largestTimestampEvent`; it gives their final values. -/
def parseReadReceipt.loop (outOfRange : ℚ → Int) (userID : String)
    (raw : List (String × JSON)) (largestTimestamp : Int)
    (largestTimestampEvent : String) : Int × String :=
  match raw with
  | [] => (largestTimestamp, largestTimestampEvent)
  | (eventID, rawContent) :: rest =>
    match parseReadReceipt.timestamp outOfRange userID rawContent with
    | none =>
      parseReadReceipt.loop outOfRange userID rest largestTimestamp largestTimestampEvent
    | some ts =>
      if ts > largestTimestamp then
        parseReadReceipt.loop outOfRange userID rest ts eventID
      else
        parseReadReceipt.loop outOfRange userID rest largestTimestamp largestTimestampEvent

/-- Embedding of `Container.parseReadReceipt`. The map `evt.Content.Raw` is
ranged over in the order of the list. -/
def parseReadReceipt (outOfRange : ℚ → Int) (c : Container) (evt : MxEvent) : String :=
  (parseReadReceipt.loop outOfRange c.UserID evt.Content.Raw 0 "").2

/-- The `m.read` receipt of a user with a timestamp. -/
def sampleReceiptOf (userID : String) (ts : ℚ) : JSON :=
  JSON.obj [("m.read", JSON.obj [(userID, JSON.obj [("ts", JSON.num ts)])])]

/-- A receipt event of `!room` with the given content. -/
def sampleReceiptEvent (raw : List (String × JSON)) : MxEvent :=
  { sampleMessage with
    ID := ""
    EvType := EphemeralEventReceipt
    Content := { Content.zero with Raw := raw } }

/-- The number 5.5. -/
def sampleHalf : ℚ := ⟨11, 2, by decide, by decide⟩

/-- A receipt content: the own user has read `$a` at 5.5 ms and `$b` at 7 ms,
another user has read `$c` at 9 ms. -/
def sampleReceipts : List (String × JSON) :=
  [("$a", sampleReceiptOf "@me:example.org" sampleHalf),
   ("$b", sampleReceiptOf "@me:example.org" 7),
   ("$c", sampleReceiptOf "@you:example.org" 9)]

/-- The conversion of the amd64 compiler for a value out of range. -/
def sampleOutOfRange : ℚ → Int := fun _ => -9223372036854775808

/-- A container in the live phase whose history of `!room` stores one event, whose
id is the empty string. -/
def sampleEmptyIDContainer : Container :=
  { sampleContainer true ["!room"] with
    history := [("!room", [Wrap { sampleMessage with ID := "" }])] }

/-- A reaction with key `+1` whose annotation target is the empty id. -/
def sampleEmptyIDReaction : MxEvent :=
  { sampleReaction "$r1" "@alice:example.org" with
    Content := { Content.zero with
      RelatesTo := some { RelType := RelAnnotation, EventID := "", Key := "+1" } } }

/-! ## Lemmas on the store -/

theorem mapGet_mapSet (m : List (String × Int)) (key key' : String) (val : Int) :
    mapGet (mapSet m key val) key' = if key = key' then val else mapGet m key' := by
  induction m with
  | nil => simp [mapSet, mapGet]
  | cons p rest ih =>
    obtain ⟨k, v⟩ := p
    by_cases hk : k = key
    · subst hk
      by_cases hk' : k = key' <;> simp [mapSet, mapGet, hk']
    · by_cases hk' : k = key'
      · subst hk'
        have hk2 : ¬ key = k := fun h => hk h.symm
        simp [mapSet, mapGet, hk, hk2]
      · simp [mapSet, mapGet, hk, hk', ih]

theorem roomLog_setRoomLog_same (h : HistoryManager) (roomID : String) (log : List Event) :
    roomLog (setRoomLog h roomID log) roomID = log := by
  induction h with
  | nil => simp [setRoomLog, roomLog]
  | cons p rest ih =>
    obtain ⟨r, l⟩ := p
    by_cases hr : r = roomID
    · simp [setRoomLog, roomLog, hr]
    · simp [setRoomLog, roomLog, hr, ih]

theorem roomLog_setRoomLog_other (h : HistoryManager) (roomID other : String)
    (log : List Event) (hne : other ≠ roomID) :
    roomLog (setRoomLog h roomID log) other = roomLog h other := by
  induction h with
  | nil => simp [setRoomLog, roomLog, Ne.symm hne]
  | cons p rest ih =>
    obtain ⟨r, l⟩ := p
    by_cases hr : r = roomID
    · subst hr
      simp [setRoomLog, roomLog, Ne.symm hne]
    · by_cases hr' : r = other
      · subst hr'
        simp [setRoomLog, roomLog, hr]
      · simp [setRoomLog, roomLog, hr, hr', ih]

theorem logUpdate_of_logGet (log : List Event) (eventID : String) (update : Event → Event)
    (e : Event) (hid : ∀ x, (update x).base.ID = x.base.ID)
    (hget : logGet log eventID = some e) :
    ∃ log', logUpdate log eventID update = some (update e, log') ∧
      logGet log' eventID = some (update e) ∧
      (∀ other, other ≠ eventID → logGet log' other = logGet log other) ∧
      log'.length = log.length := by
  induction log with
  | nil => simp [logGet] at hget
  | cons x rest ih =>
    by_cases hx : x.base.ID = eventID
    · simp [logGet, hx] at hget
      subst hget
      refine ⟨update x :: rest, by simp [logUpdate, hx], ?_, ?_, by simp⟩
      · simp [logGet, hid, hx]
      · intro other hne
        have hxo : ¬ x.base.ID = other := fun h => hne (h.symm.trans hx)
        simp [logGet, hid, hxo]
    · simp [logGet, hx] at hget
      obtain ⟨log', h1, h2, h3, h4⟩ := ih hget
      refine ⟨x :: log', by simp [logUpdate, hx, h1], ?_, ?_, by simp [h4]⟩
      · simp [logGet, hx, h2]
      · intro other hne
        by_cases hxo : x.base.ID = other
        · simp [logGet, hxo]
        · simp [logGet, hxo, h3 other hne]

theorem logUpdate_none_of_logGet (log : List Event) (eventID : String)
    (update : Event → Event) (hget : logGet log eventID = none) :
    logUpdate log eventID update = none := by
  induction log with
  | nil => simp [logUpdate]
  | cons x rest ih =>
    by_cases hx : x.base.ID = eventID
    · simp [logGet, hx] at hget
    · simp [logGet, hx] at hget
      simp [logUpdate, hx, ih hget]

theorem Update_of_Get (h : HistoryManager) (roomID eventID : String)
    (update : Event → Event) (e : Event) (hid : ∀ x, (update x).base.ID = x.base.ID)
    (hget : h.Get roomID eventID = some e) :
    ∃ h', h.Update roomID eventID update = Except.ok (update e, h') ∧
      h'.Get roomID eventID = some (update e) ∧
      (∀ other, other ≠ eventID → h'.Get roomID other = h.Get roomID other) ∧
      (∀ r other, r ≠ roomID → h'.Get r other = h.Get r other) := by
  obtain ⟨log', h1, h2, h3, _⟩ :=
    logUpdate_of_logGet (roomLog h roomID) eventID update e hid hget
  refine ⟨setRoomLog h roomID log', ?_, ?_, ?_, ?_⟩
  · simp [HistoryManager.Update, h1]
  · simp [HistoryManager.Get, roomLog_setRoomLog_same, h2]
  · intro other hne
    simp [HistoryManager.Get, roomLog_setRoomLog_same, h3 other hne]
  · intro r other hne
    simp [HistoryManager.Get, roomLog_setRoomLog_other h roomID r log' hne]

theorem Update_of_Get_none (h : HistoryManager) (roomID eventID : String)
    (update : Event → Event) (hget : h.Get roomID eventID = none) :
    h.Update roomID eventID update = Except.error HistoryError.EventNotFoundError := by
  simp [HistoryManager.Update, logUpdate_none_of_logGet _ _ update hget]

theorem roomsGet_ID (rs : List Room) (roomID : String) (room : Room)
    (h : roomsGet rs roomID = some room) : room.ID = roomID := by
  have := List.find?_some h
  simpa using this

theorem GetOrCreateRoom_ID (c : Container) (roomID : String) :
    (c.GetOrCreateRoom roomID).1.ID = roomID := by
  unfold Container.GetOrCreateRoom
  cases hr : roomsGet c.Rooms roomID with
  | none => simp [NewRoom]
  | some room => simpa using roomsGet_ID _ _ _ hr

theorem GetOrCreateRoom_frame (c : Container) (roomID : String) :
    (c.GetOrCreateRoom roomID).2.history = c.history ∧
    (c.GetOrCreateRoom roomID).2.ui = c.ui ∧
    (c.GetOrCreateRoom roomID).2.InitialSyncDone = c.InitialSyncDone ∧
    (c.GetOrCreateRoom roomID).2.FirstSyncDone = c.FirstSyncDone ∧
    (c.GetOrCreateRoom roomID).2.roomViews = c.roomViews ∧
    (c.GetOrCreateRoom roomID).2.UserID = c.UserID := by
  unfold Container.GetOrCreateRoom
  cases roomsGet c.Rooms roomID <;> simp

theorem redactUpdate_ID (evt : MxEvent) (x : Event) :
    (redactUpdate evt x).base.ID = x.base.ID := rfl

theorem editUpdate_ID (editEvent x : Event) :
    (editUpdate editEvent x).base.ID = x.base.ID := rfl

theorem reactionUpdate_ID (key : String) (x : Event) :
    (reactionUpdate key x).base.ID = x.base.ID := rfl

theorem reactionUpdate_tally (key key' : String) (x : Event) :
    (reactionUpdate key x).tally key' =
      if key = key' then x.tally key + 1 else x.tally key' := by
  unfold reactionUpdate Event.tally
  cases hm : x.base.Unsigned.Annotations with
  | none => simp [mapGet_mapSet, mapGet]
  | some m => simp [mapGet_mapSet]

/-- The history and the UI trace after a handler of a relation, in terms of the
store's `Update`. -/
theorem HandleEdit_history_hit (c : Container) (room : Room) (editsID : String)
    (editEvent e : Event) (hget : c.history.Get room.ID editsID = some e) :
    (HandleEdit c room editsID editEvent).history.Get room.ID editsID
      = some (editUpdate editEvent e) := by
  obtain ⟨h', h1, h2, _, _⟩ := Update_of_Get c.history room.ID editsID
    (editUpdate editEvent) e (editUpdate_ID editEvent) hget
  unfold HandleEdit
  rw [h1]
  simp only []
  split_ifs <;> simp [Container.call, h2]

theorem HandleReaction_history_hit (c : Container) (room : Room) (reactsTo : String)
    (reactEvent e : Event) (hget : c.history.Get room.ID reactsTo = some e) :
    (HandleReaction c room reactsTo reactEvent).history.Get room.ID reactsTo
      = some (reactionUpdate reactEvent.base.Content.GetRelatesTo.Key e) := by
  obtain ⟨h', h1, h2, _, _⟩ := Update_of_Get c.history room.ID reactsTo
    (reactionUpdate reactEvent.base.Content.GetRelatesTo.Key) e (reactionUpdate_ID _) hget
  unfold HandleReaction
  simp only []
  rw [h1]
  simp only []
  split_ifs <;> simp [Container.call, h2]

theorem HandleRedaction_history_hit (c : Container) (source : EventSource) (evt : MxEvent)
    (e : Event) (hget : c.history.Get evt.RoomID evt.Redacts = some e) :
    (HandleRedaction c source evt).history.Get evt.RoomID evt.Redacts
      = some (redactUpdate evt e) := by
  have hID := GetOrCreateRoom_ID c evt.RoomID
  have hfr := (GetOrCreateRoom_frame c evt.RoomID).1
  have hget' : (c.GetOrCreateRoom evt.RoomID).2.history.Get
      (c.GetOrCreateRoom evt.RoomID).1.ID evt.Redacts = some e := by
    rw [hID, hfr]; exact hget
  obtain ⟨h', h1, h2, _, _⟩ := Update_of_Get _ _ evt.Redacts
    (redactUpdate evt) e (redactUpdate_ID evt) hget'
  unfold HandleRedaction
  simp only []
  rw [h1]
  simp only []
  rw [hID] at h2
  split_ifs <;> simp [Container.call, h2]

theorem HandleMessage_reaction (env : Env) (c : Container) (source : EventSource)
    (mxEvent : MxEvent) (E K : String)
    (hLeave : source.Leave = false) (hState : source.State = false)
    (hType : mxEvent.EvType = EventReaction)
    (hRel : mxEvent.Content.RelatesTo
      = some { RelType := RelAnnotation, EventID := E, Key := K })
    (hE : 0 < E.length) :
    HandleMessage env c source mxEvent
      = Outcome.ok (HandleReaction (c.GetOrCreateRoom mxEvent.RoomID).2
          (c.GetOrCreateRoom mxEvent.RoomID).1 E (Wrap mxEvent)) := by
  have h1 : mxEvent.Content.GetRelatesTo.GetReplaceID = "" := by
    simp [Content.GetRelatesTo, RelatesTo.GetReplaceID, hRel, RelAnnotation, RelReplace]
  have h2 : mxEvent.Content.GetRelatesTo.GetAnnotationID = E := by
    simp [Content.GetRelatesTo, RelatesTo.GetAnnotationID, hRel]
  unfold HandleMessage
  simp [hLeave, hState, h1, h2, hType, hE]

/-! ## Relations folded onto stored events -/

/-- Counterexample to C1 as stated (N = 1, key `+1`, tally 0 before): (1) a
reaction to the stored `$msg` delivered with the Leave flag (the timeline of a
left room) leaves the tally at 0; (2) so does one delivered with the State flag;
(3) a reaction whose target is a stored event with the empty id is appended as a
Primary event, and the tally of its target stays at 0. -/
theorem reaction_tally_counterexample :
    (((sampleContainer true ["!room"]).history.Get "!room" "$msg").map
        (fun e => e.tally "+1") = some 0 ∧
      (sampleReaction "$r1" "@alice:example.org").EvType = EventReaction ∧
      (sampleReaction "$r1" "@alice:example.org").Content.RelatesTo
        = some { RelType := RelAnnotation, EventID := "$msg", Key := "+1" } ∧
      ((HandleMessage (sampleEnv shouldNotify true) (sampleContainer true ["!room"])
          leaveSource (sampleReaction "$r1" "@alice:example.org")).state.history.Get
          "!room" "$msg").map (fun e => e.tally "+1") = some 0 ∧
      ((HandleMessage (sampleEnv shouldNotify true) (sampleContainer true ["!room"])
          stateSource (sampleReaction "$r1" "@alice:example.org")).state.history.Get
          "!room" "$msg").map (fun e => e.tally "+1") = some 0) ∧
    ((sampleEmptyIDContainer.history.Get "!room" "").map (fun e => e.tally "+1") = some 0 ∧
      sampleEmptyIDReaction.EvType = EventReaction ∧
      sampleEmptyIDReaction.Content.RelatesTo
        = some { RelType := RelAnnotation, EventID := "", Key := "+1" } ∧
      ((HandleMessage (sampleEnv shouldNotify true) sampleEmptyIDContainer
          timelineSource sampleEmptyIDReaction).state.history.Get "!room" "").map
          (fun e => e.tally "+1") = some 0 ∧
      ((HandleMessage (sampleEnv shouldNotify true) sampleEmptyIDContainer
          timelineSource sampleEmptyIDReaction).state.history.Get "!room" "$r1").isSome
        = true) :=
  ⟨⟨rfl, rfl, rfl, rfl, rfl⟩, ⟨rfl, rfl, rfl, rfl, rfl⟩⟩

/-- C1, amended: in a room whose history stores an event E (with a non-empty id), after
`HandleMessage` has processed N events of the reaction type that annotate E
with key K (delivered with neither the Leave nor the State flag, whoever sent
them), every call returned, E is still stored under its id, its tally for K is
the tally before plus N, and its tally for every other key is unchanged. -/
theorem HandleMessage_reaction_tally (env : Env) (events : List (EventSource × MxEvent)) :
    ∀ (c : Container) (roomID E K : String) (e0 : Event),
    c.history.Get roomID E = some e0 →
    0 < E.length →
    (∀ p ∈ events, p.1.Leave = false ∧ p.1.State = false ∧ p.2.RoomID = roomID ∧
      p.2.EvType = EventReaction ∧
      p.2.Content.RelatesTo = some { RelType := RelAnnotation, EventID := E, Key := K }) →
    ∃ c' e', HandleMessage.all env c events = Outcome.ok c' ∧
      c'.history.Get roomID E = some e' ∧
      e'.base.ID = e0.base.ID ∧
      e'.tally K = e0.tally K + (events.length : Int) ∧
      ∀ K', K' ≠ K → e'.tally K' = e0.tally K' := by
  induction events with
  | nil =>
    intro c roomID E K e0 hget _ _
    exact ⟨c, e0, rfl, hget, rfl, by simp, fun _ _ => rfl⟩
  | cons p rest ih =>
    intro c roomID E K e0 hget hE hev
    obtain ⟨source, mxEvent⟩ := p
    obtain ⟨hL, hS, hR, hT, hRel⟩ := hev (source, mxEvent) (by simp)
    simp only at hL hS hR hT hRel
    subst hR
    have hstep := HandleMessage_reaction env c source mxEvent E K hL hS hT hRel hE
    have hID := GetOrCreateRoom_ID c mxEvent.RoomID
    have hfr := (GetOrCreateRoom_frame c mxEvent.RoomID).1
    have hget' : (c.GetOrCreateRoom mxEvent.RoomID).2.history.Get
        (c.GetOrCreateRoom mxEvent.RoomID).1.ID E = some e0 := by
      rw [hID, hfr]; exact hget
    have hhit := HandleReaction_history_hit _ _ E (Wrap mxEvent) e0 hget'
    have hkey : (Wrap mxEvent).base.Content.GetRelatesTo.Key = K := by
      simp [Wrap, Content.GetRelatesTo, hRel]
    rw [hkey, hID] at hhit
    obtain ⟨c', e', h1, h2, h3, h4, h5⟩ := ih _ mxEvent.RoomID E K (reactionUpdate K e0) hhit hE
      (fun q hq => hev q (List.mem_cons_of_mem _ hq))
    refine ⟨c', e', ?_, h2, ?_, ?_, ?_⟩
    · simp only [HandleMessage.all, hstep, Outcome.andThen]
      exact h1
    · rw [h3]; rfl
    · rw [h4, reactionUpdate_tally]
      simp only [if_true, List.length_cons]
      push_cast
      ring
    · intro K' hK'
      rw [h5 K' hK', reactionUpdate_tally]
      simp [Ne.symm hK']

/-- Witness of C1: two reactions by different senders to the stored sample
message. -/
theorem HandleMessage_reaction_tally_witness :
    ∃ c' e', HandleMessage.all (sampleEnv shouldNotify true) (sampleContainer true ["!room"])
        [(timelineSource, sampleReaction "$r1" "@bob:example.org"),
         (timelineSource, sampleReaction "$r2" "@carol:example.org")] = Outcome.ok c' ∧
      c'.history.Get "!room" "$msg" = some e' ∧
      e'.base.ID = (Wrap sampleMessage).base.ID ∧
      e'.tally "+1" = (Wrap sampleMessage).tally "+1" + (2 : Nat) ∧
      ∀ K', K' ≠ "+1" → e'.tally K' = (Wrap sampleMessage).tally K' :=
  HandleMessage_reaction_tally (sampleEnv shouldNotify true)
    [(timelineSource, sampleReaction "$r1" "@bob:example.org"),
     (timelineSource, sampleReaction "$r2" "@carol:example.org")]
    (sampleContainer true ["!room"]) "!room" "$msg" "+1" (Wrap sampleMessage) rfl (by decide)
    (by
      intro p hp
      simp only [List.mem_cons, List.mem_singleton, List.not_mem_nil, or_false] at hp
      rcases hp with rfl | rfl <;> exact ⟨rfl, rfl, rfl, rfl, rfl⟩)

/-- C2: when the target E of a redaction event R is stored in the history of R's
room, then after `HandleRedaction` E is still stored under its id, with
`RedactedBy` set to R's id and `RedactedBecause` set to R, and every other field
as it was. -/
theorem HandleRedaction_marks_target (c : Container) (source : EventSource) (evt : MxEvent)
    (e : Event) (hget : c.history.Get evt.RoomID evt.Redacts = some e) :
    (HandleRedaction c source evt).history.Get evt.RoomID evt.Redacts
      = some { e with base := { e.base with Unsigned :=
          { e.base.Unsigned with RedactedBy := evt.ID, RedactedBecause := some evt } } } :=
  HandleRedaction_history_hit c source evt e hget

/-- Witness of C2: the redaction of the stored sample message. -/
theorem HandleRedaction_marks_target_witness :
    (sampleContainer true ["!room"]).history.Get (sampleRedaction "$msg").RoomID
        (sampleRedaction "$msg").Redacts = some (Wrap sampleMessage) ∧
    (HandleRedaction (sampleContainer true ["!room"]) timelineSource
        (sampleRedaction "$msg")).history.Get "!room" "$msg"
      = some { Wrap sampleMessage with base := { sampleMessage with Unsigned :=
          { sampleUnsigned with RedactedBy := "$redaction",
                                RedactedBecause := some (sampleRedaction "$msg") } } } :=
  ⟨rfl, HandleRedaction_marks_target (sampleContainer true ["!room"]) timelineSource
    (sampleRedaction "$msg") (Wrap sampleMessage) rfl⟩

/-- C3: when the event E is stored in the room's history, then after `HandleEdit`
with the edit event D1 the record stored under E keeps its id and every other
field, and its edit list is the previous one with D1 appended; after a second
edit D2 the list is the previous one followed by D1, D2, and its last element
is D2. -/
theorem HandleEdit_appends (c : Container) (room : Room) (E : String) (D1 D2 e : Event)
    (hget : c.history.Get room.ID E = some e) :
    (HandleEdit c room E D1).history.Get room.ID E
      = some { e with Edits := e.Edits ++ [D1] } ∧
    ({ e with Edits := e.Edits ++ [D1] } : Event).base.ID = e.base.ID ∧
    ∃ e2, (HandleEdit (HandleEdit c room E D1) room E D2).history.Get room.ID E = some e2 ∧
      e2.base.ID = e.base.ID ∧ e2 = { e with Edits := e.Edits ++ [D1, D2] } ∧
      e2.Edits.getLast? = some D2 := by
  have h1 := HandleEdit_history_hit c room E D1 e hget
  have h2 := HandleEdit_history_hit _ room E D2 _ h1
  refine ⟨h1, rfl, _, h2, rfl, ?_, ?_⟩
  · simp [editUpdate]
  · simp [editUpdate]

/-- Witness of C3: two edits of the stored sample message. -/
theorem HandleEdit_appends_witness :
    (sampleContainer true ["!room"]).history.Get (sampleRoom true).ID "$msg"
      = some (Wrap sampleMessage) ∧
    ∃ e2, (HandleEdit (HandleEdit (sampleContainer true ["!room"]) (sampleRoom true) "$msg"
        (Wrap (sampleEdit "$e1" "$msg" "* hallo"))) (sampleRoom true) "$msg"
        (Wrap (sampleEdit "$e2" "$msg" "* hello!"))).history.Get "!room" "$msg" = some e2 ∧
      e2.Edits.getLast? = some (Wrap (sampleEdit "$e2" "$msg" "* hello!")) :=
  ⟨rfl, by
    obtain ⟨_, _, e2, h1, _, _, h2⟩ := HandleEdit_appends (sampleContainer true ["!room"])
      (sampleRoom true) "$msg" (Wrap (sampleEdit "$e1" "$msg" "* hallo"))
      (Wrap (sampleEdit "$e2" "$msg" "* hello!")) (Wrap sampleMessage) rfl
    exact ⟨e2, h1, h2⟩⟩

/-- C4: when the target of a redaction, of an edit or of a reaction is absent from
the room's history, the handler returns (the handlers are total functions),
the history is unchanged and no UI call is made; `HandleEdit` and
`HandleReaction` leave the whole container unchanged. -/
theorem relation_target_absent (c : Container) (source : EventSource) (evt : MxEvent)
    (room room' : Room) (editsID reactsTo : String) (editEvent reactEvent : Event)
    (hRedacts : c.history.Get evt.RoomID evt.Redacts = none)
    (hEdits : c.history.Get room.ID editsID = none)
    (hReacts : c.history.Get room'.ID reactsTo = none) :
    ((HandleRedaction c source evt).history = c.history ∧
      (HandleRedaction c source evt).ui = c.ui) ∧
    HandleEdit c room editsID editEvent = c ∧
    HandleReaction c room' reactsTo reactEvent = c := by
  refine ⟨?_, ?_, ?_⟩
  · have hID := GetOrCreateRoom_ID c evt.RoomID
    obtain ⟨hh, hu, _⟩ := GetOrCreateRoom_frame c evt.RoomID
    have hmiss := Update_of_Get_none (c.GetOrCreateRoom evt.RoomID).2.history
      (c.GetOrCreateRoom evt.RoomID).1.ID evt.Redacts (redactUpdate evt)
      (by rw [hID, hh]; exact hRedacts)
    unfold HandleRedaction
    simp only []
    rw [hmiss]
    exact ⟨hh, hu⟩
  · unfold HandleEdit
    rw [Update_of_Get_none _ _ _ _ hEdits]
  · unfold HandleReaction
    simp only []
    rw [Update_of_Get_none _ _ _ _ hReacts]

/-- Witness of C4: relations to the event `$unseen`, which the history does not
store. -/
theorem relation_target_absent_witness :
    (sampleContainer true ["!room"]).history.Get (sampleRedaction "$unseen").RoomID
      (sampleRedaction "$unseen").Redacts = none ∧
    (sampleContainer true ["!room"]).history.Get (sampleRoom true).ID "$unseen" = none ∧
    ((HandleRedaction (sampleContainer true ["!room"]) timelineSource
        (sampleRedaction "$unseen")).history = (sampleContainer true ["!room"]).history ∧
      (HandleRedaction (sampleContainer true ["!room"]) timelineSource
        (sampleRedaction "$unseen")).ui = (sampleContainer true ["!room"]).ui) ∧
    HandleEdit (sampleContainer true ["!room"]) (sampleRoom true) "$unseen"
      (Wrap (sampleEdit "$e1" "$unseen" "* hallo")) = sampleContainer true ["!room"] ∧
    HandleReaction (sampleContainer true ["!room"]) (sampleRoom true) "$unseen"
      (Wrap (sampleReaction "$r1" "@bob:example.org")) = sampleContainer true ["!room"] :=
  ⟨rfl, rfl, relation_target_absent (sampleContainer true ["!room"]) timelineSource
    (sampleRedaction "$unseen") (sampleRoom true) (sampleRoom true) "$unseen" "$unseen"
    (Wrap (sampleEdit "$e1" "$unseen" "* hallo"))
    (Wrap (sampleReaction "$r1" "@bob:example.org")) rfl rfl rfl⟩

theorem logGet_ID (log : List Event) (eventID : String) (e : Event)
    (h : logGet log eventID = some e) : e.base.ID = eventID := by
  induction log with
  | nil => simp [logGet] at h
  | cons x rest ih =>
    by_cases hx : x.base.ID = eventID
    · simp [logGet, hx] at h
      subst h
      exact hx
    · simp [logGet, hx] at h
      exact ih h

theorem logGet_append_fresh (log : List Event) (e : Event)
    (h : logGet log e.base.ID = none) : logGet (log ++ [e]) e.base.ID = some e := by
  induction log with
  | nil => simp [logGet]
  | cons x rest ih =>
    by_cases hx : x.base.ID = e.base.ID
    · simp [logGet, hx] at h
    · simp [logGet, hx] at h
      simp [logGet, hx, ih h]

theorem Append_single (h : HistoryManager) (roomID : String) (mxEvent : MxEvent) :
    ∃ r, h.Append roomID [mxEvent] = ([r], (h.Append roomID [mxEvent]).2) ∧
      (h.Append roomID [mxEvent]).2.Get roomID mxEvent.ID = some r ∧
      r.base.ID = mxEvent.ID ∧
      (h.Get roomID mxEvent.ID = none → r = Wrap mxEvent) := by
  cases hg : logGet (roomLog h roomID) mxEvent.ID with
  | some r =>
    refine ⟨r, ?_, ?_, logGet_ID _ _ _ hg, ?_⟩
    · simp [HistoryManager.Append, logAppend, hg]
    · simp [HistoryManager.Append, HistoryManager.Get, logAppend, hg,
        roomLog_setRoomLog_same]
    · intro hn
      simp [HistoryManager.Get, hg] at hn
  | none =>
    have hfresh : logGet (roomLog h roomID ++ [Wrap mxEvent]) mxEvent.ID
        = some (Wrap mxEvent) := logGet_append_fresh _ (Wrap mxEvent) hg
    refine ⟨Wrap mxEvent, ?_, ?_, rfl, fun _ => rfl⟩
    · simp [HistoryManager.Append, logAppend, hg, hfresh]
    · simp [HistoryManager.Append, HistoryManager.Get, logAppend, hg,
        roomLog_setRoomLog_same, hfresh]

/-- On the timeline of a joined room, an event that is neither an edit nor a
reaction goes through `c.history.Append` and the code after it. -/
theorem HandleMessage_primary (env : Env) (c : Container) (source : EventSource)
    (mxEvent : MxEvent) (hLeave : source.Leave = false) (hState : source.State = false)
    (hEdit : mxEvent.Content.GetRelatesTo.GetReplaceID.length = 0)
    (hReact : ¬ (mxEvent.EvType = EventReaction ∧
      0 < mxEvent.Content.GetRelatesTo.GetAnnotationID.length)) :
    HandleMessage env c source mxEvent
      = HandleMessage.afterAppend env
          { (c.GetOrCreateRoom mxEvent.RoomID).2 with
            history := ((c.GetOrCreateRoom mxEvent.RoomID).2.history.Append
              (c.GetOrCreateRoom mxEvent.RoomID).1.ID [mxEvent]).2 }
          (c.GetOrCreateRoom mxEvent.RoomID).1
          ((c.GetOrCreateRoom mxEvent.RoomID).2.history.Append
              (c.GetOrCreateRoom mxEvent.RoomID).1.ID [mxEvent]).1 := by
  unfold HandleMessage
  simp only [hLeave, hState, hEdit]
  simp [hReact]

/-! ## The initial sync makes no UI call -/

theorem HandleEdit_initial (c : Container) (room : Room) (editsID : String)
    (editEvent : Event) (hInit : c.InitialSyncDone = false) :
    (HandleEdit c room editsID editEvent).ui = c.ui := by
  unfold HandleEdit
  cases c.history.Update room.ID editsID (editUpdate editEvent) with
  | error _ => rfl
  | ok p => simp [hInit]

theorem HandleReaction_initial (c : Container) (room : Room) (reactsTo : String)
    (reactEvent : Event) (hInit : c.InitialSyncDone = false) :
    (HandleReaction c room reactsTo reactEvent).ui = c.ui := by
  unfold HandleReaction
  simp only []
  cases c.history.Update room.ID reactsTo
      (reactionUpdate reactEvent.base.Content.GetRelatesTo.Key) with
  | error _ => rfl
  | ok p => simp [hInit]

theorem HandleRedaction_initial (c : Container) (source : EventSource) (evt : MxEvent)
    (hInit : c.InitialSyncDone = false) :
    (HandleRedaction c source evt).ui = c.ui := by
  obtain ⟨_, hu, hi, _⟩ := GetOrCreateRoom_frame c evt.RoomID
  unfold HandleRedaction
  simp only []
  cases (c.GetOrCreateRoom evt.RoomID).2.history.Update (c.GetOrCreateRoom evt.RoomID).1.ID
      evt.Redacts (redactUpdate evt) with
  | error _ => exact hu
  | ok p => simp [hInit, hi, hu]

theorem afterAppend_initial (env : Env) (c : Container) (room : Room) (events : List Event)
    (hInit : c.InitialSyncDone = false) :
    (HandleMessage.afterAppend env c room events).state.ui = c.ui := by
  unfold HandleMessage.afterAppend
  cases events with
  | nil => rfl
  | cons evt rest => simp [hInit, Outcome.state, Container.setRoom]

theorem HandleMessage_initial (env : Env) (c : Container) (source : EventSource)
    (mxEvent : MxEvent) (hInit : c.InitialSyncDone = false) :
    (HandleMessage env c source mxEvent).state.ui = c.ui := by
  obtain ⟨_, hu, hi, _⟩ := GetOrCreateRoom_frame c mxEvent.RoomID
  rw [hInit] at hi
  unfold HandleMessage
  simp only []
  split_ifs
  · simp [Outcome.state, Container.setRoom, hu]
  · simp [Outcome.state, hu]
  · simp [Outcome.state, HandleEdit_initial _ _ _ _ hi, hu]
  · simp [Outcome.state, HandleReaction_initial _ _ _ _ hi, hu]
  · rw [afterAppend_initial _ _ _ _ (by simpa using hi)]
    exact hu

theorem processOwnMembershipChange_initial (c : Container) (evt : MxEvent)
    (hInit : c.InitialSyncDone = false) :
    (processOwnMembershipChange c evt).state.ui.filter UICall.gated
        = c.ui.filter UICall.gated ∧
      (processOwnMembershipChange c evt).state.InitialSyncDone = false := by
  unfold processOwnMembershipChange
  simp only [hInit, Container.setRoom, Bool.false_eq_true, if_false]
  split_ifs <;> (try cases c.GetRoom evt.RoomID) <;>
    simp [Outcome.state, Container.call, hInit, UICall.gated]

theorem HandleMembership_initial (env : Env) (c : Container) (source : EventSource)
    (evt : MxEvent) (hInit : c.InitialSyncDone = false) :
    (HandleMembership env c source evt).state.ui.filter UICall.gated
      = c.ui.filter UICall.gated := by
  obtain ⟨_, hu, hi, _⟩ := GetOrCreateRoom_frame c evt.RoomID
  have key : ∀ (isLeave isTimeline : Bool) (c1 : Container),
      c1.InitialSyncDone = false → c1.ui = c.ui →
      (if (!c1.InitialSyncDone && (isLeave && !isTimeline)) = true then Outcome.ok c1
        else if evt.StateKey = some c1.UserID then
          (processOwnMembershipChange c1 evt).andThen
            (fun c => HandleMessage env c source evt)
        else if (!isTimeline && (!c1.InitialSyncDone || isLeave)) = true then
          Outcome.ok c1
        else HandleMessage env c1 source evt).state.ui.filter UICall.gated
      = c.ui.filter UICall.gated := by
    intro isLeave isTimeline c1 h1 hu1
    split_ifs
    · simp [Outcome.state, hu1]
    · obtain ⟨hp1, hp2⟩ := processOwnMembershipChange_initial c1 evt h1
      cases hp : processOwnMembershipChange c1 evt with
      | ok c2 =>
        rw [hp] at hp1 hp2
        simp only [Outcome.state] at hp1 hp2
        simp only [Outcome.andThen]
        rw [HandleMessage_initial env c2 source evt hp2, hp1, hu1]
      | panic c2 =>
        rw [hp] at hp1
        simp only [Outcome.state] at hp1
        simp only [Outcome.andThen, Outcome.state]
        rw [hp1, hu1]
    · simp [Outcome.state, hu1]
    · rw [HandleMessage_initial env c1 source evt h1, hu1]
  have h1 : (if source.Leave = true then
      (c.GetOrCreateRoom evt.RoomID).2.setRoom
        { (c.GetOrCreateRoom evt.RoomID).1 with HasLeft := true }
      else c).InitialSyncDone = false := by
    split_ifs <;> simp [Container.setRoom, hi, hInit]
  have h2 : (if source.Leave = true then
      (c.GetOrCreateRoom evt.RoomID).2.setRoom
        { (c.GetOrCreateRoom evt.RoomID).1 with HasLeft := true }
      else c).ui = c.ui := by
    split_ifs <;> simp [Container.setRoom, hu]
  exact key source.Leave source.Timeline _ h1 h2

theorem parseDirectChatInfo_inner_frame (roomIDList : List JSON) :
    ∀ (directChats : List String) (c : Container),
      (parseDirectChatInfo.inner roomIDList directChats c).2.ui = c.ui ∧
      (parseDirectChatInfo.inner roomIDList directChats c).2.InitialSyncDone
        = c.InitialSyncDone := by
  induction roomIDList with
  | nil => intro d c; exact ⟨rfl, rfl⟩
  | cons x rest ih =>
    intro d c
    cases x with
    | str roomID =>
      obtain ⟨_, hu, hi, _⟩ := GetOrCreateRoom_frame c roomID
      simp only [parseDirectChatInfo.inner]
      split_ifs
      · rw [(ih _ _).1, (ih _ _).2, hu, hi]; exact ⟨rfl, rfl⟩
      · rw [(ih _ _).1, (ih _ _).2, hu, hi]; exact ⟨rfl, rfl⟩
    | null => simpa [parseDirectChatInfo.inner] using ih d c
    | bool b => simpa [parseDirectChatInfo.inner] using ih d c
    | num n => simpa [parseDirectChatInfo.inner] using ih d c
    | arr xs => simpa [parseDirectChatInfo.inner] using ih d c
    | obj kvs => simpa [parseDirectChatInfo.inner] using ih d c

theorem parseDirectChatInfo_outer_frame (raw : List (String × JSON)) :
    ∀ (directChats : List String) (c : Container),
      (parseDirectChatInfo.outer raw directChats c).2.ui = c.ui ∧
      (parseDirectChatInfo.outer raw directChats c).2.InitialSyncDone
        = c.InitialSyncDone := by
  induction raw with
  | nil => intro d c; exact ⟨rfl, rfl⟩
  | cons x rest ih =>
    intro d c
    obtain ⟨k, v⟩ := x
    cases v with
    | arr xs =>
      obtain ⟨h1, h2⟩ := parseDirectChatInfo_inner_frame xs d c
      simp only [parseDirectChatInfo.outer]
      rw [(ih _ _).1, (ih _ _).2, h1, h2]; exact ⟨rfl, rfl⟩
    | null => simpa [parseDirectChatInfo.outer] using ih d c
    | bool b => simpa [parseDirectChatInfo.outer] using ih d c
    | num n => simpa [parseDirectChatInfo.outer] using ih d c
    | str s => simpa [parseDirectChatInfo.outer] using ih d c
    | obj kvs => simpa [parseDirectChatInfo.outer] using ih d c

theorem HandleDirectChatInfo_loop_initial (directChats : List String) (rooms : List Room) :
    ∀ c : Container, c.InitialSyncDone = false →
      (HandleDirectChatInfo.loop directChats rooms c).ui = c.ui := by
  induction rooms with
  | nil => intro c _; rfl
  | cons room rest ih =>
    intro c hInit
    rw [HandleDirectChatInfo.loop]
    simp only [Container.setRoom, hInit, Bool.false_eq_true, if_false]
    split_ifs
    · rw [ih _ rfl]
    · exact ih c hInit

theorem HandleDirectChatInfo_initial (c : Container) (source : EventSource) (evt : MxEvent)
    (hInit : c.InitialSyncDone = false) :
    (HandleDirectChatInfo c source evt).ui = c.ui := by
  obtain ⟨h1, h2⟩ := parseDirectChatInfo_outer_frame evt.Content.Raw [] c
  unfold HandleDirectChatInfo parseDirectChatInfo
  simp only []
  rw [HandleDirectChatInfo_loop_initial _ _ _ (by rw [h2]; exact hInit), h1]

/-! ## Classification -/

/-- Counterexample to C5 as stated: (1) an event of the message type that
carries a redaction reference to a stored event is routed to `HandleMessage`
and appended to the history, and the referenced event is not marked as
redacted; (2) a topic event delivered with the State flag, with no redaction,
edit or annotation reference, is not appended to the history; (3) a typing
event is routed to `HandleTyping` and is not appended either. -/
theorem classification_counterexample :
    (OnEventType sampleRedactingMessage.EvType = some Handler.HandleMessage ∧
      sampleRedactingMessage.Redacts = "$msg" ∧
      ((HandleMessage (sampleEnv shouldNotify true) (sampleContainer true ["!room"])
          timelineSource sampleRedactingMessage).state.history.Get "!room" "$odd").isSome
        = true ∧
      ((HandleMessage (sampleEnv shouldNotify true) (sampleContainer true ["!room"])
          timelineSource sampleRedactingMessage).state.history.Get "!room" "$msg").map
          (fun e => e.base.Unsigned.RedactedBy) = some "") ∧
    (OnEventType sampleTopic.EvType = some Handler.HandleMessage ∧
      sampleTopic.Redacts = "" ∧ sampleTopic.Content.RelatesTo = none ∧
      ((HandleMessage (sampleEnv shouldNotify true) (sampleContainer true ["!room"])
          stateSource sampleTopic).state.history.Get "!room" "$topic").isSome = false) ∧
    (OnEventType sampleTyping.EvType = some Handler.HandleTyping ∧
      sampleTyping.Redacts = "" ∧ sampleTyping.Content.RelatesTo = none ∧
      ((HandleTyping (sampleContainer true ["!room"]) ephemeralSource
          sampleTyping).history.Get "!room" sampleTyping.ID).isSome = false) := by
  refine ⟨⟨by decide, rfl, rfl, rfl⟩, ⟨by decide, rfl, rfl, rfl⟩, ⟨by decide, rfl, rfl, rfl⟩⟩

/-- C5, amended: routing is by event type. Events of the redaction type go to
`HandleRedaction`; events of the message, encrypted, sticker, reaction,
aliases, canonical-alias, topic and room-name types go to `HandleMessage`.
An event handed to `HandleMessage` with the Leave flag only marks its room as
left, and one with the State flag and no Leave flag changes nothing (the room
is created in the cache when it is missing): in both cases the history is
unchanged, whatever the event carries. For an event handed to `HandleMessage`
with neither flag, exactly one branch runs, chosen in this order: Edit when the
relation carries a non-empty replace target; otherwise Reaction when the type
is the reaction type and the relation carries a non-empty annotation target;
otherwise Primary, where the event is appended and is then stored under its
id. In particular an event of the reaction type with an edit relation is
handled as an Edit, and an annotation on an event that is not of the reaction
type is handled as Primary. -/
theorem HandleMessage_classification (env : Env) (c : Container) (source : EventSource)
    (mxEvent : MxEvent) :
    OnEventType EventRedaction = some Handler.HandleRedaction ∧
    (∀ t ∈ [EventMessage, EventEncrypted, EventSticker, EventReaction, StateAliases,
        StateCanonicalAlias, StateTopic, StateRoomName],
      OnEventType t = some Handler.HandleMessage) ∧
    (source.Leave = true →
      HandleMessage env c source mxEvent
        = Outcome.ok ((c.GetOrCreateRoom mxEvent.RoomID).2.setRoom
            { (c.GetOrCreateRoom mxEvent.RoomID).1 with HasLeft := true }) ∧
      (HandleMessage env c source mxEvent).state.history = c.history) ∧
    (source.Leave = false → source.State = true →
      HandleMessage env c source mxEvent = Outcome.ok (c.GetOrCreateRoom mxEvent.RoomID).2 ∧
      (HandleMessage env c source mxEvent).state.history = c.history) ∧
    (source.Leave = false → source.State = false →
      HandleMessage env c source mxEvent =
        (if 0 < mxEvent.Content.GetRelatesTo.GetReplaceID.length then
          Outcome.ok (HandleEdit (c.GetOrCreateRoom mxEvent.RoomID).2
            (c.GetOrCreateRoom mxEvent.RoomID).1
            mxEvent.Content.GetRelatesTo.GetReplaceID (Wrap mxEvent))
        else if mxEvent.EvType = EventReaction ∧
            0 < mxEvent.Content.GetRelatesTo.GetAnnotationID.length then
          Outcome.ok (HandleReaction (c.GetOrCreateRoom mxEvent.RoomID).2
            (c.GetOrCreateRoom mxEvent.RoomID).1
            mxEvent.Content.GetRelatesTo.GetAnnotationID (Wrap mxEvent))
        else
          HandleMessage.afterAppend env
            { (c.GetOrCreateRoom mxEvent.RoomID).2 with
              history := ((c.GetOrCreateRoom mxEvent.RoomID).2.history.Append
                (c.GetOrCreateRoom mxEvent.RoomID).1.ID [mxEvent]).2 }
            (c.GetOrCreateRoom mxEvent.RoomID).1
            ((c.GetOrCreateRoom mxEvent.RoomID).2.history.Append
                (c.GetOrCreateRoom mxEvent.RoomID).1.ID [mxEvent]).1) ∧
      (((c.GetOrCreateRoom mxEvent.RoomID).2.history.Append
          (c.GetOrCreateRoom mxEvent.RoomID).1.ID [mxEvent]).2.Get
          mxEvent.RoomID mxEvent.ID).isSome = true ∧
      (∀ target key, mxEvent.EvType = EventReaction →
        mxEvent.Content.RelatesTo
          = some { RelType := RelReplace, EventID := target, Key := key } →
        0 < target.length →
        HandleMessage env c source mxEvent
          = Outcome.ok (HandleEdit (c.GetOrCreateRoom mxEvent.RoomID).2
              (c.GetOrCreateRoom mxEvent.RoomID).1 target (Wrap mxEvent))) ∧
      (∀ target key, mxEvent.EvType ≠ EventReaction →
        mxEvent.Content.RelatesTo
          = some { RelType := RelAnnotation, EventID := target, Key := key } →
        HandleMessage env c source mxEvent
          = HandleMessage.afterAppend env
            { (c.GetOrCreateRoom mxEvent.RoomID).2 with
              history := ((c.GetOrCreateRoom mxEvent.RoomID).2.history.Append
                (c.GetOrCreateRoom mxEvent.RoomID).1.ID [mxEvent]).2 }
            (c.GetOrCreateRoom mxEvent.RoomID).1
            ((c.GetOrCreateRoom mxEvent.RoomID).2.history.Append
                (c.GetOrCreateRoom mxEvent.RoomID).1.ID [mxEvent]).1)) := by
  have hh := (GetOrCreateRoom_frame c mxEvent.RoomID).1
  refine ⟨by decide, by decide, fun hLeave => ?_, fun hLeave hState => ?_,
    fun hLeave hState => ?_⟩
  · have hres : HandleMessage env c source mxEvent
        = Outcome.ok ((c.GetOrCreateRoom mxEvent.RoomID).2.setRoom
            { (c.GetOrCreateRoom mxEvent.RoomID).1 with HasLeft := true }) := by
      unfold HandleMessage
      simp only [hLeave]
      simp
    refine ⟨hres, ?_⟩
    rw [hres]
    exact hh
  · have hres : HandleMessage env c source mxEvent
        = Outcome.ok (c.GetOrCreateRoom mxEvent.RoomID).2 := by
      unfold HandleMessage
      simp only [hLeave, hState]
      simp
    refine ⟨hres, ?_⟩
    rw [hres]
    exact hh
  · have hbranch : HandleMessage env c source mxEvent =
        (if 0 < mxEvent.Content.GetRelatesTo.GetReplaceID.length then
          Outcome.ok (HandleEdit (c.GetOrCreateRoom mxEvent.RoomID).2
            (c.GetOrCreateRoom mxEvent.RoomID).1
            mxEvent.Content.GetRelatesTo.GetReplaceID (Wrap mxEvent))
        else if mxEvent.EvType = EventReaction ∧
            0 < mxEvent.Content.GetRelatesTo.GetAnnotationID.length then
          Outcome.ok (HandleReaction (c.GetOrCreateRoom mxEvent.RoomID).2
            (c.GetOrCreateRoom mxEvent.RoomID).1
            mxEvent.Content.GetRelatesTo.GetAnnotationID (Wrap mxEvent))
        else
          HandleMessage.afterAppend env
            { (c.GetOrCreateRoom mxEvent.RoomID).2 with
              history := ((c.GetOrCreateRoom mxEvent.RoomID).2.history.Append
                (c.GetOrCreateRoom mxEvent.RoomID).1.ID [mxEvent]).2 }
            (c.GetOrCreateRoom mxEvent.RoomID).1
            ((c.GetOrCreateRoom mxEvent.RoomID).2.history.Append
                (c.GetOrCreateRoom mxEvent.RoomID).1.ID [mxEvent]).1) := by
      unfold HandleMessage
      simp only [hLeave, hState]
      simp
    refine ⟨hbranch, ?_, ?_, ?_⟩
    · obtain ⟨r, _, hr, _⟩ := Append_single (c.GetOrCreateRoom mxEvent.RoomID).2.history
        (c.GetOrCreateRoom mxEvent.RoomID).1.ID mxEvent
      rw [GetOrCreateRoom_ID] at hr
      rw [GetOrCreateRoom_ID, hr]
      rfl
    · intro target key hT hRel hlen
      have h1 : mxEvent.Content.GetRelatesTo.GetReplaceID = target := by
        simp [Content.GetRelatesTo, RelatesTo.GetReplaceID, hRel]
      rw [hbranch, h1, if_pos hlen]
    · intro target key hT hRel
      have h1 : mxEvent.Content.GetRelatesTo.GetReplaceID = "" := by
        simp [Content.GetRelatesTo, RelatesTo.GetReplaceID, hRel, RelAnnotation, RelReplace]
      rw [hbranch, h1]
      simp [hT]

/-- Witness of C5: a reaction-type event with an edit relation is handled as an
edit; delivered with the Leave flag it leaves the history as it is. -/
theorem HandleMessage_classification_witness :
    timelineSource.Leave = false ∧ timelineSource.State = false ∧
    HandleMessage (sampleEnv shouldNotify true) (sampleContainer true ["!room"])
        timelineSource sampleReactionEdit
      = Outcome.ok (HandleEdit (sampleContainer true ["!room"]) (sampleRoom true) "$msg"
          (Wrap sampleReactionEdit)) ∧
    leaveSource.Leave = true ∧
    (HandleMessage (sampleEnv shouldNotify true) (sampleContainer true ["!room"])
        leaveSource sampleReactionEdit).state.history
      = (sampleContainer true ["!room"]).history :=
  ⟨rfl, rfl, ((HandleMessage_classification (sampleEnv shouldNotify true)
    (sampleContainer true ["!room"]) timelineSource sampleReactionEdit).2.2.2.2
      rfl rfl).2.2.1 "$msg" "" rfl rfl (by decide), rfl,
    ((HandleMessage_classification (sampleEnv shouldNotify true)
    (sampleContainer true ["!room"]) leaveSource sampleReactionEdit).2.2.1 rfl).2⟩

/-- C6: while `InitialSyncDone` is false, no handler adds a call of `AddRoom`,
`RemoveRoom`, `AddEvent`, `AddEdit`, `AddReaction`, `AddRedaction`, `SetTyping`,
`NotifyMessage` or `UpdateTags` to the UI trace, for any event and any source
flags (also when the handler panics). -/
theorem initial_sync_no_ui_call (env : Env) (c : Container) (source : EventSource)
    (evt : MxEvent) (room : Room) (target : String) (relEvent : Event)
    (hInit : c.InitialSyncDone = false) :
    (HandleMessage env c source evt).state.ui.filter UICall.gated
      = c.ui.filter UICall.gated ∧
    (HandleRedaction c source evt).ui.filter UICall.gated = c.ui.filter UICall.gated ∧
    (HandleEdit c room target relEvent).ui.filter UICall.gated
      = c.ui.filter UICall.gated ∧
    (HandleReaction c room target relEvent).ui.filter UICall.gated
      = c.ui.filter UICall.gated ∧
    (HandleMembership env c source evt).state.ui.filter UICall.gated
      = c.ui.filter UICall.gated ∧
    (processOwnMembershipChange c evt).state.ui.filter UICall.gated
      = c.ui.filter UICall.gated ∧
    (HandleTyping c source evt).ui.filter UICall.gated = c.ui.filter UICall.gated ∧
    (HandleTag c source evt).ui.filter UICall.gated = c.ui.filter UICall.gated ∧
    (HandleDirectChatInfo c source evt).ui.filter UICall.gated
      = c.ui.filter UICall.gated := by
  refine ⟨?_, ?_, ?_, ?_, ?_, ?_, ?_, ?_, ?_⟩
  · rw [HandleMessage_initial env c source evt hInit]
  · rw [HandleRedaction_initial c source evt hInit]
  · rw [HandleEdit_initial c room target relEvent hInit]
  · rw [HandleReaction_initial c room target relEvent hInit]
  · exact HandleMembership_initial env c source evt hInit
  · exact (processOwnMembershipChange_initial c evt hInit).1
  · simp [HandleTyping, hInit]
  · obtain ⟨_, hu, hi, _⟩ := GetOrCreateRoom_frame c evt.RoomID
    unfold HandleTag
    simp [Container.setRoom, hi, hInit, hu]
  · rw [HandleDirectChatInfo_initial c source evt hInit]

/-- Witness of C6: the handlers on a container whose initial sync is not done. -/
theorem initial_sync_no_ui_call_witness :
    ({ sampleContainer true ["!room"] with InitialSyncDone := false }).InitialSyncDone = false ∧
    (HandleMessage (sampleEnv shouldNotify true)
        { sampleContainer true ["!room"] with InitialSyncDone := false }
        timelineSource sampleNewMessage).state.ui.filter UICall.gated
      = ({ sampleContainer true ["!room"] with InitialSyncDone := false }).ui.filter
          UICall.gated :=
  ⟨rfl, (initial_sync_no_ui_call (sampleEnv shouldNotify true)
    { sampleContainer true ["!room"] with InitialSyncDone := false } timelineSource
    sampleNewMessage (sampleRoom true) "$msg" (Wrap sampleNewMessage) rfl).1⟩

/-! ## The notification gate (live phase) -/

theorem HandleMessage_primary_live (env : Env) (c c1 : Container) (source : EventSource)
    (mxEvent : MxEvent) (room : Room) (evt : Event) (rest : List Event)
    (h : HistoryManager)
    (hLeave : source.Leave = false) (hState : source.State = false)
    (hEdit : mxEvent.Content.GetRelatesTo.GetReplaceID.length = 0)
    (hReact : ¬ (mxEvent.EvType = EventReaction ∧
      0 < mxEvent.Content.GetRelatesTo.GetAnnotationID.length))
    (hRoom : c.GetOrCreateRoom mxEvent.RoomID = (room, c1))
    (hAppend : c1.history.Append room.ID [mxEvent] = (evt :: rest, h)) :
    HandleMessage env c source mxEvent
      = HandleMessage.afterAppend env { c1 with history := h } room (evt :: rest) ∧
    c1.InitialSyncDone = c.InitialSyncDone ∧ c1.FirstSyncDone = c.FirstSyncDone ∧
    c1.roomViews = c.roomViews ∧ c1.ui = c.ui := by
  obtain ⟨_, hu, hi, hf, hv, _⟩ := GetOrCreateRoom_frame c mxEvent.RoomID
  rw [hRoom] at hu hi hf hv
  refine ⟨?_, hi, hf, hv, hu⟩
  rw [HandleMessage_primary env c source mxEvent hLeave hState hEdit hReact, hRoom]
  simp only [hAppend]

theorem addEvent_ui (env : Env) (c : Container) (evt : Event) :
    ∃ c', HandleMessage.addEvent env c evt = Outcome.ok c' ∧
      c'.ui = c.ui ++ (UICall.AddEvent evt.RoomID evt ::
        match env.AddEvent evt with
        | some message =>
          if c.FirstSyncDone then
            [UICall.NotifyMessage evt.RoomID message
              (env.pushRules { (c.GetOrCreateRoom evt.RoomID).1 with
                LastReceivedMessage := message.Time } evt.base), UICall.Render]
          else []
        | none => []) := by
  have hroom : ((c.call (UICall.AddEvent evt.RoomID evt)).GetOrCreateRoom evt.RoomID).1
      = (c.GetOrCreateRoom evt.RoomID).1 := by
    unfold Container.GetOrCreateRoom Container.call
    cases roomsGet c.Rooms evt.RoomID <;> rfl
  unfold HandleMessage.addEvent
  simp only []
  rw [hroom]
  generalize hc0 : c.call (UICall.AddEvent evt.RoomID evt) = c0
  have h0u : c0.ui = c.ui ++ [UICall.AddEvent evt.RoomID evt] := by subst hc0; rfl
  have h0f : c0.FirstSyncDone = c.FirstSyncDone := by subst hc0; rfl
  obtain ⟨_, hu, _, hf, _, _⟩ := GetOrCreateRoom_frame c0 evt.RoomID
  have hID := GetOrCreateRoom_ID c evt.RoomID
  cases hp : env.AddEvent evt with
  | none => exact ⟨c0, rfl, by simp [h0u]⟩
  | some message =>
    simp only [Container.setRoom, hf, h0f]
    by_cases hF : c.FirstSyncDone = true
    · simp only [hF, if_true]
      refine ⟨_, rfl, ?_⟩
      simp [Container.call, hu, h0u, hID]
    · simp only [hF, if_false]
      refine ⟨_, rfl, ?_⟩
      simp [hu, h0u]

theorem HandleMessage_live_view (env : Env) (c c1 : Container) (source : EventSource)
    (mxEvent : MxEvent) (room : Room) (evt : Event) (rest : List Event)
    (h : HistoryManager)
    (hLeave : source.Leave = false) (hState : source.State = false)
    (hEdit : mxEvent.Content.GetRelatesTo.GetReplaceID.length = 0)
    (hReact : ¬ (mxEvent.EvType = EventReaction ∧
      0 < mxEvent.Content.GetRelatesTo.GetAnnotationID.length))
    (hRoom : c.GetOrCreateRoom mxEvent.RoomID = (room, c1))
    (hAppend : c1.history.Append room.ID [mxEvent] = (evt :: rest, h))
    (hLive : c.InitialSyncDone = true)
    (hView : c.hasRoomView evt.RoomID = true) :
    HandleMessage env c source mxEvent =
      if (!room.Loaded && !((env.pushRules room evt.base).Notify ||
          !(env.pushRules room evt.base).NotifySpecified)) = true then
        Outcome.ok ((({ c1 with history := h } : Container).setRoom
          (({ room with LastReceivedMessage := (timeUnix (evt.base.Timestamp.tdiv 1000)
                (evt.base.Timestamp.tmod 1000 * 1000)) }
            : Room).AddUnread evt.ID false (env.pushRules room evt.base).Highlight)).call
          (UICall.Bump room.ID))
      else HandleMessage.addEvent env { c1 with history := h } evt := by
  obtain ⟨h1, hi, _, hv, _⟩ := HandleMessage_primary_live env c c1 source mxEvent room evt
    rest h hLeave hState hEdit hReact hRoom hAppend
  have hView1 : ({ c1 with history := h } : Container).hasRoomView evt.RoomID = true := by
    simpa [Container.hasRoomView, hv] using hView
  have hLive1 : ({ c1 with history := h } : Container).InitialSyncDone = true := by
    simpa [hi] using hLive
  rw [h1]
  generalize ({ c1 with history := h } : Container) = c2 at hView1 hLive1 ⊢
  unfold HandleMessage.afterAppend
  simp only [hLive1, hView1]
  cases hL : room.Loaded <;>
    cases hN : (env.pushRules room evt.base).Notify <;>
    cases hS : (env.pushRules room evt.base).NotifySpecified <;>
    simp [Room.AddUnread]

/-- Counterexample to C7 as stated: in the live phase, for a Primary event whose
push verdict says notify, `HandleMessage` makes no `NotifyMessage` call when
(1) the UI has no room view for the room, or (2) `roomView.AddEvent` returns
nil, or (3) the syncer's `FirstSyncDone` is not set. -/
theorem notify_once_counterexample :
    ((sampleContainer true []).InitialSyncDone = true ∧ shouldNotify.Notify = true ∧
      (addedCalls (sampleContainer true [])
        (HandleMessage (sampleEnv shouldNotify true) (sampleContainer true [])
          timelineSource sampleNewMessage).state).countP UICall.isNotifyMessage = 0) ∧
    ((sampleContainer true ["!room"]).InitialSyncDone = true ∧
      (addedCalls (sampleContainer true ["!room"])
        (HandleMessage (sampleEnv shouldNotify false) (sampleContainer true ["!room"])
          timelineSource sampleNewMessage).state).countP UICall.isNotifyMessage = 0) ∧
    (({ sampleContainer true ["!room"] with FirstSyncDone := false }).InitialSyncDone = true ∧
      (addedCalls { sampleContainer true ["!room"] with FirstSyncDone := false }
        (HandleMessage (sampleEnv shouldNotify true)
          { sampleContainer true ["!room"] with FirstSyncDone := false }
          timelineSource sampleNewMessage).state).countP UICall.isNotifyMessage = 0) :=
  ⟨⟨rfl, rfl, rfl⟩, ⟨rfl, rfl⟩, ⟨rfl, rfl⟩⟩

/-- C7, amended: once `InitialSyncDone` is true, for every Primary event
delivered with neither the Leave nor the State flag whose push verdict says
notify, provided the UI has a room view for the event's room,
`roomView.AddEvent` returns a message and the syncer's `FirstSyncDone` is set,
`HandleMessage` returns after exactly the calls `AddEvent`, `NotifyMessage`
(with that message and the verdict) and `Render`: one `NotifyMessage` call.
Here `room` is what `GetOrCreateRoom` answered and `evt` is the first of the
events `history.Append` returned. -/
theorem HandleMessage_notifies_once (env : Env) (c c1 : Container) (source : EventSource)
    (mxEvent : MxEvent) (room : Room) (evt : Event) (rest : List Event)
    (h : HistoryManager) (message : Message)
    (hLeave : source.Leave = false) (hState : source.State = false)
    (hEdit : mxEvent.Content.GetRelatesTo.GetReplaceID.length = 0)
    (hReact : ¬ (mxEvent.EvType = EventReaction ∧
      0 < mxEvent.Content.GetRelatesTo.GetAnnotationID.length))
    (hRoom : c.GetOrCreateRoom mxEvent.RoomID = (room, c1))
    (hAppend : c1.history.Append room.ID [mxEvent] = (evt :: rest, h))
    (hLive : c.InitialSyncDone = true)
    (hNotify : ∀ r, (env.pushRules r evt.base).Notify = true)
    (hView : c.hasRoomView evt.RoomID = true)
    (hParse : env.AddEvent evt = some message)
    (hFirst : c.FirstSyncDone = true) :
    ∃ c' mxRoom, HandleMessage env c source mxEvent = Outcome.ok c' ∧
      mxRoom.ID = evt.RoomID ∧ mxRoom.LastReceivedMessage = message.Time ∧
      addedCalls c c' = [UICall.AddEvent evt.RoomID evt,
        UICall.NotifyMessage evt.RoomID message (env.pushRules mxRoom evt.base),
        UICall.Render] ∧
      (addedCalls c c').countP UICall.isNotifyMessage = 1 := by
  obtain ⟨_, _, hf, _, hu⟩ := HandleMessage_primary_live env c c1 source mxEvent room evt
    rest h hLeave hState hEdit hReact hRoom hAppend
  have hstep := HandleMessage_live_view env c c1 source mxEvent room evt rest h hLeave
    hState hEdit hReact hRoom hAppend hLive hView
  simp only [hNotify room, Bool.true_or, Bool.not_true, Bool.and_false,
    Bool.false_eq_true, if_false] at hstep
  have hf2 : ({ c1 with history := h } : Container).FirstSyncDone = true := by
    simpa [hf] using hFirst
  have hu2 : ({ c1 with history := h } : Container).ui = c.ui := hu
  generalize ({ c1 with history := h } : Container) = c2 at hstep hf2 hu2
  obtain ⟨c', hc', hui⟩ := addEvent_ui env c2 evt
  rw [hParse] at hui
  simp only [hf2, if_true, hu2] at hui
  refine ⟨c', { (c2.GetOrCreateRoom evt.RoomID).1 with
    LastReceivedMessage := message.Time }, hstep.trans hc', ?_, rfl, ?_, ?_⟩
  · exact GetOrCreateRoom_ID _ evt.RoomID
  · simp only [addedCalls, hui, List.drop_left]
  · simp [addedCalls, hui, UICall.isNotifyMessage]

/-- Witness of C7: a new message in a loaded room with a room view. -/
theorem HandleMessage_notifies_once_witness :
    ∃ (c' : Container) (mxRoom : Room), HandleMessage (sampleEnv shouldNotify true)
        (sampleContainer true ["!room"])
        timelineSource sampleNewMessage = Outcome.ok c' ∧
      mxRoom.ID = "!room" ∧ mxRoom.LastReceivedMessage = 1555000004567000000 ∧
      addedCalls (sampleContainer true ["!room"]) c'
        = [UICall.AddEvent "!room" (Wrap sampleNewMessage),
           UICall.NotifyMessage "!room" sampleNewUIMessage shouldNotify, UICall.Render] ∧
      (addedCalls (sampleContainer true ["!room"]) c').countP UICall.isNotifyMessage = 1 :=
  HandleMessage_notifies_once (sampleEnv shouldNotify true) (sampleContainer true ["!room"])
    (sampleContainer true ["!room"]) timelineSource sampleNewMessage (sampleRoom true)
    (Wrap sampleNewMessage) [] sampleHistoryAfter sampleNewUIMessage rfl rfl rfl (by decide)
    rfl rfl rfl (fun _ => rfl) rfl rfl rfl

/-- Counterexample to C8 as stated: in the live phase, a Primary event in a room
that is not loaded, with the verdict "do not notify", is not recorded as unread
when the UI has no room view for the room: `HandleMessage` returns with the
room's unread list still empty and no UI call (no `Bump`). -/
theorem unread_only_counterexample :
    (sampleContainer false []).InitialSyncDone = true ∧
    (roomsGet (sampleContainer false []).Rooms "!room").map Room.Loaded = some false ∧
    shouldNotNotify.NotifySpecified = true ∧ shouldNotNotify.Notify = false ∧
    unreadOf (HandleMessage (sampleEnv shouldNotNotify true) (sampleContainer false [])
      timelineSource sampleNewMessage).state.Rooms "!room" = [] ∧
    addedCalls (sampleContainer false [])
      (HandleMessage (sampleEnv shouldNotNotify true) (sampleContainer false [])
        timelineSource sampleNewMessage).state = [] :=
  ⟨rfl, rfl, rfl, rfl, rfl, rfl⟩

/-- C8, amended: in the live phase, for every Primary event (delivered with
neither the Leave nor the State flag) in a room that is not loaded and for
which the UI has a room view, `HandleMessage` returns, and it takes the
unread-only branch (the only UI call is `Bump`) iff the verdict has
`NotifySpecified` = true and `Notify` = false. In that branch the room gets
`LastReceivedMessage` from the event's timestamp and one more unread entry for
the event (not counted), and neither `AddEvent` nor `NotifyMessage` is
called; otherwise the event goes to `roomView.AddEvent`. -/
theorem HandleMessage_unread_only_iff (env : Env) (c c1 : Container) (source : EventSource)
    (mxEvent : MxEvent) (room : Room) (evt : Event) (rest : List Event)
    (h : HistoryManager)
    (hLeave : source.Leave = false) (hState : source.State = false)
    (hEdit : mxEvent.Content.GetRelatesTo.GetReplaceID.length = 0)
    (hReact : ¬ (mxEvent.EvType = EventReaction ∧
      0 < mxEvent.Content.GetRelatesTo.GetAnnotationID.length))
    (hRoom : c.GetOrCreateRoom mxEvent.RoomID = (room, c1))
    (hAppend : c1.history.Append room.ID [mxEvent] = (evt :: rest, h))
    (hLive : c.InitialSyncDone = true)
    (hNotLoaded : room.Loaded = false)
    (hView : c.hasRoomView evt.RoomID = true) :
    (∃ c', HandleMessage env c source mxEvent = Outcome.ok c') ∧
    (addedCalls c (HandleMessage env c source mxEvent).state = [UICall.Bump room.ID] ↔
      ((env.pushRules room evt.base).NotifySpecified = true ∧
        (env.pushRules room evt.base).Notify = false)) ∧
    (((env.pushRules room evt.base).NotifySpecified = true ∧
        (env.pushRules room evt.base).Notify = false) →
      HandleMessage env c source mxEvent
        = Outcome.ok ((({ c1 with history := h } : Container).setRoom
          { room with
            LastReceivedMessage := (timeUnix (evt.base.Timestamp.tdiv 1000)
              (evt.base.Timestamp.tmod 1000 * 1000))
            UnreadMessages := room.UnreadMessages ++
              [{ EventID := evt.ID, Counted := false,
                 Highlight := (env.pushRules room evt.base).Highlight }] }).call
          (UICall.Bump room.ID)) ∧
      (addedCalls c (HandleMessage env c source mxEvent).state).countP UICall.isAddEvent = 0 ∧
      (addedCalls c (HandleMessage env c source mxEvent).state).countP
        UICall.isNotifyMessage = 0) ∧
    (¬ ((env.pushRules room evt.base).NotifySpecified = true ∧
        (env.pushRules room evt.base).Notify = false) →
      HandleMessage env c source mxEvent
        = HandleMessage.addEvent env { c1 with history := h } evt ∧
      ∃ more, addedCalls c (HandleMessage env c source mxEvent).state
        = UICall.AddEvent evt.RoomID evt :: more) := by
  obtain ⟨_, _, _, _, hu⟩ := HandleMessage_primary_live env c c1 source mxEvent room evt
    rest h hLeave hState hEdit hReact hRoom hAppend
  have hstep := HandleMessage_live_view env c c1 source mxEvent room evt rest h hLeave
    hState hEdit hReact hRoom hAppend hLive hView
  have hu2 : ({ c1 with history := h } : Container).ui = c.ui := hu
  obtain ⟨c', hc', hui⟩ := addEvent_ui env { c1 with history := h } evt
  rw [hu2] at hui
  by_cases hcond : (env.pushRules room evt.base).NotifySpecified = true ∧
      (env.pushRules room evt.base).Notify = false
  · have hres : HandleMessage env c source mxEvent
        = Outcome.ok ((({ c1 with history := h } : Container).setRoom
          { room with
            LastReceivedMessage := (timeUnix (evt.base.Timestamp.tdiv 1000)
              (evt.base.Timestamp.tmod 1000 * 1000))
            UnreadMessages := room.UnreadMessages ++
              [{ EventID := evt.ID, Counted := false,
                 Highlight := (env.pushRules room evt.base).Highlight }] }).call
          (UICall.Bump room.ID)) := by
      rw [hstep]
      simp [hNotLoaded, hcond.1, hcond.2, Room.AddUnread]
    have hadded : addedCalls c (HandleMessage env c source mxEvent).state
        = [UICall.Bump room.ID] := by
      rw [hres]
      simp [addedCalls, Outcome.state, Container.call, Container.setRoom, hu]
    refine ⟨⟨_, hres⟩, ⟨fun _ => hcond, fun _ => hadded⟩, fun _ => ⟨hres, ?_, ?_⟩,
      fun hn => absurd hcond hn⟩
    · rw [hadded]; rfl
    · rw [hadded]; rfl
  · have hres : HandleMessage env c source mxEvent
        = HandleMessage.addEvent env { c1 with history := h } evt := by
      rw [hstep]
      cases hN : (env.pushRules room evt.base).Notify <;>
        cases hS : (env.pushRules room evt.base).NotifySpecified <;>
        simp_all
    have hadded : ∃ more, addedCalls c (HandleMessage env c source mxEvent).state
        = UICall.AddEvent evt.RoomID evt :: more := by
      rw [hres, hc']
      exact ⟨_, by rw [addedCalls, Outcome.state, hui, List.drop_left]⟩
    refine ⟨⟨c', hres.trans hc'⟩, ⟨fun hb => ?_, fun hc => absurd hc hcond⟩,
      fun hc => absurd hc hcond, fun _ => ⟨hres, hadded⟩⟩
    obtain ⟨more, hmore⟩ := hadded
    rw [hmore] at hb
    simp at hb

/-- Witness of C8: a new message with the verdict "do not notify" in a room that
is not loaded and has a room view. -/
theorem HandleMessage_unread_only_iff_witness :
    addedCalls (sampleContainer false ["!room"])
      (HandleMessage (sampleEnv shouldNotNotify true) (sampleContainer false ["!room"])
        timelineSource sampleNewMessage).state = [UICall.Bump "!room"] :=
  (HandleMessage_unread_only_iff (sampleEnv shouldNotNotify true)
    (sampleContainer false ["!room"]) (sampleContainer false ["!room"]) timelineSource
    sampleNewMessage (sampleRoom false) (Wrap sampleNewMessage) [] sampleHistoryAfter
    rfl rfl rfl (by decide) rfl rfl rfl rfl rfl).2.1.mpr ⟨rfl, rfl⟩

theorem roomsGet_roomsPut (rs : List Room) (room : Room) (roomID : String) :
    roomsGet (roomsPut rs room) roomID
      = if room.ID = roomID then some room else roomsGet rs roomID := by
  induction rs with
  | nil =>
    by_cases hr : room.ID = roomID <;> simp [roomsPut, roomsGet, List.find?_cons, hr]
  | cons x rest ih =>
    unfold roomsGet at ih
    by_cases hx : x.ID = room.ID
    · by_cases hr : room.ID = roomID
      · simp [roomsPut, roomsGet, List.find?_cons, hx, hr]
      · simp [roomsPut, roomsGet, List.find?_cons, hx, hr]
    · by_cases hxi : x.ID = roomID
      · subst hxi
        have hr : ¬ room.ID = x.ID := fun h => hx h.symm
        simp [roomsPut, roomsGet, List.find?_cons, hx, hr]
      · simp [roomsPut, roomsGet, List.find?_cons, hx, hxi, ih]

theorem unreadOf_roomsPut (rs : List Room) (room : Room) (roomID : String) :
    unreadOf (roomsPut rs room) roomID
      = if room.ID = roomID then room.UnreadMessages else unreadOf rs roomID := by
  unfold unreadOf
  rw [roomsGet_roomsPut]
  split_ifs <;> rfl

theorem GetOrCreateRoom_unread (c : Container) (roomID : String) :
    (c.GetOrCreateRoom roomID).1.UnreadMessages = unreadOf c.Rooms roomID ∧
    ∀ other, unreadOf (c.GetOrCreateRoom roomID).2.Rooms other = unreadOf c.Rooms other := by
  unfold Container.GetOrCreateRoom unreadOf
  cases hr : roomsGet c.Rooms roomID with
  | some room => simp
  | none =>
    refine ⟨by simp [NewRoom], fun other => ?_⟩
    simp only [roomsGet, List.find?_append] at hr ⊢
    cases ho : List.find? (fun r => decide (r.ID = other)) c.Rooms with
    | some r => simp
    | none =>
      by_cases hid : roomID = other
      · simp [List.find?, NewRoom, hid]
      · simp [List.find?, NewRoom, hid]

theorem addEvent_state (env : Env) (c : Container) (evt : Event) :
    ∃ c', HandleMessage.addEvent env c evt = Outcome.ok c' ∧
      c'.ui = c.ui ++ addEventCalls env c evt ∧
      ∀ roomID, unreadOf c'.Rooms roomID = unreadOf c.Rooms roomID := by
  obtain ⟨c', hc', hui⟩ := addEvent_ui env c evt
  refine ⟨c', hc', hui, ?_⟩
  have hroom : ((c.call (UICall.AddEvent evt.RoomID evt)).GetOrCreateRoom evt.RoomID)
      = ((c.GetOrCreateRoom evt.RoomID).1,
         (c.GetOrCreateRoom evt.RoomID).2.call (UICall.AddEvent evt.RoomID evt)) := by
    unfold Container.GetOrCreateRoom Container.call
    cases roomsGet c.Rooms evt.RoomID <;> rfl
  obtain ⟨hu1, hu2⟩ := GetOrCreateRoom_unread c evt.RoomID
  have hID := GetOrCreateRoom_ID c evt.RoomID
  unfold HandleMessage.addEvent at hc'
  simp only [hroom] at hc'
  cases hp : env.AddEvent evt with
  | none =>
    simp only [hp] at hc'
    injection hc' with hc'
    subst hc'
    intro roomID; rfl
  | some message =>
    simp only [hp] at hc'
    intro roomID
    split_ifs at hc' <;>
    · injection hc' with hc'
      subst hc'
      simp only [Container.call, Container.setRoom, unreadOf_roomsPut, hID, hu1, hu2]
      split_ifs with hid
      · rw [hid]
      · rfl

/-- Counterexample to C9 as stated: in the live phase, for a Primary event with
the verdict "notify" in a room that is not loaded, `HandleMessage` makes no UI
call at all (no `AddRoom`) and adds no unread entry to the room when the UI has
no room view for the room. -/
theorem materialize_counterexample :
    (sampleContainer false []).InitialSyncDone = true ∧
    (roomsGet (sampleContainer false []).Rooms "!room").map Room.Loaded = some false ∧
    shouldNotify.Notify = true ∧
    addedCalls (sampleContainer false [])
      (HandleMessage (sampleEnv shouldNotify true) (sampleContainer false [])
        timelineSource sampleNewMessage).state = [] ∧
    unreadOf (HandleMessage (sampleEnv shouldNotify true) (sampleContainer false [])
      timelineSource sampleNewMessage).state.Rooms "!room" = [] :=
  ⟨rfl, rfl, rfl, rfl, rfl⟩

/-- C9, amended: in the live phase, for every Primary event (delivered with
neither the Leave nor the State flag) in a room that is not loaded and whose
push verdict says notify (`Notify`, or `NotifySpecified` unset): when the UI has
no room view for the room, `HandleMessage` returns after the append and makes
no UI call; when it has one, `HandleMessage` returns after handing the event to
`roomView.AddEvent` and, when that returned a message and the syncer's
`FirstSyncDone` is set, passing the room, the message and the verdict to
`NotifyMessage` and calling `Render`; these are all the UI calls it makes. -/
theorem HandleMessage_not_loaded_notify (env : Env) (c c1 : Container)
    (source : EventSource) (mxEvent : MxEvent) (room : Room) (evt : Event)
    (rest : List Event) (h : HistoryManager)
    (hLeave : source.Leave = false) (hState : source.State = false)
    (hEdit : mxEvent.Content.GetRelatesTo.GetReplaceID.length = 0)
    (hReact : ¬ (mxEvent.EvType = EventReaction ∧
      0 < mxEvent.Content.GetRelatesTo.GetAnnotationID.length))
    (hRoom : c.GetOrCreateRoom mxEvent.RoomID = (room, c1))
    (hAppend : c1.history.Append room.ID [mxEvent] = (evt :: rest, h))
    (hLive : c.InitialSyncDone = true)
    (_hNotLoaded : room.Loaded = false)
    (hNotify : ((env.pushRules room evt.base).Notify
      || !(env.pushRules room evt.base).NotifySpecified) = true) :
    (c.hasRoomView evt.RoomID = false →
      HandleMessage env c source mxEvent = Outcome.ok { c1 with history := h } ∧
      addedCalls c (HandleMessage env c source mxEvent).state = []) ∧
    (c.hasRoomView evt.RoomID = true →
      ∃ c', HandleMessage env c source mxEvent = Outcome.ok c' ∧
        addedCalls c c' = addEventCalls env { c1 with history := h } evt) := by
  obtain ⟨h1, hi, _, hv, hu⟩ := HandleMessage_primary_live env c c1 source mxEvent room evt
    rest h hLeave hState hEdit hReact hRoom hAppend
  have hu2 : ({ c1 with history := h } : Container).ui = c.ui := hu
  constructor
  · intro hView
    have hView1 : ({ c1 with history := h } : Container).hasRoomView evt.RoomID = false := by
      simpa [Container.hasRoomView, hv] using hView
    have hLive1 : ({ c1 with history := h } : Container).InitialSyncDone = true := by
      simpa [hi] using hLive
    have hres : HandleMessage env c source mxEvent = Outcome.ok { c1 with history := h } := by
      rw [h1]
      generalize ({ c1 with history := h } : Container) = c2 at hView1 hLive1 ⊢
      unfold HandleMessage.afterAppend
      simp [hLive1, hView1]
    refine ⟨hres, ?_⟩
    rw [hres, addedCalls, Outcome.state, hu2, List.drop_length]
  · intro hView
    have hstep := HandleMessage_live_view env c c1 source mxEvent room evt rest h hLeave
      hState hEdit hReact hRoom hAppend hLive hView
    simp only [hNotify, Bool.not_true, Bool.and_false, Bool.false_eq_true, if_false] at hstep
    generalize ({ c1 with history := h } : Container) = c2 at hstep hu2 ⊢
    obtain ⟨c', hc', hui, _⟩ := addEvent_state env c2 evt
    rw [hu2] at hui
    exact ⟨c', hstep.trans hc', by rw [addedCalls, hui, List.drop_left]⟩

/-- Witness of C9: a new message with the verdict "notify" in a room that is not
loaded and has a room view. -/
theorem HandleMessage_not_loaded_notify_witness :
    ∃ c', HandleMessage (sampleEnv shouldNotify true) (sampleContainer false ["!room"])
        timelineSource sampleNewMessage = Outcome.ok c' ∧
      addedCalls (sampleContainer false ["!room"]) c'
        = [UICall.AddEvent "!room" (Wrap sampleNewMessage),
           UICall.NotifyMessage "!room" sampleNewUIMessage shouldNotify, UICall.Render] :=
  (HandleMessage_not_loaded_notify (sampleEnv shouldNotify true)
    (sampleContainer false ["!room"]) (sampleContainer false ["!room"]) timelineSource
    sampleNewMessage (sampleRoom false) (Wrap sampleNewMessage) [] sampleHistoryAfter
    rfl rfl rfl (by decide) rfl rfl rfl rfl rfl).2 rfl

/-- Counterexample to C10 as stated: in the live phase, for a Primary event in a
loaded room, (1) `HandleMessage` makes no `AddEvent` call when the UI has no
room view for the room; (2) with a room view, `NotifyMessage` is called although
the push verdict says "do not notify". -/
theorem loaded_room_counterexample :
    ((sampleContainer true []).InitialSyncDone = true ∧
      (roomsGet (sampleContainer true []).Rooms "!room").map Room.Loaded = some true ∧
      (addedCalls (sampleContainer true [])
        (HandleMessage (sampleEnv shouldNotify true) (sampleContainer true [])
          timelineSource sampleNewMessage).state).countP UICall.isAddEvent = 0) ∧
    ((sampleContainer true ["!room"]).InitialSyncDone = true ∧
      (roomsGet (sampleContainer true ["!room"]).Rooms "!room").map Room.Loaded = some true ∧
      shouldNotNotify.NotifySpecified = true ∧ shouldNotNotify.Notify = false ∧
      addedCalls (sampleContainer true ["!room"])
        (HandleMessage (sampleEnv shouldNotNotify true) (sampleContainer true ["!room"])
          timelineSource sampleNewMessage).state
        = [UICall.AddEvent "!room" (Wrap sampleNewMessage),
           UICall.NotifyMessage "!room" sampleNewUIMessage shouldNotNotify,
           UICall.Render]) :=
  ⟨⟨rfl, rfl, rfl⟩, ⟨rfl, rfl, rfl, rfl, rfl⟩⟩

/-- C10, amended: in the live phase, for every Primary event (delivered with
neither the Leave nor the State flag) in a loaded room for which the UI has a
room view, and for every push verdict, `HandleMessage` returns after one
`roomView.AddEvent` call for the event; `NotifyMessage` is called, once, iff
`AddEvent` returned a message and the syncer's `FirstSyncDone` is set, whatever
the verdict says: the verdict is passed on to `NotifyMessage`. -/
theorem HandleMessage_loaded (env : Env) (c c1 : Container)
    (source : EventSource) (mxEvent : MxEvent) (room : Room) (evt : Event)
    (rest : List Event) (h : HistoryManager)
    (hLeave : source.Leave = false) (hState : source.State = false)
    (hEdit : mxEvent.Content.GetRelatesTo.GetReplaceID.length = 0)
    (hReact : ¬ (mxEvent.EvType = EventReaction ∧
      0 < mxEvent.Content.GetRelatesTo.GetAnnotationID.length))
    (hRoom : c.GetOrCreateRoom mxEvent.RoomID = (room, c1))
    (hAppend : c1.history.Append room.ID [mxEvent] = (evt :: rest, h))
    (hLive : c.InitialSyncDone = true)
    (hLoaded : room.Loaded = true)
    (hView : c.hasRoomView evt.RoomID = true) :
    ∃ c', HandleMessage env c source mxEvent = Outcome.ok c' ∧
      addedCalls c c' = addEventCalls env { c1 with history := h } evt ∧
      (addedCalls c c').countP UICall.isAddEvent = 1 ∧
      (addedCalls c c').countP UICall.isNotifyMessage
        = if (env.AddEvent evt).isSome = true ∧ c.FirstSyncDone = true then 1 else 0 := by
  obtain ⟨_, _, hf, _, hu⟩ := HandleMessage_primary_live env c c1 source mxEvent room evt
    rest h hLeave hState hEdit hReact hRoom hAppend
  have hstep := HandleMessage_live_view env c c1 source mxEvent room evt rest h hLeave
    hState hEdit hReact hRoom hAppend hLive hView
  simp only [hLoaded, Bool.not_true, Bool.false_and, Bool.false_eq_true, if_false] at hstep
  have hu2 : ({ c1 with history := h } : Container).ui = c.ui := hu
  have hf2 : ({ c1 with history := h } : Container).FirstSyncDone = c.FirstSyncDone := hf
  generalize ({ c1 with history := h } : Container) = c2 at hstep hu2 hf2 ⊢
  obtain ⟨c', hc', hui, _⟩ := addEvent_state env c2 evt
  rw [hu2] at hui
  have hadded : addedCalls c c' = addEventCalls env c2 evt := by
    rw [addedCalls, hui, List.drop_left]
  refine ⟨c', hstep.trans hc', hadded, ?_, ?_⟩
  · rw [hadded]
    unfold addEventCalls
    cases env.AddEvent evt with
    | none => rfl
    | some message => split_ifs <;> rfl
  · rw [hadded]
    unfold addEventCalls
    rw [hf2]
    cases env.AddEvent evt with
    | none => simp [UICall.isNotifyMessage]
    | some message =>
      by_cases hF : c.FirstSyncDone = true <;> simp [UICall.isNotifyMessage, hF]

/-- Witness of C10: a new message with the verdict "do not notify" in a loaded
room with a room view. -/
theorem HandleMessage_loaded_witness :
    ∃ c', HandleMessage (sampleEnv shouldNotNotify true) (sampleContainer true ["!room"])
        timelineSource sampleNewMessage = Outcome.ok c' ∧
      addedCalls (sampleContainer true ["!room"]) c'
        = [UICall.AddEvent "!room" (Wrap sampleNewMessage),
           UICall.NotifyMessage "!room" sampleNewUIMessage shouldNotNotify,
           UICall.Render] ∧
      (addedCalls (sampleContainer true ["!room"]) c').countP UICall.isAddEvent = 1 ∧
      (addedCalls (sampleContainer true ["!room"]) c').countP UICall.isNotifyMessage = 1 :=
  HandleMessage_loaded (sampleEnv shouldNotNotify true)
    (sampleContainer true ["!room"]) (sampleContainer true ["!room"]) timelineSource
    sampleNewMessage (sampleRoom true) (Wrap sampleNewMessage) [] sampleHistoryAfter
    rfl rfl rfl (by decide) rfl rfl rfl rfl rfl

/-! ## Membership -/

theorem mem_roomsPut (rs : List Room) (room r : Room) (h : r ∈ roomsPut rs room) :
    r = room ∨ r ∈ rs := by
  induction rs with
  | nil => simp [roomsPut] at h; exact Or.inl h
  | cons x rest ih =>
    by_cases hx : x.ID = room.ID
    · simp [roomsPut, hx] at h
      rcases h with h | h
      · exact Or.inl h
      · exact Or.inr (List.mem_cons_of_mem _ h)
    · simp [roomsPut, hx] at h
      rcases h with h | h
      · exact Or.inr (by simp [h])
      · rcases ih h with h | h
        · exact Or.inl h
        · exact Or.inr (List.mem_cons_of_mem _ h)

theorem roomsGet_mem (rs : List Room) (roomID : String) (room : Room)
    (h : roomsGet rs roomID = some room) : room ∈ rs :=
  List.mem_of_find?_eq_some h

theorem leftUnloaded_setRoom (c : Container) (room : Room) (hInv : c.leftUnloaded)
    (hroom : room.HasLeft = true → room.loaded = false) : (c.setRoom room).leftUnloaded := by
  intro r hr
  rcases mem_roomsPut c.Rooms room r hr with h | h
  · rw [h]; exact hroom
  · exact hInv r h

theorem leftUnloaded_of_Rooms (c c' : Container) (hInv : c.leftUnloaded)
    (h : c'.Rooms = c.Rooms) : c'.leftUnloaded := by
  intro r hr
  rw [h] at hr
  exact hInv r hr

theorem leftUnloaded_GetOrCreateRoom (c : Container) (roomID : String)
    (hInv : c.leftUnloaded) :
    (c.GetOrCreateRoom roomID).2.leftUnloaded ∧
    ((c.GetOrCreateRoom roomID).1.HasLeft = true →
      (c.GetOrCreateRoom roomID).1.loaded = false) := by
  unfold Container.GetOrCreateRoom
  cases hr : roomsGet c.Rooms roomID with
  | some room => exact ⟨hInv, hInv room (roomsGet_mem _ _ _ hr)⟩
  | none =>
    refine ⟨?_, by simp [NewRoom]⟩
    intro r hmem
    simp only [List.mem_append, List.mem_singleton] at hmem
    rcases hmem with h | h
    · exact hInv r h
    · rw [h]; simp [NewRoom]

theorem HandleEdit_Rooms (c : Container) (room : Room) (editsID : String)
    (editEvent : Event) : (HandleEdit c room editsID editEvent).Rooms = c.Rooms := by
  unfold HandleEdit
  cases c.history.Update room.ID editsID (editUpdate editEvent) with
  | error _ => rfl
  | ok p => simp only []; split_ifs <;> rfl

theorem HandleReaction_Rooms (c : Container) (room : Room) (reactsTo : String)
    (reactEvent : Event) : (HandleReaction c room reactsTo reactEvent).Rooms = c.Rooms := by
  unfold HandleReaction
  simp only []
  cases c.history.Update room.ID reactsTo
      (reactionUpdate reactEvent.base.Content.GetRelatesTo.Key) with
  | error _ => rfl
  | ok p => simp only []; split_ifs <;> rfl

theorem addEvent_leftUnloaded (env : Env) (c : Container) (evt : Event)
    (hInv : c.leftUnloaded) : (HandleMessage.addEvent env c evt).state.leftUnloaded := by
  have hcall : (c.call (UICall.AddEvent evt.RoomID evt)).leftUnloaded :=
    leftUnloaded_of_Rooms c _ hInv rfl
  obtain ⟨h1, h2⟩ := leftUnloaded_GetOrCreateRoom _ evt.RoomID hcall
  unfold HandleMessage.addEvent
  simp only []
  cases env.AddEvent evt with
  | none => exact hcall
  | some message =>
    simp only []
    have hset := leftUnloaded_setRoom _
      { ((c.call (UICall.AddEvent evt.RoomID evt)).GetOrCreateRoom evt.RoomID).1 with
        LastReceivedMessage := message.Time } h1 h2
    split_ifs
    · exact leftUnloaded_of_Rooms _ _ hset rfl
    · exact hset

theorem afterAppend_leftUnloaded (env : Env) (c : Container) (room : Room)
    (events : List Event) (hInv : c.leftUnloaded)
    (hroom : room.HasLeft = true → room.loaded = false) :
    (HandleMessage.afterAppend env c room events).state.leftUnloaded := by
  unfold HandleMessage.afterAppend
  cases events with
  | nil => exact hInv
  | cons evt rest =>
    simp only []
    split_ifs
    · exact leftUnloaded_setRoom c _ hInv hroom
    · exact hInv
    · exact leftUnloaded_of_Rooms _ _
        (leftUnloaded_setRoom c _ hInv (by simpa [Room.AddUnread] using hroom)) rfl
    · exact addEvent_leftUnloaded env c evt hInv
    · exact addEvent_leftUnloaded env c evt hInv

theorem HandleMessage_leftUnloaded (env : Env) (c : Container) (source : EventSource)
    (mxEvent : MxEvent) (hLeave : source.Leave = false) (hInv : c.leftUnloaded) :
    (HandleMessage env c source mxEvent).state.leftUnloaded := by
  obtain ⟨h1, h2⟩ := leftUnloaded_GetOrCreateRoom c mxEvent.RoomID hInv
  unfold HandleMessage
  simp only [hLeave, Bool.false_eq_true, if_false]
  split_ifs
  · exact h1
  · exact leftUnloaded_of_Rooms _ _ h1 (HandleEdit_Rooms _ _ _ _)
  · exact leftUnloaded_of_Rooms _ _ h1 (HandleReaction_Rooms _ _ _ _)
  · exact afterAppend_leftUnloaded env _ _ _ (leftUnloaded_of_Rooms _ _ h1 rfl) h2

theorem processOwnMembershipChange_Rooms (c : Container) (evt : MxEvent) :
    (processOwnMembershipChange c evt).state.Rooms = c.Rooms ∨
    ∃ room, c.GetRoom evt.RoomID = some room ∧
      ((processOwnMembershipChange c evt).state.Rooms
          = roomsPut c.Rooms { room with HasLeft := false } ∨
       (processOwnMembershipChange c evt).state.Rooms
          = roomsPut c.Rooms ({ room with HasLeft := true } : Room).Unload) := by
  unfold processOwnMembershipChange
  cases hI : c.InitialSyncDone <;> cases hr : c.GetRoom evt.RoomID <;>
    simp only [Container.setRoom, hI] <;> split_ifs <;>
    simp [Outcome.state, Container.call]

theorem processOwnMembershipChange_leftUnloaded (c : Container) (evt : MxEvent)
    (hInv : c.leftUnloaded) : (processOwnMembershipChange c evt).state.leftUnloaded := by
  rcases processOwnMembershipChange_Rooms c evt with h | ⟨room, _, h | h⟩
  · exact leftUnloaded_of_Rooms c _ hInv h
  · exact leftUnloaded_of_Rooms _ _
      (leftUnloaded_setRoom c { room with HasLeft := false } hInv (by simp)) h
  · exact leftUnloaded_of_Rooms _ _
      (leftUnloaded_setRoom c ({ room with HasLeft := true } : Room).Unload hInv
        (by simp [Room.Unload])) h

theorem HandleMembership_leftUnloaded (env : Env) (c : Container) (source : EventSource)
    (evt : MxEvent) (hLeave : source.Leave = false) (hInv : c.leftUnloaded) :
    (HandleMembership env c source evt).state.leftUnloaded := by
  unfold HandleMembership
  simp only [hLeave, Bool.false_eq_true, if_false]
  split_ifs
  · exact hInv
  · have hp := processOwnMembershipChange_leftUnloaded c evt hInv
    cases hres : processOwnMembershipChange c evt with
    | ok c2 =>
      rw [hres] at hp
      exact HandleMessage_leftUnloaded env c2 source evt hLeave hp
    | panic c2 =>
      rw [hres] at hp
      exact hp
  · exact hInv
  · exact HandleMessage_leftUnloaded env c source evt hLeave hInv

/-- Counterexample to C11 as stated: the sample room is loaded and not left, so
the invariant holds; after `HandleMessage`, and after `HandleMembership`, with
an event that carries the Leave flag, the room is left and still loaded. -/
theorem leftUnloaded_counterexample :
    (sampleContainer true ["!room"]).leftUnloaded ∧
    ¬ (HandleMessage (sampleEnv shouldNotify true) (sampleContainer true ["!room"])
        leaveSource sampleNewMessage).state.leftUnloaded ∧
    ¬ (HandleMembership (sampleEnv shouldNotify true) (sampleContainer true ["!room"])
        leaveSource (sampleOwnMembership "$join" "join" (some "join"))).state.leftUnloaded := by
  refine ⟨?_, ?_, ?_⟩
  · intro room hroom
    simp [sampleContainer, sampleRoom, NewRoom] at hroom
    simp [hroom]
  · intro h
    have := h { sampleRoom true with HasLeft := true } (by decide)
    simp [sampleRoom] at this
  · intro h
    have := h { sampleRoom true with HasLeft := true } (by decide)
    simp [sampleRoom] at this

/-- C11, amended: when every room of the cache satisfies "HasLeft implies not
loaded", the same holds after `processOwnMembershipChange`, after `JoinRoom`
and after `LeaveRoom`, for every event and every answer of the server, and
after `HandleMessage` and `HandleMembership` for every event and every set of
source flags without the Leave flag. -/
theorem leftUnloaded_preserved (env : Env) (c : Container) (source : EventSource)
    (evt : MxEvent) (roomID server : String) (joinResp : Except String String)
    (leaveResp : Except String Unit) (hInv : c.leftUnloaded) :
    (processOwnMembershipChange c evt).state.leftUnloaded ∧
    (JoinRoom c roomID server joinResp).2.leftUnloaded ∧
    (LeaveRoom c roomID leaveResp).2.leftUnloaded ∧
    (source.Leave = false →
      (HandleMessage env c source evt).state.leftUnloaded ∧
      (HandleMembership env c source evt).state.leftUnloaded) := by
  refine ⟨processOwnMembershipChange_leftUnloaded c evt hInv, ?_, ?_, fun hLeave =>
    ⟨HandleMessage_leftUnloaded env c source evt hLeave hInv,
     HandleMembership_leftUnloaded env c source evt hLeave hInv⟩⟩
  · unfold JoinRoom
    cases joinResp with
    | error err => exact hInv
    | ok respRoomID =>
      exact leftUnloaded_setRoom _ _ (leftUnloaded_GetOrCreateRoom c respRoomID hInv).1
        (by simp)
  · unfold LeaveRoom
    cases leaveResp with
    | error err => exact hInv
    | ok u =>
      exact leftUnloaded_setRoom _ _ (leftUnloaded_GetOrCreateRoom c roomID hInv).1
        (by simp [Room.Unload])

/-- Witness of C11: leaving the loaded sample room with `LeaveRoom`. -/
theorem leftUnloaded_preserved_witness :
    (sampleContainer true ["!room"]).leftUnloaded ∧
    (LeaveRoom (sampleContainer true ["!room"]) "!room" (Except.ok ())).2.leftUnloaded ∧
    (roomsGet (LeaveRoom (sampleContainer true ["!room"]) "!room" (Except.ok ())).2.Rooms
      "!room").map (fun room => (room.HasLeft, room.loaded)) = some (true, false) := by
  have hInv : (sampleContainer true ["!room"]).leftUnloaded := by
    intro room hroom
    simp [sampleContainer, sampleRoom, NewRoom] at hroom
    simp [hroom]
  exact ⟨hInv, (leftUnloaded_preserved (sampleEnv shouldNotify true)
    (sampleContainer true ["!room"]) timelineSource sampleNewMessage "!room" ""
    (Except.error "") (Except.ok ()) hInv).2.2.1, rfl⟩

/-- C13: when the new membership of the event equals the previous membership
(that of `prev_content`, or `leave` when there is no `prev_content`),
`processOwnMembershipChange` returns with the container unchanged: no room's
`HasLeft` or `loaded` changes and no UI call (`AddRoom`, `RemoveRoom`,
`Render`) is made. -/
theorem processOwnMembershipChange_same (c : Container) (evt : MxEvent)
    (hSame : evt.Content.Membership =
      match evt.Unsigned.PrevContent with
      | some prev => prev.Membership
      | none => MembershipLeave) :
    processOwnMembershipChange c evt = Outcome.ok c := by
  unfold processOwnMembershipChange
  simp only []
  rw [if_pos hSame]

/-- Witness of C13: an own leave event without `prev_content`, and an own join
event whose `prev_content` is a join. -/
theorem processOwnMembershipChange_same_witness :
    processOwnMembershipChange (sampleContainer true ["!room"])
        (sampleOwnMembership "$leave" "leave" none)
      = Outcome.ok (sampleContainer true ["!room"]) ∧
    processOwnMembershipChange (sampleContainer true ["!room"])
        (sampleOwnMembership "$join" "join" (some "join"))
      = Outcome.ok (sampleContainer true ["!room"]) :=
  ⟨processOwnMembershipChange_same _ (sampleOwnMembership "$leave" "leave" none) rfl,
   processOwnMembershipChange_same _ (sampleOwnMembership "$join" "join" (some "join")) rfl⟩

theorem flagsOf_roomsPut (rs : List Room) (room : Room) (roomID : String) :
    flagsOf (roomsPut rs room) roomID
      = if room.ID = roomID then some (room.HasLeft, room.loaded) else flagsOf rs roomID := by
  unfold flagsOf
  rw [roomsGet_roomsPut]
  split_ifs <;> rfl

theorem GetOrCreateRoom_of_some (c : Container) (roomID other : String) (r : Room)
    (h : roomsGet c.Rooms roomID = some r) :
    roomsGet (c.GetOrCreateRoom other).2.Rooms roomID = some r ∧
    (other = roomID → (c.GetOrCreateRoom other).1 = r) := by
  unfold Container.GetOrCreateRoom
  cases ho : roomsGet c.Rooms other with
  | some room =>
    refine ⟨h, fun heq => ?_⟩
    subst heq
    rw [h] at ho
    exact (Option.some.inj ho).symm
  | none =>
    refine ⟨?_, fun heq => ?_⟩
    · simp only [roomsGet, List.find?_append] at h ⊢
      simp [h]
    · subst heq
      rw [h] at ho
      exact absurd ho (by simp)

theorem addEvent_flags (env : Env) (c : Container) (evt : Event) (roomID : String)
    (r : Room) (h : roomsGet c.Rooms roomID = some r) :
    flagsOf (HandleMessage.addEvent env c evt).state.Rooms roomID
      = some (r.HasLeft, r.loaded) := by
  have hc : roomsGet (c.call (UICall.AddEvent evt.RoomID evt)).Rooms roomID = some r := h
  obtain ⟨h1, h2⟩ := GetOrCreateRoom_of_some _ roomID evt.RoomID r hc
  have hID := GetOrCreateRoom_ID (c.call (UICall.AddEvent evt.RoomID evt)) evt.RoomID
  unfold HandleMessage.addEvent
  simp only []
  cases env.AddEvent evt with
  | none => simp [Outcome.state, flagsOf, hc]
  | some message =>
    have key : flagsOf (((c.call (UICall.AddEvent evt.RoomID evt)).GetOrCreateRoom
          evt.RoomID).2.setRoom
        { ((c.call (UICall.AddEvent evt.RoomID evt)).GetOrCreateRoom evt.RoomID).1 with
          LastReceivedMessage := message.Time }).Rooms roomID
        = some (r.HasLeft, r.loaded) := by
      simp only [Container.setRoom, flagsOf_roomsPut, hID]
      split_ifs with hid
      · rw [h2 hid]
      · simp [flagsOf, h1]
    simp only []
    split_ifs
    · exact key
    · exact key

theorem afterAppend_flags (env : Env) (c : Container) (room : Room) (events : List Event)
    (roomID : String) (r : Room) (h : roomsGet c.Rooms roomID = some r)
    (hroom : room.ID = roomID → room.HasLeft = r.HasLeft ∧ room.loaded = r.loaded) :
    flagsOf (HandleMessage.afterAppend env c room events).state.Rooms roomID
      = some (r.HasLeft, r.loaded) := by
  unfold HandleMessage.afterAppend
  cases events with
  | nil => simp [Outcome.state, flagsOf, h]
  | cons evt rest =>
    simp only []
    split_ifs
    · simp only [Outcome.state, Container.setRoom, flagsOf_roomsPut]
      split_ifs with hid
      · rw [(hroom hid).1, (hroom hid).2]
      · simp [flagsOf, h]
    · simp [Outcome.state, flagsOf, h]
    · simp only [Outcome.state, Container.setRoom, Container.call, flagsOf_roomsPut,
        Room.AddUnread]
      split_ifs with hid
      · rw [(hroom hid).1, (hroom hid).2]
      · simp [flagsOf, h]
    · exact addEvent_flags env c evt roomID r h
    · exact addEvent_flags env c evt roomID r h

theorem HandleMessage_flags (env : Env) (c : Container) (source : EventSource)
    (mxEvent : MxEvent) (roomID : String) (r : Room)
    (h : roomsGet c.Rooms roomID = some r) :
    flagsOf (HandleMessage env c source mxEvent).state.Rooms roomID
      = some ((source.Leave && decide (mxEvent.RoomID = roomID)) || r.HasLeft, r.loaded) := by
  obtain ⟨h1, h2⟩ := GetOrCreateRoom_of_some c roomID mxEvent.RoomID r h
  have hID := GetOrCreateRoom_ID c mxEvent.RoomID
  unfold HandleMessage
  simp only []
  split_ifs with hL hS hE hR
  · simp only [Outcome.state, Container.setRoom, flagsOf_roomsPut, hID, hL]
    split_ifs with hid
    · rw [h2 hid]; simp [hid]
    · simp [flagsOf, h1, hid]
  · simp [Outcome.state, flagsOf, h1, hL]
  · simp [Outcome.state, flagsOf, HandleEdit_Rooms, h1, hL]
  · simp [Outcome.state, flagsOf, HandleReaction_Rooms, h1, hL]
  · have hroom : (c.GetOrCreateRoom mxEvent.RoomID).1.ID = roomID →
        (c.GetOrCreateRoom mxEvent.RoomID).1.HasLeft = r.HasLeft ∧
        (c.GetOrCreateRoom mxEvent.RoomID).1.loaded = r.loaded := by
      intro hid
      rw [hID] at hid
      rw [h2 hid]
      exact ⟨rfl, rfl⟩
    have := afterAppend_flags env
      { (c.GetOrCreateRoom mxEvent.RoomID).2 with
        history := ((c.GetOrCreateRoom mxEvent.RoomID).2.history.Append
          (c.GetOrCreateRoom mxEvent.RoomID).1.ID [mxEvent]).2 }
      (c.GetOrCreateRoom mxEvent.RoomID).1
      ((c.GetOrCreateRoom mxEvent.RoomID).2.history.Append
          (c.GetOrCreateRoom mxEvent.RoomID).1.ID [mxEvent]).1 roomID r h1 hroom
    rw [this]
    simp [hL]

theorem addEvent_history (env : Env) (c : Container) (evt : Event) :
    (HandleMessage.addEvent env c evt).state.history = c.history ∧
    ∃ c', HandleMessage.addEvent env c evt = Outcome.ok c' := by
  obtain ⟨hh, _⟩ := GetOrCreateRoom_frame (c.call (UICall.AddEvent evt.RoomID evt)) evt.RoomID
  unfold HandleMessage.addEvent
  simp only []
  cases env.AddEvent evt with
  | none => exact ⟨rfl, _, rfl⟩
  | some message =>
    simp only []
    split_ifs
    · exact ⟨hh, _, rfl⟩
    · exact ⟨hh, _, rfl⟩

theorem afterAppend_history (env : Env) (c : Container) (room : Room) (evt : Event)
    (rest : List Event) :
    (HandleMessage.afterAppend env c room (evt :: rest)).state.history = c.history ∧
    ∃ c', HandleMessage.afterAppend env c room (evt :: rest) = Outcome.ok c' := by
  unfold HandleMessage.afterAppend
  simp only []
  split_ifs
  · exact ⟨rfl, _, rfl⟩
  · exact ⟨rfl, _, rfl⟩
  · exact ⟨rfl, _, rfl⟩
  · exact addEvent_history env c evt
  · exact addEvent_history env c evt

theorem HandleMessage_history_primary (env : Env) (c : Container) (source : EventSource)
    (mxEvent : MxEvent) (hRel : mxEvent.Content.RelatesTo = none) :
    (∃ c', HandleMessage env c source mxEvent = Outcome.ok c') ∧
    (HandleMessage env c source mxEvent).state.history
      = if (source.Leave || source.State) = true then c.history
        else (c.history.Append mxEvent.RoomID [mxEvent]).2 := by
  obtain ⟨hh, _⟩ := GetOrCreateRoom_frame c mxEvent.RoomID
  have hID := GetOrCreateRoom_ID c mxEvent.RoomID
  have h1 : mxEvent.Content.GetRelatesTo.GetReplaceID = "" := by
    simp [Content.GetRelatesTo, RelatesTo.GetReplaceID, hRel, RelReplace]
  have h2 : mxEvent.Content.GetRelatesTo.GetAnnotationID = "" := by
    simp [Content.GetRelatesTo, RelatesTo.GetAnnotationID, hRel, RelAnnotation]
  obtain ⟨r, hr, _, _, _⟩ := Append_single c.history mxEvent.RoomID mxEvent
  unfold HandleMessage
  simp only [h1, h2]
  cases hL : source.Leave with
  | true => simp [Outcome.state, Container.setRoom, hh]
  | false =>
    cases hS : source.State with
    | true => simp [Outcome.state, hh]
    | false =>
      simp [Outcome.state, hh, hID]
      rw [hr]
      generalize (c.history.Append mxEvent.RoomID [mxEvent]).2 = h'
      obtain ⟨ha, hb⟩ := afterAppend_history env
        { (c.GetOrCreateRoom mxEvent.RoomID).2 with history := h' }
        (c.GetOrCreateRoom mxEvent.RoomID).1 r []
      refine ⟨hb, ?_⟩
      simp only [Outcome.state] at ha
      exact ha

theorem processOwnMembershipChange_leave (c : Container) (evt : MxEvent) (room : Room)
    (prev : Content) (hMem : evt.Content.Membership = "leave")
    (hPrev : evt.Unsigned.PrevContent = some prev) (hNe : prev.Membership ≠ "leave")
    (hRoom : c.GetRoom evt.RoomID = some room) :
    ∃ c2, processOwnMembershipChange c evt = Outcome.ok c2 ∧
      c2.Rooms = roomsPut c.Rooms ({ room with HasLeft := true } : Room).Unload ∧
      c2.history = c.history ∧ c2.InitialSyncDone = c.InitialSyncDone := by
  have hNe2 : ¬ ("leave" = prev.Membership) := fun h => hNe h.symm
  unfold processOwnMembershipChange
  simp only [hMem, hPrev, hRoom, MembershipLeave, hNe2, if_false]
  cases hI : c.InitialSyncDone <;>
    simp [Container.setRoom, Container.call, hI]

theorem processOwnMembershipChange_join (c : Container) (evt : MxEvent) (room : Room)
    (hMem : evt.Content.Membership = "join")
    (hNe : (match evt.Unsigned.PrevContent with
      | some prev => prev.Membership
      | none => MembershipLeave) ≠ "join")
    (hRoom : c.GetRoom evt.RoomID = some room) :
    ∃ c2, processOwnMembershipChange c evt = Outcome.ok c2 ∧
      c2.Rooms = roomsPut c.Rooms { room with HasLeft := false } ∧
      c2.history = c.history := by
  have hNe2 : ¬ ("join" = match evt.Unsigned.PrevContent with
      | some prev => prev.Membership
      | none => MembershipLeave) := fun h => hNe h.symm
  unfold processOwnMembershipChange
  simp only [hMem, hRoom, hNe2, if_false, if_true]
  cases hI : c.InitialSyncDone <;>
    simp [Container.setRoom, Container.call, hI]

theorem roomLog_Append (h : HistoryManager) (roomID : String) (mxEvent : MxEvent)
    (r : String) :
    roomLog (h.Append roomID [mxEvent]).2 r = roomLog h r ∨
    (r = roomID ∧ roomLog (h.Append roomID [mxEvent]).2 r = roomLog h r ++ [Wrap mxEvent]) := by
  by_cases hr : r = roomID
  · subst hr
    simp only [HistoryManager.Append, roomLog_setRoomLog_same, logAppend]
    cases logGet (roomLog h r) mxEvent.ID with
    | some e => exact Or.inl rfl
    | none => exact Or.inr ⟨trivial, rfl⟩
  · exact Or.inl (roomLog_setRoomLog_other h roomID r _ hr)

theorem HandleMembership_own_leave (env : Env) (c : Container) (source : EventSource)
    (evt : MxEvent) (room : Room) (prev : Content)
    (hOwn : evt.StateKey = some c.UserID) (hMem : evt.Content.Membership = "leave")
    (hPrev : evt.Unsigned.PrevContent = some prev) (hNe : prev.Membership ≠ "leave")
    (hRoom : c.GetRoom evt.RoomID = some room)
    (hGate : ¬ (c.InitialSyncDone = false ∧ source.Leave = true ∧ source.Timeline = false)) :
    flagsOf (HandleMembership env c source evt).state.Rooms evt.RoomID
      = some (true, false) := by
  have key : ∀ (isLeave isTimeline : Bool) (c1 : Container) (room1 : Room),
      evt.StateKey = some c1.UserID → c1.GetRoom evt.RoomID = some room1 →
      ¬ (c1.InitialSyncDone = false ∧ isLeave = true ∧ isTimeline = false) →
      flagsOf (if (!c1.InitialSyncDone && (isLeave && !isTimeline)) = true then Outcome.ok c1
        else if evt.StateKey = some c1.UserID then
          (processOwnMembershipChange c1 evt).andThen
            (fun c => HandleMessage env c source evt)
        else if (!isTimeline && (!c1.InitialSyncDone || isLeave)) = true then
          Outcome.ok c1
        else HandleMessage env c1 source evt).state.Rooms evt.RoomID = some (true, false) := by
    intro isLeave isTimeline c1 room1 hOwn1 hRoom1 hGate1
    have hg : (!c1.InitialSyncDone && (isLeave && !isTimeline)) = false := by
      cases h1 : c1.InitialSyncDone <;> cases h2 : isLeave <;> cases h3 : isTimeline <;>
        simp_all
    obtain ⟨c2, hc2, hRooms, _, _⟩ :=
      processOwnMembershipChange_leave c1 evt room1 prev hMem hPrev hNe hRoom1
    have hID : room1.ID = evt.RoomID := roomsGet_ID _ _ _ hRoom1
    have hget : roomsGet c2.Rooms evt.RoomID
        = some ({ room1 with HasLeft := true } : Room).Unload := by
      rw [hRooms, roomsGet_roomsPut]
      simp [Room.Unload, hID]
    rw [hg]
    simp only [Bool.false_eq_true, if_false, if_pos hOwn1, hc2, Outcome.andThen]
    rw [HandleMessage_flags env c2 source evt evt.RoomID _ hget]
    simp [Room.Unload]
  cases hL : source.Leave with
  | false =>
    have := key false source.Timeline c room hOwn hRoom (by simp)
    unfold HandleMembership
    simpa [hL] using this
  | true =>
    obtain ⟨h1, h2⟩ := GetOrCreateRoom_of_some c evt.RoomID evt.RoomID room hRoom
    obtain ⟨_, _, hi, _, _, hu⟩ := GetOrCreateRoom_frame c evt.RoomID
    have hID : room.ID = evt.RoomID := roomsGet_ID _ _ _ hRoom
    have := key true source.Timeline
      ((c.GetOrCreateRoom evt.RoomID).2.setRoom
        { (c.GetOrCreateRoom evt.RoomID).1 with HasLeft := true })
      { room with HasLeft := true }
      (by simpa [Container.setRoom, hu] using hOwn)
      (by
        simp only [Container.GetRoom, Container.setRoom, roomsGet_roomsPut, h2 rfl]
        simp [hID])
      (by
        intro hc
        apply hGate
        refine ⟨?_, hL, hc.2.2⟩
        have := hc.1
        simpa [Container.setRoom, hi] using this)
    unfold HandleMembership
    simpa [hL] using this

theorem HandleMembership_own_join (env : Env) (c : Container) (source : EventSource)
    (evt : MxEvent) (room : Room)
    (hOwn : evt.StateKey = some c.UserID) (hMem : evt.Content.Membership = "join")
    (hNe : (match evt.Unsigned.PrevContent with
      | some prev => prev.Membership
      | none => MembershipLeave) ≠ "join")
    (hRoom : c.GetRoom evt.RoomID = some room)
    (hLeave : source.Leave = false) (hRel : evt.Content.RelatesTo = none) :
    ∃ c', HandleMembership env c source evt = Outcome.ok c' ∧
      flagsOf c'.Rooms evt.RoomID = some (false, room.loaded) ∧
      ∀ r, roomLog c'.history r = roomLog c.history r ∨
        (r = evt.RoomID ∧ roomLog c'.history r = roomLog c.history r ++ [Wrap evt]) := by
  obtain ⟨c2, hc2, hRooms, hHist⟩ := processOwnMembershipChange_join c evt room hMem hNe hRoom
  have hID : room.ID = evt.RoomID := roomsGet_ID _ _ _ hRoom
  have hget : roomsGet c2.Rooms evt.RoomID = some { room with HasLeft := false } := by
    rw [hRooms, roomsGet_roomsPut]
    simp [hID]
  obtain ⟨⟨c', hc'⟩, hh⟩ := HandleMessage_history_primary env c2 source evt hRel
  have hflags := HandleMessage_flags env c2 source evt evt.RoomID _ hget
  have hres : HandleMembership env c source evt = Outcome.ok c' := by
    unfold HandleMembership
    simp only [hLeave, Bool.false_eq_true, if_false, Bool.false_and, Bool.and_false,
      if_pos hOwn, hc2, Outcome.andThen]
    exact hc'
  rw [hc'] at hh hflags
  simp only [Outcome.state] at hh hflags
  refine ⟨c', hres, ?_, ?_⟩
  · rw [hflags]; simp [hLeave]
  · intro r
    rw [hh, hHist]
    split_ifs
    · exact Or.inl rfl
    · exact roomLog_Append c.history evt.RoomID evt r

/-- Counterexample to C12 as stated: (1) an own `leave` event without
`prev_content` (the previous membership is not given), delivered on the
timeline: the previous membership is taken to be `leave`, the transition is
ignored, and the room stays not left and loaded; (2) during the initial sync,
an own `leave` event after a `join`, delivered with the Leave flag and without
the Timeline flag: the room is marked left but stays loaded. -/
theorem own_leave_counterexample :
    ((sampleOwnMembership "$leave" "leave" none).StateKey
        = some (sampleContainer true ["!room"]).UserID ∧
      (sampleOwnMembership "$leave" "leave" none).Unsigned.PrevContent.isSome = false ∧
      flagsOf (HandleMembership (sampleEnv shouldNotify true) (sampleContainer true ["!room"])
        timelineSource (sampleOwnMembership "$leave" "leave" none)).state.Rooms "!room"
        = some (false, true)) ∧
    ((sampleOwnMembership "$leave" "leave" (some "join")).StateKey
        = some (sampleContainer true ["!room"]).UserID ∧
      flagsOf (HandleMembership (sampleEnv shouldNotify true)
        { sampleContainer true ["!room"] with InitialSyncDone := false }
        leaveStateSource (sampleOwnMembership "$leave" "leave" (some "join"))).state.Rooms
        "!room" = some (true, true)) :=
  ⟨⟨rfl, rfl, rfl⟩, ⟨rfl, rfl⟩⟩

/-- C12, amended: for every membership event of the client's own user whose new
membership is `leave` and whose `prev_content` is present with a membership
other than `leave`, for a room of the room cache, unless the initial sync is
not done and the event carries the Leave flag without the Timeline flag:
after `HandleMembership` the room has `HasLeft` = true and `loaded` = false.
For every own-user `join` event (previous membership not `join`, no relation)
delivered without the Leave flag, for a room of the cache: `HandleMembership`
returns, the room has `HasLeft` = false afterwards, and the log of every room
is the log from before, with the join event itself appended to the room's log
when it is stored. -/
theorem own_leave_then_join (env : Env) (c cj : Container) (source sourceJ : EventSource)
    (leaveEvt joinEvt : MxEvent) (room roomJ : Room) (prev : Content)
    (hOwn : leaveEvt.StateKey = some c.UserID)
    (hMem : leaveEvt.Content.Membership = "leave")
    (hPrev : leaveEvt.Unsigned.PrevContent = some prev)
    (hNe : prev.Membership ≠ "leave")
    (hRoom : c.GetRoom leaveEvt.RoomID = some room)
    (hGate : ¬ (c.InitialSyncDone = false ∧ source.Leave = true ∧ source.Timeline = false))
    (hOwnJ : joinEvt.StateKey = some cj.UserID)
    (hMemJ : joinEvt.Content.Membership = "join")
    (hNeJ : (match joinEvt.Unsigned.PrevContent with
      | some prev => prev.Membership
      | none => MembershipLeave) ≠ "join")
    (hRoomJ : cj.GetRoom joinEvt.RoomID = some roomJ)
    (hLeaveJ : sourceJ.Leave = false)
    (hRelJ : joinEvt.Content.RelatesTo = none) :
    flagsOf (HandleMembership env c source leaveEvt).state.Rooms leaveEvt.RoomID
      = some (true, false) ∧
    ∃ c', HandleMembership env cj sourceJ joinEvt = Outcome.ok c' ∧
      flagsOf c'.Rooms joinEvt.RoomID = some (false, roomJ.loaded) ∧
      ∀ r, roomLog c'.history r = roomLog cj.history r ∨
        (r = joinEvt.RoomID ∧
          roomLog c'.history r = roomLog cj.history r ++ [Wrap joinEvt]) :=
  ⟨HandleMembership_own_leave env c source leaveEvt room prev hOwn hMem hPrev hNe hRoom hGate,
   HandleMembership_own_join env cj sourceJ joinEvt roomJ hOwnJ hMemJ hNeJ hRoomJ hLeaveJ
     hRelJ⟩

/-- Witness of C12: the own user leaves the loaded sample room (after a join),
and joins a left, unloaded room again. -/
theorem own_leave_then_join_witness :
    flagsOf (HandleMembership (sampleEnv shouldNotify true) (sampleContainer true ["!room"])
        timelineSource (sampleOwnMembership "$leave" "leave" (some "join"))).state.Rooms
      "!room" = some (true, false) ∧
    ∃ c', HandleMembership (sampleEnv shouldNotify true) (sampleContainer false ["!room"])
        timelineSource (sampleOwnMembership "$join" "join" (some "leave")) = Outcome.ok c' ∧
      flagsOf c'.Rooms "!room" = some (false, false) ∧
      ∀ r, roomLog c'.history r = roomLog (sampleContainer false ["!room"]).history r ∨
        (r = "!room" ∧ roomLog c'.history r
          = roomLog (sampleContainer false ["!room"]).history r
            ++ [Wrap (sampleOwnMembership "$join" "join" (some "leave"))]) :=
  own_leave_then_join (sampleEnv shouldNotify true) (sampleContainer true ["!room"])
    (sampleContainer false ["!room"]) timelineSource timelineSource
    (sampleOwnMembership "$leave" "leave" (some "join"))
    (sampleOwnMembership "$join" "join" (some "leave")) (sampleRoom true) (sampleRoom false)
    { Content.zero with Membership := "join" } rfl rfl rfl (by decide) rfl (by decide)
    rfl rfl (by decide) rfl rfl rfl

/-! ## The sync loop -/

/-- C15: in the loop of `Start`, when a `Sync()` call (made with a client, the
stop channel being empty) returns an error: `Logout` is invoked (its first
call `c.client.Logout()` is recorded) iff the error is an HTTP error with
status 401; for every other error the state is unchanged and the loop goes on
with its next iteration. An iteration makes `Start` return only when it
receives the stop signal. -/
theorem Start_iteration_error (s : Session) (result : SyncResult)
    (hStop : s.stop = 0) (hClient : s.client = true) (hErr : result ≠ SyncResult.ok) :
    (LifecycleCall.ClientLogout ∈ (Start.iteration s result).session.calls.drop s.calls.length ↔
      result = SyncResult.httpError StatusUnauthorized) ∧
    (result ≠ SyncResult.httpError StatusUnauthorized →
      Start.iteration s result = LoopFlow.continue s) ∧
    (∀ s0 result0 s', Start.iteration s0 result0 = LoopFlow.returned s' →
      0 < s0.stop ∧ s' = { s0 with stop := s0.stop - 1, running := false }) := by
  refine ⟨?_, ?_, ?_⟩
  · cases result with
    | ok => exact absurd rfl hErr
    | otherError =>
      simp [Start.iteration, hStop, hClient, LoopFlow.session]
    | httpError code =>
      by_cases hc : code = StatusUnauthorized
      · subst hc
        cases hr : s.running <;> cases hh : s.history <;>
          simp [Start.iteration, hStop, hClient, LoopFlow.session, Logout, Stop,
            Stop.afterSend, hr]
      · simp [Start.iteration, hStop, hClient, LoopFlow.session, hc]
  · intro hne
    cases result with
    | ok => exact absurd rfl hErr
    | otherError => simp [Start.iteration, hStop, hClient]
    | httpError code =>
      have hc : code ≠ StatusUnauthorized := fun h => hne (by rw [h])
      simp [Start.iteration, hStop, hClient, hc]
  · intro s0 result0 s' h
    unfold Start.iteration at h
    by_cases h0 : s0.stop > 0
    · simp only [h0, if_true] at h
      injection h with h
      exact ⟨h0, h.symm⟩
    · simp only [h0, if_false] at h
      by_cases hcl : s0.client = true
      · simp only [hcl, Bool.not_true, Bool.false_eq_true, if_false] at h
        cases result0 with
        | ok => simp at h
        | otherError => simp at h
        | httpError code =>
          simp only at h
          split_ifs at h
          cases hl : Logout s0 <;> simp [hl] at h
      · simp [hcl] at h

/-- Witness of C15: an HTTP error 500 changes nothing and the loop goes on; an
HTTP error 401 invokes `Logout`. -/
theorem Start_iteration_error_witness :
    sampleSession.stop = 0 ∧ sampleSession.client = true ∧
    Start.iteration sampleSession (SyncResult.httpError 500)
      = LoopFlow.continue sampleSession ∧
    LifecycleCall.ClientLogout ∈
      (Start.iteration sampleSession (SyncResult.httpError 401)).session.calls.drop
        sampleSession.calls.length :=
  ⟨rfl, rfl,
   (Start_iteration_error sampleSession (SyncResult.httpError 500) rfl rfl
      (by decide)).2.1 (by decide),
   (Start_iteration_error sampleSession (SyncResult.httpError 401) rfl rfl
      (by decide)).1.mpr rfl⟩

/-- C18, the code at the failing input: `Stop` is called twice before the loop
has received the first stop signal. The first call closes the history; the
second call passes the test of `c.running` (only the loop resets it) and
blocks on the full channel; when the loop has received the first signal the
second call goes on and invokes `c.history.Close()` a second time, on the
history that was set to nil. -/
theorem Stop_twice_closes_twice :
    (sampleWorld.run [Action.stop]).session.closeCalls = 1 ∧
    (sampleWorld.run [Action.stop, Action.stop]).blockedStops = 1 ∧
    (sampleWorld.run [Action.stop, Action.stop, Action.iterate SyncResult.ok]).looping
      = false ∧
    (sampleWorld.run [Action.stop, Action.stop, Action.iterate SyncResult.ok,
      Action.resume]).session.closeCalls = 2 ∧
    (sampleWorld.run [Action.stop, Action.stop, Action.iterate SyncResult.ok,
      Action.resume]).session.history = false := by
  decide

/-- When `Stop` is reached through `Logout` from inside the loop (a `Sync()` call
answered with status 401), `c.history.Close()` is invoked once and the next
iteration makes `Start` return without another `Sync()` call. -/
theorem Logout_in_loop_closes_once :
    (Start.loop sampleSession
      [SyncResult.httpError 401, SyncResult.ok, SyncResult.ok]).session.closeCalls = 1 ∧
    ∃ s, Start.loop sampleSession [SyncResult.httpError 401, SyncResult.ok, SyncResult.ok]
      = LoopFlow.returned s ∧ s.running = false := by
  refine ⟨by decide, _, rfl, rfl⟩

/-! ## The typing debounce -/

theorem SendTyping_true (typingState ts : Int) :
    SendTyping typingState ts true
      = if typingState > ts then (typingState, none)
        else (ts + 15, some { typing := true, timeout := 20000 }) := by
  unfold SendTyping
  by_cases h : typingState > ts <;> simp [h]

theorem SendTyping_sent_iff (typingState ts : Int) (emitted : List Int)
    (hInv : typingInvariant typingState emitted) (h0 : 0 ≤ ts)
    (hle : ∀ e ∈ emitted, e ≤ ts) :
    ((SendTyping typingState ts true).2.isSome = true ↔ ∀ e ∈ emitted, e + 15 ≤ ts) := by
  rw [SendTyping_true]
  rcases hInv.2 with ⟨hz, he⟩ | ⟨m, hm, hty, hmax⟩
  · subst hz he
    have : ¬ (0 : Int) > ts := by omega
    simp [this]
  · by_cases h : typingState > ts
    · simp only [h, if_true, Option.isSome_none, Bool.false_eq_true, false_iff]
      intro hall
      have := hall m hm
      omega
    · simp only [h, if_false, Option.isSome_some, true_iff]
      intro e he
      have := hmax e he
      omega

theorem SendTyping_calls_invariant (times : List Int) :
    ∀ (typingState : Int) (emitted : List Int), typingInvariant typingState emitted →
      times.Pairwise (fun a b => a ≤ b) →
      (∀ ts ∈ times, 0 ≤ ts ∧ ∀ e ∈ emitted, e ≤ ts) →
      typingInvariant (SendTyping.calls typingState times).1
        (emitted ++ (SendTyping.calls typingState times).2) := by
  induction times with
  | nil => intro typingState emitted hInv _ _; simpa [SendTyping.calls] using hInv
  | cons ts rest ih =>
    intro typingState emitted hInv hsorted hbound
    obtain ⟨h0, hle⟩ := hbound ts (by simp)
    have hiff := SendTyping_sent_iff typingState ts emitted hInv h0 hle
    rw [List.pairwise_cons] at hsorted
    simp only [SendTyping.calls]
    rw [SendTyping_true] at hiff ⊢
    by_cases h : typingState > ts
    · simp only [h, if_true, Option.isSome_none, Bool.false_eq_true, if_false]
      exact ih typingState emitted hInv hsorted.2
        (fun t ht => hbound t (List.mem_cons_of_mem _ ht))
    · simp only [h, if_false, Option.isSome_some, if_true] at hiff ⊢
      have hspaced := hiff.mp trivial
      have hInv' : typingInvariant (ts + 15) (emitted ++ [ts]) := by
        refine ⟨?_, Or.inr ⟨ts, by simp, rfl, ?_⟩⟩
        · rw [List.pairwise_append]
          refine ⟨hInv.1, by simp, ?_⟩
          intro a ha b hb
          simp only [List.mem_singleton] at hb
          subst hb
          exact hspaced a ha
        · intro e he
          simp only [List.mem_append, List.mem_singleton] at he
          rcases he with he | he
          · exact hle e he
          · omega
      have := ih (ts + 15) (emitted ++ [ts]) hInv' hsorted.2 (by
        intro t ht
        refine ⟨(hbound t (List.mem_cons_of_mem _ ht)).1, ?_⟩
        intro e he
        simp only [List.mem_append, List.mem_singleton] at he
        rcases he with he | he
        · exact (hbound t (List.mem_cons_of_mem _ ht)).2 e he
        · subst he
          exact hsorted.1 t ht)
      simpa using this

theorem SendTyping_calls_subset (times : List Int) :
    ∀ (typingState : Int), ∀ e ∈ (SendTyping.calls typingState times).2, e ∈ times := by
  induction times with
  | nil => intro typingState e he; simp [SendTyping.calls] at he
  | cons ts rest ih =>
    intro typingState e he
    simp only [SendTyping.calls] at he
    split_ifs at he
    · simp only [List.mem_cons] at he
      rcases he with he | he
      · simp [he]
      · exact List.mem_cons_of_mem _ (ih _ e he)
    · exact List.mem_cons_of_mem _ (ih _ e he)

/-- C16: for every sequence of `SendTyping(room, true)` calls made at
non-decreasing wall-clock seconds (Unix seconds, so not negative), starting
with `c.typing` = 0 and with no other change of `c.typing` in between: the call
at time `ts`, after the calls at the times `pre`, sends a typing notification
iff no notification was sent at a time `t0` with `ts < t0 + 15`; and any two
notifications sent in the sequence are at least 15 seconds apart. -/
theorem SendTyping_debounce (pre post : List Int) (ts : Int)
    (hsorted : (pre ++ ts :: post).Pairwise (fun a b => a ≤ b))
    (hpos : ∀ t ∈ pre ++ ts :: post, 0 ≤ t) :
    ((SendTyping (SendTyping.calls 0 pre).1 ts true).2.isSome = true ↔
      ¬ ∃ t0 ∈ (SendTyping.calls 0 pre).2, ts < t0 + 15) ∧
    (SendTyping.calls 0 (pre ++ ts :: post)).2.Pairwise (fun a b => a + 15 ≤ b) := by
  have hInv0 : typingInvariant 0 [] := ⟨List.Pairwise.nil, Or.inl ⟨rfl, rfl⟩⟩
  have hsplit := List.pairwise_append.mp hsorted
  have hpre := SendTyping_calls_invariant pre 0 [] hInv0 hsplit.1
    (fun t ht => ⟨hpos t (List.mem_append_left _ ht), by simp⟩)
  simp only [List.nil_append] at hpre
  have hle : ∀ e ∈ (SendTyping.calls 0 pre).2, e ≤ ts := fun e he =>
    hsplit.2.2 e (SendTyping_calls_subset pre 0 e he) ts (by simp)
  have hiff := SendTyping_sent_iff _ ts _ hpre (hpos ts (by simp)) hle
  refine ⟨?_, ?_⟩
  · rw [hiff]
    constructor
    · rintro h ⟨t0, ht0, hlt⟩
      have := h t0 ht0
      omega
    · intro h e he
      by_contra hcon
      exact h ⟨e, he, by omega⟩
  · have hall := SendTyping_calls_invariant (pre ++ ts :: post) 0 [] hInv0 hsorted
      (fun t ht => ⟨hpos t ht, by simp⟩)
    simpa using hall.1

/-- Witness of C16: calls at the seconds 100, 105, 114, 115, 130, 131: the
notifications are sent at 100, 115 and 130. -/
theorem SendTyping_debounce_witness :
    (SendTyping.calls 0 [100, 105, 114, 115, 130, 131]).2 = [100, 115, 130] ∧
    ((SendTyping (SendTyping.calls 0 [100, 105, 114]).1 115 true).2.isSome = true ↔
      ¬ ∃ t0 ∈ (SendTyping.calls 0 [100, 105, 114]).2, (115 : Int) < t0 + 15) ∧
    (SendTyping.calls 0 ([100, 105, 114] ++ 115 :: [130, 131])).2.Pairwise
      (fun a b => a + 15 ≤ b) :=
  ⟨by decide, SendTyping_debounce [100, 105, 114] [130, 131] 115 (by decide) (by decide)⟩

/-! ## Fetching history -/

/-- C17: `GetHistory(room, limit)` sends a request to the server iff the
history's `Load` succeeds with zero events. When `Load` returns at least one
event, exactly those events are returned and the room (its pagination cursor
`PrevBatch`) is unchanged; when `Load` fails, its error is returned. On the
fallback the one request asks for the room's messages backwards (`b`) from
`room.PrevBatch` with the given limit, and when the server answers, the
room's `PrevBatch` is set to the end token of the answer. -/
theorem GetHistory_cache_or_server (env : HistoryEnv) (room : Room) (limit : Int) :
    ((GetHistory env room limit).requests ≠ [] ↔ env.Load room limit = Except.ok []) ∧
    (∀ events, env.Load room limit = Except.ok events → events ≠ [] →
      (GetHistory env room limit).events = some events ∧
      (GetHistory env room limit).err = none ∧
      (GetHistory env room limit).room = room ∧
      (GetHistory env room limit).requests = []) ∧
    (∀ err, env.Load room limit = Except.error err →
      (GetHistory env room limit).events = none ∧
      (GetHistory env room limit).err = some err ∧
      (GetHistory env room limit).room = room) ∧
    (env.Load room limit = Except.ok [] →
      (GetHistory env room limit).requests
        = [(MessagesRequest.mk room.ID room.PrevBatch "" 'b' limit)] ∧
      ∀ resp, env.Messages (MessagesRequest.mk room.ID room.PrevBatch "" 'b' limit) = Except.ok resp →
        (GetHistory env room limit).room.PrevBatch = resp.End) := by
  refine ⟨?_, ?_, ?_, ?_⟩
  · unfold GetHistory
    cases hl : env.Load room limit with
    | error err => simp
    | ok events =>
      cases events with
      | nil =>
        simp only [List.length_nil, gt_iff_lt, lt_self_iff_false, if_false]
        cases hm : env.Messages (MessagesRequest.mk room.ID room.PrevBatch "" 'b' limit) with
        | error err => simp
        | ok resp =>
          simp only []
          split_ifs
          · simp
          · cases env.Prepend _ resp.Chunk <;> simp
      | cons e rest => simp
  · intro events hl hne
    unfold GetHistory
    cases events with
    | nil => exact absurd rfl hne
    | cons e rest => simp [hl]
  · intro err hl
    unfold GetHistory
    simp [hl]
  · intro hl
    unfold GetHistory
    simp only [hl, List.length_nil, gt_iff_lt, lt_self_iff_false, if_false]
    constructor
    · cases hm : env.Messages (MessagesRequest.mk room.ID room.PrevBatch "" 'b' limit) with
      | error err => rfl
      | ok resp =>
        simp only []
        split_ifs
        · rfl
        · cases env.Prepend _ resp.Chunk <;> rfl
    · intro resp hm
      simp only [hm]
      split_ifs
      · rfl
      · cases env.Prepend _ resp.Chunk <;> rfl

/-- Witness of C17: with a cached event the cache answers; with an empty cache
the server is asked from the room's cursor and the cursor moves to `t2`. -/
theorem GetHistory_cache_or_server_witness :
    ((GetHistory (sampleHistoryEnv [Wrap sampleMessage]) (sampleRoom true) 50).events
        = some [Wrap sampleMessage] ∧
      (GetHistory (sampleHistoryEnv [Wrap sampleMessage]) (sampleRoom true) 50).requests = []) ∧
    ((GetHistory (sampleHistoryEnv []) (sampleRoom true) 50).requests
        = [MessagesRequest.mk "!room" "" "" 'b' 50] ∧
      (GetHistory (sampleHistoryEnv []) (sampleRoom true) 50).room.PrevBatch = "t2") :=
  have h1 := (GetHistory_cache_or_server (sampleHistoryEnv [Wrap sampleMessage])
    (sampleRoom true) 50).2.1 [Wrap sampleMessage] rfl (by simp)
  have h2 := (GetHistory_cache_or_server (sampleHistoryEnv []) (sampleRoom true) 50).2.2.2 rfl
  ⟨⟨h1.1, h1.2.2.2⟩, ⟨h2.1, h2.2 _ rfl⟩⟩

/-! ## Local echo -/

/-- C19: for every room id, message type, text and optional relation, the event
`PrepareMarkdownMessage` returns has the outgoing state `StateLocalEcho` and
carries the generated transaction id in `Unsigned.TransactionID`; its id is
that transaction id unless the relation is a replace relation, in which case
its id is the id of the edited event and its edit list has exactly one
element, the echo itself (same event, same outgoing state). -/
theorem PrepareMarkdownMessage_local_echo (env : MarkdownEnv)
    (userID roomID msgtype text : String) (rel : Option Relation) :
    (PrepareMarkdownMessage env userID roomID msgtype text rel).OutgoingState
      = OutgoingState.StateLocalEcho ∧
    (PrepareMarkdownMessage env userID roomID msgtype text rel).base.Unsigned.TransactionID
      = env.TxnID ∧
    (∀ r, rel = some r → r.RelType = RelReplace →
      (PrepareMarkdownMessage env userID roomID msgtype text rel).base.ID = r.Event.ID ∧
      ∃ echo, (PrepareMarkdownMessage env userID roomID msgtype text rel).Edits = [echo] ∧
        echo.base = (PrepareMarkdownMessage env userID roomID msgtype text rel).base ∧
        echo.OutgoingState
          = (PrepareMarkdownMessage env userID roomID msgtype text rel).OutgoingState) ∧
    ((∀ r, rel = some r → r.RelType ≠ RelReplace) →
      (PrepareMarkdownMessage env userID roomID msgtype text rel).base.ID = env.TxnID ∧
      (PrepareMarkdownMessage env userID roomID msgtype text rel).Edits = []) := by
  cases rel with
  | none =>
    refine ⟨rfl, rfl, ?_, fun _ => ⟨rfl, rfl⟩⟩
    intro r hr
    exact absurd hr (by simp)
  | some r0 =>
    by_cases hrep : r0.RelType = RelReplace
    · refine ⟨?_, ?_, ?_, ?_⟩
      · simp [PrepareMarkdownMessage, hrep, Wrap]
      · simp [PrepareMarkdownMessage, hrep, Wrap]
      · intro r hr _
        cases hr
        simp [PrepareMarkdownMessage, hrep, Wrap]
      · intro h
        exact absurd hrep (h r0 rfl)
    · refine ⟨?_, ?_, ?_, ?_⟩
      · simp [PrepareMarkdownMessage, hrep, Wrap]
      · simp [PrepareMarkdownMessage, hrep, Wrap]
      · intro r hr hr2
        cases hr
        exact absurd hr2 hrep
      · intro _
        simp [PrepareMarkdownMessage, hrep, Wrap]

/-- Witness of C19: the local echo of an edit of the stored sample message. -/
theorem PrepareMarkdownMessage_local_echo_witness :
    (PrepareMarkdownMessage sampleMarkdownEnv "@me:example.org" "!room" "m.text" "hello!"
        (some { RelType := RelReplace, Event := Wrap sampleMessage })).base.ID = "$msg" ∧
    ∃ echo, (PrepareMarkdownMessage sampleMarkdownEnv "@me:example.org" "!room" "m.text"
        "hello!" (some { RelType := RelReplace, Event := Wrap sampleMessage })).Edits
        = [echo] ∧
      echo.base = (PrepareMarkdownMessage sampleMarkdownEnv "@me:example.org" "!room"
        "m.text" "hello!" (some { RelType := RelReplace, Event := Wrap sampleMessage })).base ∧
      echo.OutgoingState = (PrepareMarkdownMessage sampleMarkdownEnv "@me:example.org"
        "!room" "m.text" "hello!"
        (some { RelType := RelReplace, Event := Wrap sampleMessage })).OutgoingState :=
  (PrepareMarkdownMessage_local_echo sampleMarkdownEnv "@me:example.org" "!room" "m.text"
    "hello!" (some { RelType := RelReplace, Event := Wrap sampleMessage })).2.2.1
    { RelType := RelReplace, Event := Wrap sampleMessage } rfl rfl

/-! ## Matrix content URLs -/

theorem regexLiteral_append (literal s : List Char) :
    regexLiteral literal (literal ++ s) = some s := by
  induction literal with
  | nil => cases s <;> rfl
  | cons l rest ih => simp [regexLiteral, ih]

theorem regexLiteral_some (literal : List Char) :
    ∀ (s s1 : List Char), regexLiteral literal s = some s1 → s = literal ++ s1 := by
  induction literal with
  | nil =>
    intro s s1 h
    cases s <;> simp [regexLiteral] at h <;> simp [h]
  | cons l rest ih =>
    intro s s1 h
    cases s with
    | nil => simp [regexLiteral] at h
    | cons ch s =>
      by_cases hl : l = ch
      · simp only [regexLiteral, hl, if_true] at h
        simp [hl, ih s s1 h]
      · simp [regexLiteral, hl] at h

/-- A match of `.+` followed by `k` consumes a non-empty text. -/
theorem regexDotPlus_some {R : Type} (k : List Char → List Char → Option R)
    (s : List Char) :
    ∀ (taken : List Char) (r : R), regexDotPlus k taken s = some r →
      ∃ group rest, group ≠ [] ∧ taken ++ s = group ++ rest ∧ k group rest = some r := by
  induction s with
  | nil =>
    intro taken r h
    by_cases ht : taken = []
    · simp [regexDotPlus, ht] at h
    · simp only [regexDotPlus, ne_eq, ht, not_false_eq_true, if_true] at h
      exact ⟨taken, [], ht, rfl, h⟩
  | cons ch rest ih =>
    intro taken r h
    have hstop : (if taken ≠ [] then k taken (ch :: rest) else none) = some r →
        ∃ group rest', group ≠ [] ∧ taken ++ ch :: rest = group ++ rest' ∧
          k group rest' = some r := by
      intro h
      by_cases ht : taken = []
      · simp [ht] at h
      · simp only [ne_eq, ht, not_false_eq_true, if_true] at h
        exact ⟨taken, ch :: rest, ht, rfl, h⟩
    simp only [regexDotPlus] at h
    by_cases hd : regexDot ch = true
    · simp only [hd, if_true] at h
      cases hrec : regexDotPlus k (taken ++ [ch]) rest with
      | some r' =>
        rw [hrec] at h
        obtain ⟨group, rest', hg, heq, hk⟩ := ih (taken ++ [ch]) r' hrec
        refine ⟨group, rest', hg, ?_, ?_⟩
        · simpa using heq
        · simpa using h ▸ hk
      | none =>
        rw [hrec] at h
        exact hstop h
    · simp only [hd, Bool.false_eq_true, if_false] at h
      exact hstop h

theorem mxcRegex_matchHere_some (s hs id : List Char)
    (h : mxcRegex.matchHere s = some (hs, id)) :
    ∃ rest, hs ≠ [] ∧ id ≠ [] ∧
      s = ['m', 'x', 'c', ':', '/', '/'] ++ hs ++ ['/'] ++ id ++ rest := by
  unfold mxcRegex.matchHere at h
  cases h1 : regexLiteral ['m', 'x', 'c', ':', '/', '/'] s with
  | none => simp [h1] at h
  | some s1 =>
    simp only [h1] at h
    obtain ⟨g1, r1, hg1, heq1, hk1⟩ := regexDotPlus_some _ s1 [] (hs, id) h
    simp only [List.nil_append] at heq1
    cases h2 : regexLiteral ['/'] r1 with
    | none => simp [h2] at hk1
    | some s3 =>
      simp only [h2] at hk1
      obtain ⟨g2, r2, hg2, heq2, hk2⟩ := regexDotPlus_some _ s3 [] (hs, id) hk1
      simp only [List.nil_append, Option.some.injEq, Prod.mk.injEq] at heq2 hk2
      obtain ⟨hk2a, hk2b⟩ := hk2
      subst hk2a hk2b
      refine ⟨r2, hg1, hg2, ?_⟩
      rw [regexLiteral_some _ _ _ h1, heq1, regexLiteral_some _ _ _ h2, heq2]
      simp [List.append_assoc]

theorem mxcRegex_find_some (s : List Char) :
    ∀ hs id, mxcRegex.find s = some (hs, id) →
      ∃ pre rest, hs ≠ [] ∧ id ≠ [] ∧
        s = pre ++ ['m', 'x', 'c', ':', '/', '/'] ++ hs ++ ['/'] ++ id ++ rest := by
  induction s with
  | nil =>
    intro hs id h
    rw [mxcRegex.find] at h
    obtain ⟨rest, _, _, h3⟩ := mxcRegex_matchHere_some [] hs id h
    simp at h3
  | cons ch rest ih =>
    intro hs id h
    rw [mxcRegex.find] at h
    cases hm : mxcRegex.matchHere (ch :: rest) with
    | none =>
      simp only [hm] at h
      obtain ⟨pre, post, h1, h2, h3⟩ := ih hs id h
      exact ⟨ch :: pre, post, h1, h2, by simp [h3]⟩
    | some g =>
      simp only [hm, Option.some.injEq] at h
      subst h
      obtain ⟨post, h1, h2, h3⟩ := mxcRegex_matchHere_some (ch :: rest) hs id hm
      exact ⟨[], post, h1, h2, by simpa using h3⟩

theorem regexDotPlus_no_slash {R : Type} (k : List Char → List Char → Option R)
    (s : List Char) (hs : '/' ∉ s) :
    ∀ taken, regexDotPlus (fun group s2 =>
      match regexLiteral ['/'] s2 with
      | none => none
      | some s3 => k group s3) taken s = none := by
  induction s with
  | nil => intro taken; by_cases ht : taken = [] <;> simp [regexDotPlus, ht, regexLiteral]
  | cons ch rest ih =>
    intro taken
    have hch : ¬ '/' = ch := fun h => hs (h ▸ List.mem_cons_self _ _)
    have hrest : '/' ∉ rest := fun h => hs (List.mem_cons_of_mem _ h)
    rw [regexDotPlus, ih hrest]
    by_cases hd : regexDot ch = true <;> by_cases ht : taken = [] <;>
      simp [hd, ht, regexLiteral, hch]

theorem regexDotPlus_all (hs : List Char) (s : List Char)
    (hdot : ∀ ch ∈ s, regexDot ch = true) :
    ∀ taken, taken ++ s ≠ [] →
      regexDotPlus (fun id _ => some (hs, id)) taken s = some (hs, taken ++ s) := by
  induction s with
  | nil =>
    intro taken hne
    have ht : taken ≠ [] := by simpa using hne
    simp [regexDotPlus, ht]
  | cons ch rest ih =>
    intro taken _
    have hd : regexDot ch = true := hdot ch (by simp)
    have := ih (fun c hc => hdot c (List.mem_cons_of_mem _ hc)) (taken ++ [ch]) (by simp)
    rw [regexDotPlus, if_pos hd, this]
    simp

theorem regexDotPlus_groups (H I : List Char)
    (hH1 : '/' ∉ H) (hH2 : ∀ ch ∈ H, regexDot ch = true)
    (hI0 : I ≠ []) (hI1 : '/' ∉ I) (hI2 : ∀ ch ∈ I, regexDot ch = true) :
    ∀ taken, taken ++ H ≠ [] →
      regexDotPlus (fun hs s2 =>
        match regexLiteral ['/'] s2 with
        | none => none
        | some s3 => regexDotPlus (fun id _ => some (hs, id)) [] s3) taken
        (H ++ '/' :: I) = some (taken ++ H, I) := by
  induction H with
  | nil =>
    intro taken hne
    have ht : taken ≠ [] := by simpa using hne
    have hdeeper := regexDotPlus_no_slash
      (fun hs s3 => regexDotPlus (fun id _ => some (hs, id)) [] s3) I hI1 (taken ++ ['/'])
    have hslash : regexDot '/' = true := by decide
    have hall := regexDotPlus_all taken I hI2 [] (by simpa using hI0)
    simp only [List.nil_append] at hall
    rw [List.nil_append, regexDotPlus, if_pos hslash, hdeeper]
    simp only [ne_eq, ht, not_false_eq_true, if_true, regexLiteral, hall, List.append_nil]
  | cons ch rest ih =>
    intro taken _
    have hd : regexDot ch = true := hH2 ch (by simp)
    have := ih (fun h => hH1 (List.mem_cons_of_mem _ h))
      (fun c hc => hH2 c (List.mem_cons_of_mem _ hc)) (taken ++ [ch]) (by simp)
    rw [List.cons_append, regexDotPlus, if_pos hd, this]
    simp

theorem mxcRegex_find_of_matchHere (s : List Char) (groups : List Char × List Char)
    (h : mxcRegex.matchHere s = some groups) : mxcRegex.find s = some groups := by
  cases s with
  | nil => rw [mxcRegex.find]; exact h
  | cons ch rest => rw [mxcRegex.find, h]

theorem mxcRegex_find_url (H I : List Char) (hH0 : H ≠ []) (hI0 : I ≠ [])
    (hH1 : '/' ∉ H) (hH2 : '\n' ∉ H) (hI1 : '/' ∉ I) (hI2 : '\n' ∉ I) :
    mxcRegex.find (['m', 'x', 'c', ':', '/', '/'] ++ H ++ ['/'] ++ I) = some (H, I) := by
  have hdH : ∀ ch ∈ H, regexDot ch = true := by
    intro ch hch
    have : ch ≠ '\n' := fun h => hH2 (h ▸ hch)
    simp [regexDot, this]
  have hdI : ∀ ch ∈ I, regexDot ch = true := by
    intro ch hch
    have : ch ≠ '\n' := fun h => hI2 (h ▸ hch)
    simp [regexDot, this]
  apply mxcRegex_find_of_matchHere
  have hshape : ['m', 'x', 'c', ':', '/', '/'] ++ H ++ ['/'] ++ I
      = ['m', 'x', 'c', ':', '/', '/'] ++ (H ++ '/' :: I) := by simp
  have hgroups := regexDotPlus_groups H I hH1 hdH hI0 hI1 hdI [] (by simpa using hH0)
  simp only [List.nil_append] at hgroups
  rw [hshape, mxcRegex.matchHere, regexLiteral_append]
  exact hgroups

/-- C20: for every homeserver name H and file id I that are not empty and contain
neither `/` nor a newline, `Download` of the content URL `mxc://H/I` works on
`hs` = H and `id` = I; and for every string without a match of
`mxc://<non-empty>/<non-empty>`, `Download` returns the error
`invalid matrix content URL` with nil data and empty `hs` and `id`. -/
theorem Download_mxc_url (fetch : String → String → Option (List Nat) × Option String)
    (H I : String) (hH0 : H ≠ "") (hI0 : I ≠ "")
    (hH1 : '/' ∉ H.data) (hH2 : '\n' ∉ H.data) (hI1 : '/' ∉ I.data) (hI2 : '\n' ∉ I.data) :
    ((Download fetch ("mxc://" ++ H ++ "/" ++ I)).hs = H ∧
      (Download fetch ("mxc://" ++ H ++ "/" ++ I)).id = I ∧
      (Download fetch ("mxc://" ++ H ++ "/" ++ I)).data = (fetch H I).1 ∧
      (Download fetch ("mxc://" ++ H ++ "/" ++ I)).err = (fetch H I).2) ∧
    (∀ mxcURL : String,
      (¬ ∃ pre hs id post : List Char, hs ≠ [] ∧ id ≠ [] ∧
        mxcURL.data = pre ++ "mxc://".data ++ hs ++ "/".data ++ id ++ post) →
      Download fetch mxcURL
        = { data := none, hs := "", id := "", err := some "invalid matrix content URL" }) := by
  constructor
  · have hHd : H.data ≠ [] := fun h => hH0 (String.ext h)
    have hId : I.data ≠ [] := fun h => hI0 (String.ext h)
    have hdata : ("mxc://" ++ H ++ "/" ++ I).data
        = ['m', 'x', 'c', ':', '/', '/'] ++ H.data ++ ['/'] ++ I.data := by
      simp [String.data_append]
    have hfind := mxcRegex_find_url H.data I.data hHd hId hH1 hH2 hI1 hI2
    have hsub : mxcRegex.FindStringSubmatch ("mxc://" ++ H ++ "/" ++ I) = some (H, I) := by
      unfold mxcRegex.FindStringSubmatch
      rw [hdata, hfind]
      rfl
    unfold Download
    rw [hsub]
    exact ⟨rfl, rfl, rfl, rfl⟩
  · intro mxcURL hno
    have hnone : mxcRegex.find mxcURL.data = none := by
      cases hf : mxcRegex.find mxcURL.data with
      | none => rfl
      | some groups =>
        obtain ⟨hs, id⟩ := groups
        obtain ⟨pre, post, h1, h2, h3⟩ := mxcRegex_find_some mxcURL.data hs id hf
        exact absurd ⟨pre, hs, id, post, h1, h2, by simpa using h3⟩ hno
    unfold Download mxcRegex.FindStringSubmatch
    rw [hnone]
    rfl

/-- Witness of C20: the content URL of the file `abcDEF` on `example.org`. -/
theorem Download_mxc_url_witness :
    (Download (fun _ _ => (some [1, 2, 3], none)) "mxc://example.org/abcDEF").hs
      = "example.org" ∧
    (Download (fun _ _ => (some [1, 2, 3], none)) "mxc://example.org/abcDEF").id = "abcDEF" ∧
    Download (fun _ _ => (some [1, 2, 3], none)) "https://example.org/abcDEF"
      = { data := none, hs := "", id := "", err := some "invalid matrix content URL" } :=
  have h := Download_mxc_url (fun _ _ => (some [1, 2, 3], none)) "example.org" "abcDEF"
    (by decide) (by decide) (by decide) (by decide) (by decide) (by decide)
  ⟨h.1.1, h.1.2.1, by decide⟩

/-! ## The instant recorded as `LastReceivedMessage` -/

/-- The instant `HandleMessage` computes from a timestamp in milliseconds falls
short of the timestamp by 999000 ns for every millisecond above the whole second. -/
theorem timeUnix_of_millis (T : Int) :
    timeUnix (T.tdiv 1000) (T.tmod 1000 * 1000) = T * 1000000 - T.tmod 1000 * 999000 := by
  unfold timeUnix
  have h := Int.tmod_add_tdiv T 1000
  omega

/-- C22: where `HandleMessage` records `LastReceivedMessage` from a Primary
event with the timestamp T in milliseconds (in the initial-sync phase, and in the
live unread-only branch), the room's stored instant is
`time.Unix(T/1000, T%1000*1000)`, that is T x 1,000,000 - (T % 1000) x 999,000
nanoseconds after the epoch: the milliseconds above the whole second are
counted as microseconds, and the instant is the event's timestamp only when T is
a whole number of seconds. -/
theorem HandleMessage_lastReceived (env : Env) (c c1 : Container) (source : EventSource)
    (mxEvent : MxEvent) (room : Room) (evt : Event) (rest : List Event)
    (h : HistoryManager)
    (hLeave : source.Leave = false) (hState : source.State = false)
    (hEdit : mxEvent.Content.GetRelatesTo.GetReplaceID.length = 0)
    (hReact : ¬ (mxEvent.EvType = EventReaction ∧
      0 < mxEvent.Content.GetRelatesTo.GetAnnotationID.length))
    (hRoom : c.GetOrCreateRoom mxEvent.RoomID = (room, c1))
    (hAppend : c1.history.Append room.ID [mxEvent] = (evt :: rest, h))
    (hBranch : c.InitialSyncDone = false ∨
      (c.InitialSyncDone = true ∧ c.hasRoomView evt.RoomID = true ∧ room.Loaded = false ∧
        (env.pushRules room evt.base).NotifySpecified = true ∧
        (env.pushRules room evt.base).Notify = false)) :
    (roomsGet (HandleMessage env c source mxEvent).state.Rooms room.ID).map
        (fun r => r.LastReceivedMessage)
      = some (evt.base.Timestamp * 1000000 - evt.base.Timestamp.tmod 1000 * 999000) ∧
    (evt.base.Timestamp * 1000000 - evt.base.Timestamp.tmod 1000 * 999000
        = evt.base.Timestamp * 1000000 ↔ evt.base.Timestamp.tmod 1000 = 0) := by
  refine ⟨?_, by omega⟩
  rw [← timeUnix_of_millis]
  rcases hBranch with hInit | ⟨hLive, hView, hNL, hS, hN⟩
  · obtain ⟨h1, hi, _, _, _⟩ := HandleMessage_primary_live env c c1 source mxEvent room evt
      rest h hLeave hState hEdit hReact hRoom hAppend
    have hInit1 : ({ c1 with history := h } : Container).InitialSyncDone = false := by
      simpa [hi] using hInit
    rw [h1]
    generalize ({ c1 with history := h } : Container) = c2 at hInit1 ⊢
    unfold HandleMessage.afterAppend
    simp [hInit1, Outcome.state, Container.setRoom, roomsGet_roomsPut]
  · rw [HandleMessage_live_view env c c1 source mxEvent room evt rest h hLeave hState hEdit
      hReact hRoom hAppend hLive hView]
    simp [hNL, hS, hN, Outcome.state, Container.setRoom, Container.call, Room.AddUnread,
      roomsGet_roomsPut]

/-- Witness of C22: the message of 1555000004.567 s is recorded as
1555000004.000567 s, in the initial-sync phase and in the live unread-only
branch. -/
theorem HandleMessage_lastReceived_witness :
    (roomsGet (HandleMessage (sampleEnv shouldNotNotify true)
        { sampleContainer false [] with InitialSyncDone := false } timelineSource
        sampleNewMessage).state.Rooms "!room").map (fun r => r.LastReceivedMessage)
      = some 1555000004000567000 ∧
    (roomsGet (HandleMessage (sampleEnv shouldNotNotify true)
        (sampleContainer false ["!room"]) timelineSource
        sampleNewMessage).state.Rooms "!room").map (fun r => r.LastReceivedMessage)
      = some 1555000004000567000 ∧
    (1555000004000567000 : Int) ≠ 1555000004567 * 1000000 :=
  ⟨(HandleMessage_lastReceived (sampleEnv shouldNotNotify true)
      { sampleContainer false [] with InitialSyncDone := false }
      { sampleContainer false [] with InitialSyncDone := false } timelineSource
      sampleNewMessage (sampleRoom false) (Wrap sampleNewMessage) [] sampleHistoryAfter
      rfl rfl rfl (by decide) rfl rfl (Or.inl rfl)).1,
    (HandleMessage_lastReceived (sampleEnv shouldNotNotify true)
      (sampleContainer false ["!room"]) (sampleContainer false ["!room"]) timelineSource
      sampleNewMessage (sampleRoom false) (Wrap sampleNewMessage) [] sampleHistoryAfter
      rfl rfl rfl (by decide) rfl rfl (Or.inr ⟨rfl, rfl, rfl, rfl, rfl⟩)).1, by decide⟩

/-! ## Read receipts: the event with the largest timestamp -/

theorem parseReadReceipt_loop_spec (outOfRange : ℚ → Int) (userID : String)
    (raw : List (String × JSON)) :
    ∀ (lt : Int) (le : String),
      lt ≤ (parseReadReceipt.loop outOfRange userID raw lt le).1 ∧
      (∀ kv ∈ raw, ∀ ts, parseReadReceipt.timestamp outOfRange userID kv.2 = some ts →
        ts ≤ (parseReadReceipt.loop outOfRange userID raw lt le).1) ∧
      (parseReadReceipt.loop outOfRange userID raw lt le = (lt, le) ∨
        ∃ rawContent,
          ((parseReadReceipt.loop outOfRange userID raw lt le).2, rawContent) ∈ raw ∧
          parseReadReceipt.timestamp outOfRange userID rawContent
            = some (parseReadReceipt.loop outOfRange userID raw lt le).1 ∧
          lt < (parseReadReceipt.loop outOfRange userID raw lt le).1) := by
  induction raw with
  | nil =>
    intro lt le
    simp [parseReadReceipt.loop]
  | cons kv rest ih =>
    intro lt le
    obtain ⟨eventID, rawContent⟩ := kv
    cases hts : parseReadReceipt.timestamp outOfRange userID rawContent with
    | none =>
      have hl : parseReadReceipt.loop outOfRange userID ((eventID, rawContent) :: rest) lt le
          = parseReadReceipt.loop outOfRange userID rest lt le := by
        rw [parseReadReceipt.loop, hts]
      rw [hl]
      obtain ⟨h1, h2, h3⟩ := ih lt le
      refine ⟨h1, ?_, ?_⟩
      · intro kv hkv ts hkts
        rcases List.mem_cons.mp hkv with rfl | hin
        · rw [hts] at hkts; cases hkts
        · exact h2 kv hin ts hkts
      · rcases h3 with h3 | ⟨rc, hm, ht, hlt⟩
        · exact Or.inl h3
        · exact Or.inr ⟨rc, List.mem_cons_of_mem _ hm, ht, hlt⟩
    | some t =>
      by_cases hgt : t > lt
      · have hl : parseReadReceipt.loop outOfRange userID ((eventID, rawContent) :: rest) lt le
            = parseReadReceipt.loop outOfRange userID rest t eventID := by
          rw [parseReadReceipt.loop, hts]
          simp [hgt]
        rw [hl]
        obtain ⟨h1, h2, h3⟩ := ih t eventID
        refine ⟨by omega, ?_, Or.inr ?_⟩
        · intro kv hkv ts hkts
          rcases List.mem_cons.mp hkv with rfl | hin
          · rw [hts] at hkts
            cases hkts
            exact h1
          · exact h2 kv hin ts hkts
        · rcases h3 with h3 | ⟨rc, hm, ht, hlt⟩
          · rw [h3]
            exact ⟨rawContent, List.mem_cons_self _ _, hts, hgt⟩
          · exact ⟨rc, List.mem_cons_of_mem _ hm, ht, by omega⟩
      · have hl : parseReadReceipt.loop outOfRange userID ((eventID, rawContent) :: rest) lt le
            = parseReadReceipt.loop outOfRange userID rest lt le := by
          rw [parseReadReceipt.loop, hts]
          simp [hgt]
        rw [hl]
        obtain ⟨h1, h2, h3⟩ := ih lt le
        refine ⟨h1, ?_, ?_⟩
        · intro kv hkv ts hkts
          rcases List.mem_cons.mp hkv with rfl | hin
          · rw [hts] at hkts
            cases hkts
            omega
          · exact h2 kv hin ts hkts
        · rcases h3 with h3 | ⟨rc, hm, ht, hlt⟩
          · exact Or.inl h3
          · exact Or.inr ⟨rc, List.mem_cons_of_mem _ hm, ht, hlt⟩

/-- C21: a content whose only key is the empty string, carrying a receipt of
the own user with the timestamp 5: `parseReadReceipt` returns that key, the empty
string, although a key carries an own-user `m.read` entry with a positive
timestamp. -/
theorem parseReadReceipt_empty_key :
    parseReadReceipt sampleOutOfRange (sampleContainer true [])
        (sampleReceiptEvent [("", sampleReceiptOf "@me:example.org" 5)]) = "" ∧
    parseReadReceipt.timestamp sampleOutOfRange (sampleContainer true []).UserID
        (sampleReceiptOf "@me:example.org" 5) = some 5 := by
  constructor <;> decide

/-- Within the range of `int64`, `int64(ts)` of a value that is not negative is
its integer part. -/
theorem int64_eq_floor (outOfRange : ℚ → Int) (ts : ℚ) (h0 : 0 ≤ ts)
    (hmax : ts < 9223372036854775808) : int64 outOfRange ts = ⌊ts⌋ := by
  have hnum : 0 ≤ ts.num := Rat.num_nonneg.mpr h0
  have hfl : ⌊ts⌋ = ts.num / (ts.den : Int) := Rat.floor_def' ts
  have htd : ts.num.tdiv (ts.den : Int) = ts.num / (ts.den : Int) :=
    Int.tdiv_eq_ediv hnum (by positivity)
  have hnn : 0 ≤ ⌊ts⌋ := Int.floor_nonneg.mpr h0
  have hlt : ⌊ts⌋ < 9223372036854775808 := by
    have : ((⌊ts⌋ : Int) : ℚ) < ((9223372036854775808 : Int) : ℚ) :=
      lt_of_le_of_lt (Int.floor_le ts) (by exact_mod_cast hmax)
    exact_mod_cast this
  unfold int64
  simp only [htd, ← hfl]
  rw [if_pos ⟨by omega, hlt⟩]

/-- C21, amended: for every read-receipt event content, with `int64(ts)` as the
timestamp of an own-user `m.read` entry (the integer part of `ts` where it fits
`int64`), `parseReadReceipt` returns the empty string or a key of the content
that carries an own-user `m.read` entry whose timestamp is positive and the
largest over all keys carrying one; it returns the empty string when no key
carries an own-user entry with a positive timestamp, and otherwise a key with
the largest one, which may itself be the empty string. For a content whose keys
are all non-empty it returns the empty string iff no key carries an own-user
entry with a positive timestamp. -/
theorem parseReadReceipt_largest (outOfRange : ℚ → Int) (c : Container) (evt : MxEvent) :
    (parseReadReceipt outOfRange c evt = "" ∨
      ∃ rawContent ts, (parseReadReceipt outOfRange c evt, rawContent) ∈ evt.Content.Raw ∧
        parseReadReceipt.timestamp outOfRange c.UserID rawContent = some ts ∧ 0 < ts ∧
        ∀ kv ∈ evt.Content.Raw, ∀ ts2,
          parseReadReceipt.timestamp outOfRange c.UserID kv.2 = some ts2 → ts2 ≤ ts) ∧
    ((∀ kv ∈ evt.Content.Raw, ∀ ts,
        parseReadReceipt.timestamp outOfRange c.UserID kv.2 = some ts → ts ≤ 0) →
      parseReadReceipt outOfRange c evt = "") ∧
    ((∃ kv ∈ evt.Content.Raw, ∃ ts,
        parseReadReceipt.timestamp outOfRange c.UserID kv.2 = some ts ∧ 0 < ts) →
      ∃ rawContent ts, (parseReadReceipt outOfRange c evt, rawContent) ∈ evt.Content.Raw ∧
        parseReadReceipt.timestamp outOfRange c.UserID rawContent = some ts ∧ 0 < ts ∧
        ∀ kv ∈ evt.Content.Raw, ∀ ts2,
          parseReadReceipt.timestamp outOfRange c.UserID kv.2 = some ts2 → ts2 ≤ ts) ∧
    ((∀ kv ∈ evt.Content.Raw, kv.1 ≠ "") →
      (parseReadReceipt outOfRange c evt = "" ↔
        ∀ kv ∈ evt.Content.Raw, ∀ ts,
          parseReadReceipt.timestamp outOfRange c.UserID kv.2 = some ts → ts ≤ 0)) := by
  obtain ⟨_, hmax, hsel⟩ := parseReadReceipt_loop_spec outOfRange c.UserID evt.Content.Raw 0 ""
  unfold parseReadReceipt
  generalize parseReadReceipt.loop outOfRange c.UserID evt.Content.Raw 0 "" = r at hmax hsel
  have hnone : (∀ kv ∈ evt.Content.Raw, ∀ ts,
      parseReadReceipt.timestamp outOfRange c.UserID kv.2 = some ts → ts ≤ 0) → r.2 = "" := by
    intro hno
    rcases hsel with hr | ⟨rc, hm, ht, hlt⟩
    · rw [hr]
    · have := hno _ hm _ ht
      omega
  refine ⟨?_, hnone, ?_, ?_⟩
  · rcases hsel with hr | ⟨rc, hm, ht, hlt⟩
    · exact Or.inl (by rw [hr])
    · exact Or.inr ⟨rc, r.1, hm, ht, hlt, hmax⟩
  · rintro ⟨kv, hkv, ts, hts, hpos⟩
    rcases hsel with hr | ⟨rc, hm, ht, hlt⟩
    · have := hmax kv hkv ts hts
      rw [hr] at this
      omega
    · exact ⟨rc, r.1, hm, ht, hlt, hmax⟩
  · intro hKeys
    refine ⟨fun hres => ?_, hnone⟩
    rcases hsel with hr | ⟨rc, hm, ht, hlt⟩
    · intro kv hkv ts hts
      have := hmax kv hkv ts hts
      rw [hr] at this
      exact this
    · exact absurd hres (hKeys _ hm)

/-- Witness of C21: of the receipts of the own user at 5.5 and 7 and of another
user at 9, the one at 7 is returned. -/
theorem parseReadReceipt_largest_witness :
    parseReadReceipt sampleOutOfRange (sampleContainer true [])
        (sampleReceiptEvent sampleReceipts) = "$b" ∧
    parseReadReceipt.timestamp sampleOutOfRange (sampleContainer true []).UserID
        (sampleReceiptOf "@me:example.org" sampleHalf) = some 5 ∧
    (∃ rawContent ts,
      (parseReadReceipt sampleOutOfRange (sampleContainer true [])
          (sampleReceiptEvent sampleReceipts), rawContent)
        ∈ (sampleReceiptEvent sampleReceipts).Content.Raw ∧
      parseReadReceipt.timestamp sampleOutOfRange (sampleContainer true []).UserID rawContent
        = some ts ∧ 0 < ts ∧
      ∀ kv ∈ (sampleReceiptEvent sampleReceipts).Content.Raw, ∀ ts2,
        parseReadReceipt.timestamp sampleOutOfRange (sampleContainer true []).UserID kv.2
          = some ts2 → ts2 ≤ ts) ∧
    (parseReadReceipt sampleOutOfRange (sampleContainer true [])
        (sampleReceiptEvent sampleReceipts) = "" ↔
      ∀ kv ∈ (sampleReceiptEvent sampleReceipts).Content.Raw, ∀ ts,
        parseReadReceipt.timestamp sampleOutOfRange (sampleContainer true []).UserID kv.2
          = some ts → ts ≤ 0) :=
  ⟨by decide, by decide,
    (parseReadReceipt_largest sampleOutOfRange (sampleContainer true [])
      (sampleReceiptEvent sampleReceipts)).2.2.1
      ⟨("$b", sampleReceiptOf "@me:example.org" 7), List.Mem.tail _ (List.Mem.head _), 7,
        by decide, by decide⟩,
    (parseReadReceipt_largest sampleOutOfRange (sampleContainer true [])
      (sampleReceiptEvent sampleReceipts)).2.2.2 (by decide)⟩

end Gomuks
